import Mathlib

/-!
Verification development for the csiread CSI parser (Cython source
of this repository).  The decoders `CSI` (Intel 802.11n CSI Tool logs),
`Atheros` and `Nexmon` are shallowly embedded: byte streams become
`List Nat` / `Nat → Nat`, the `fread` cursor becomes an explicit natural
cursor, machine integers become `Nat`/`Int` with explicit masking, and
the growable-then-truncated numpy arrays become total functions together
with an explicit length field.  Reads past the end of the available bytes
return 0 in the model (the C code would see stale buffer contents there);
every theorem below only depends on in-range bytes.
-/

namespace Csiread

/-- Little-endian u16 assembly, after `cu16l` in the source. -/
def cu16l (a b : ℕ) : ℕ := a ||| (b <<< 8)

/-- Big-endian u16 assembly, after `cu16b` in the source. -/
def cu16b (a b : ℕ) : ℕ := b ||| (a <<< 8)

/-- Little-endian u32 assembly, after `cu32l` in the source. -/
def cu32l (a b c d : ℕ) : ℕ := a ||| (b <<< 8) ||| (c <<< 16) ||| (d <<< 24)

/-- Big-endian u32 assembly, after `cu32b` in the source. -/
def cu32b (a b c d : ℕ) : ℕ := d ||| (c <<< 8) ||| (b <<< 16) ||| (a <<< 24)

/-- Little-endian u64 assembly, after `cu64l` in the source. -/
def cu64l (a b c d e f g h : ℕ) : ℕ :=
  a ||| (b <<< 8) ||| (c <<< 16) ||| (d <<< 24) ||| (e <<< 32) ||| (f <<< 40) |||
    (g <<< 48) ||| (h <<< 56)

/-- Big-endian u64 assembly, after `cu64b` in the source. -/
def cu64b (a b c d e f g h : ℕ) : ℕ :=
  h ||| (g <<< 8) ||| (f <<< 16) ||| (e <<< 24) ||| (d <<< 32) ||| (c <<< 40) |||
    (b <<< 48) ||| (a <<< 56)

/-- Reinterpret the low byte of a natural as a signed `int8_t` value. -/
def toInt8 (n : ℕ) : ℤ := if n % 256 < 128 then (n % 256 : ℤ) else (n % 256 : ℤ) - 256

/-- Reinterpret the low 16 bits of a natural as a signed `int16_t` value. -/
def toInt16 (n : ℕ) : ℤ :=
  if n % 65536 < 32768 then (n % 65536 : ℤ) else (n % 65536 : ℤ) - 65536

/-- The Intel CSI sample extractor `ccsi`: combine two payload bytes at a bit
remainder and reinterpret the resulting byte as `int8_t`. -/
def ccsi (a b r : ℕ) : ℤ := toInt8 (((a >>> r) ||| (b <<< (8 - r))) &&& 0xff)

/-!  ## The Nexmon packed-float decoder `unpack_float`

The source decodes `nfft` 32-bit words.  Pass 1 extracts, per word, the
two sign-magnitude mantissas (width `M`, of which `M-1` magnitude bits),
the shared signed exponent (width `E`), runs the bit-length scan
(`autoscale`) and tracks the frame-wide maximum `maxbit`; pass 2 shifts
every magnitude by the per-sample exponent plus `10 - maxbit`, clamping
to zero below `-M`.  -/

/-- The unrolled `while (s > 0)` bit-length scan of `unpack_float`
(`m`/`b` mask evolution precomputed: s = 16, 8, 4, 2, 1). -/
def ascan (x0 : ℕ) (e0 : ℤ) : ℤ :=
  let x1 := if x0 &&& 0xffff0000 ≠ 0 then x0 >>> 16 else x0
  let e1 := if x0 &&& 0xffff0000 ≠ 0 then e0 + 16 else e0
  let x2 := if x1 &&& 0xff00 ≠ 0 then x1 >>> 8 else x1
  let e2 := if x1 &&& 0xff00 ≠ 0 then e1 + 8 else e1
  let x3 := if x2 &&& 0xf0 ≠ 0 then x2 >>> 4 else x2
  let e3 := if x2 &&& 0xf0 ≠ 0 then e2 + 4 else e2
  let x4 := if x3 &&& 0xc ≠ 0 then x3 >>> 2 else x3
  let e4 := if x3 &&& 0xc ≠ 0 then e3 + 2 else e3
  let e5 := if x4 &&& 0x2 ≠ 0 then e4 + 1 else e4
  e5

/-- The 32-bit word holding sample `i`, assembled from the payload bytes by
the endian-selected reader (`nex_cu32(buf[4*i+0], ..., buf[4*i+3])`). -/
def ufWord (cu32 : ℕ → ℕ → ℕ → ℕ → ℕ) (buf : ℕ → ℕ) (i : ℕ) : ℕ :=
  cu32 (buf (4 * i)) (buf (4 * i + 1)) (buf (4 * i + 2)) (buf (4 * i + 3))

/-- Raw per-word fields of `unpack_float`: real magnitude `v_real`, imaginary
magnitude `v_imag` (each `M-1` bits) and the sign-extended `E`-bit exponent. -/
def ufSample (M E : ℕ) (w : ℕ) : ℕ × ℕ × ℤ :=
  let ri_mask := (1 <<< (M - 1)) - 1
  let E_mask := (1 <<< E) - 1
  let e_p : ℤ := ((1 <<< (E - 1) : ℕ) : ℤ)
  let vr := (w >>> (E + M)) &&& ri_mask
  let vi := (w >>> E) &&& ri_mask
  let eraw : ℤ := ((w &&& E_mask : ℕ) : ℤ)
  (vr, vi, if e_p ≤ eraw then eraw - 2 * e_p else eraw)

/-- Real-part sign bit of a packed word (`h & sgnr_mask`). -/
def ufSgnR (M E : ℕ) (w : ℕ) : Bool := w &&& (1 <<< (E + 2 * M - 1)) ≠ 0

/-- Imaginary-part sign bit of a packed word (`h & sgni_mask`). -/
def ufSgnI (M E : ℕ) (w : ℕ) : Bool := w &&& ((1 <<< (E + 2 * M - 1)) >>> M) ≠ 0

/-- One `maxbit` accumulation step of pass 1 of `unpack_float`. -/
def ufStep (cu32 : ℕ → ℕ → ℕ → ℕ → ℕ) (buf : ℕ → ℕ) (M E : ℕ) (mb : ℤ) (i : ℕ) : ℤ :=
  let s := ufSample M E (ufWord cu32 buf i)
  let x := s.1 ||| s.2.1
  if x ≠ 0 then (let e2 := ascan x s.2.2; if mb < e2 then e2 else mb) else mb

/-- Pass 1 of `unpack_float`: the frame-wide `maxbit`, starting from `-e_p`. -/
def ufMaxbit (cu32 : ℕ → ℕ → ℕ → ℕ → ℕ) (buf : ℕ → ℕ) (nfft M E : ℕ) : ℤ :=
  (List.range nfft).foldl (ufStep cu32 buf M E) (-((1 <<< (E - 1) : ℕ) : ℤ))

/-- Pass 2 shift of `unpack_float`: clamp to zero below `e_zero = -M`,
arithmetic right shift for negative exponents, left shift otherwise,
then apply the unpacked sign. -/
def ufShift (M : ℕ) (mag : ℕ) (sgn e : ℤ) : ℤ :=
  if e < -(M : ℤ) then 0
  else if e < 0 then sgn * ((mag >>> (-e).toNat : ℕ) : ℤ)
  else sgn * ((mag <<< e.toNat : ℕ) : ℤ)

/-- The `unpack_float` decoder: `nfft` complex samples (real, imaginary) from
the packed payload, using the two-pass scan-then-shift algorithm with
`nbits = 10`. -/
def unpackFloat (cu32 : ℕ → ℕ → ℕ → ℕ → ℕ) (buf : ℕ → ℕ) (nfft M E : ℕ) :
    List (ℤ × ℤ) :=
  let shft := 10 - ufMaxbit cu32 buf nfft M E
  (List.range nfft).map (fun i =>
    let w := ufWord cu32 buf i
    let s := ufSample M E w
    let e := s.2.2 + shft
    (ufShift M s.1 (if ufSgnR M E w then -1 else 1) e,
     ufShift M s.2.1 (if ufSgnI M E w then -1 else 1) e))

/-- Maximum squared magnitude of a decoded CSI vector (used to state
normalization by a frame's own maximum magnitude). -/
def maxMagSq (l : List (ℤ × ℤ)) : ℤ :=
  l.foldr (fun p m => max (p.1 ^ 2 + p.2 ^ 2) m) 0

theorem lor_eq_zero_parts (a b : ℕ) (h : a ||| b = 0) : a = 0 ∧ b = 0 := by
  constructor <;> apply Nat.eq_of_testBit_eq <;> intro i <;>
  · have h2 := congrArg (fun n => Nat.testBit n i) h
    simp only [Nat.testBit_lor, Nat.zero_testBit, Bool.or_eq_false_iff] at h2
    simp [Nat.zero_testBit]
    tauto

theorem ascan_shift (x : ℕ) (e d : ℤ) : ascan x (e + d) = ascan x e + d := by
  unfold ascan
  dsimp only
  split_ifs <;> omega

theorem ascan_ge (x : ℕ) (e : ℤ) : e ≤ ascan x e := by
  unfold ascan
  dsimp only
  split_ifs <;> omega

theorem ufSample_e_lb (M E : ℕ) (w : ℕ) :
    -((1 <<< (E - 1) : ℕ) : ℤ) ≤ (ufSample M E w).2.2 := by
  unfold ufSample
  dsimp only
  split_ifs <;> omega

theorem ufShift_zero_mag (M : ℕ) (sgn e : ℤ) : ufShift M 0 sgn e = 0 := by
  unfold ufShift
  split_ifs <;> simp

theorem ufStep_shift (cu32 : ℕ → ℕ → ℕ → ℕ → ℕ) (bufA bufB : ℕ → ℕ) (M E : ℕ)
    (d mbA : ℤ) (i : ℕ)
    (h1 : (ufSample M E (ufWord cu32 bufB i)).1 = (ufSample M E (ufWord cu32 bufA i)).1)
    (h2 : (ufSample M E (ufWord cu32 bufB i)).2.1 = (ufSample M E (ufWord cu32 bufA i)).2.1)
    (h3 : (ufSample M E (ufWord cu32 bufB i)).2.2 =
      (ufSample M E (ufWord cu32 bufA i)).2.2 + d) :
    ufStep cu32 bufB M E (mbA + d) i = ufStep cu32 bufA M E mbA i + d := by
  unfold ufStep
  dsimp only
  rw [h1, h2, h3, ascan_shift]
  split_ifs <;> omega

theorem ufFold_shift (cu32 : ℕ → ℕ → ℕ → ℕ → ℕ) (bufA bufB : ℕ → ℕ) (M E : ℕ)
    (d : ℤ) (l : List ℕ)
    (hrel : ∀ i ∈ l,
      (ufSample M E (ufWord cu32 bufB i)).1 = (ufSample M E (ufWord cu32 bufA i)).1 ∧
      (ufSample M E (ufWord cu32 bufB i)).2.1 = (ufSample M E (ufWord cu32 bufA i)).2.1 ∧
      (ufSample M E (ufWord cu32 bufB i)).2.2 =
        (ufSample M E (ufWord cu32 bufA i)).2.2 + d) :
    ∀ mbA : ℤ, l.foldl (ufStep cu32 bufB M E) (mbA + d) =
      l.foldl (ufStep cu32 bufA M E) mbA + d := by
  induction l with
  | nil => intro mbA; simp
  | cons a l ih =>
    intro mbA
    have ha := hrel a (List.mem_cons_self a l)
    simp only [List.foldl_cons]
    rw [ufStep_shift cu32 bufA bufB M E d mbA a ha.1 ha.2.1 ha.2.2]
    exact ih (fun i hi => hrel i (List.mem_cons_of_mem a hi)) _

theorem ufStep_zero_x (cu32 : ℕ → ℕ → ℕ → ℕ → ℕ) (buf : ℕ → ℕ) (M E : ℕ)
    (mb : ℤ) (i : ℕ)
    (hx : (ufSample M E (ufWord cu32 buf i)).1 ||| (ufSample M E (ufWord cu32 buf i)).2.1 = 0) :
    ufStep cu32 buf M E mb i = mb := by
  unfold ufStep
  dsimp only
  rw [hx]
  simp

theorem ufFold_init (cu32 : ℕ → ℕ → ℕ → ℕ → ℕ) (bufA bufB : ℕ → ℕ) (M E : ℕ)
    (d : ℤ) (l : List ℕ)
    (hrel : ∀ i ∈ l,
      (ufSample M E (ufWord cu32 bufB i)).1 = (ufSample M E (ufWord cu32 bufA i)).1 ∧
      (ufSample M E (ufWord cu32 bufB i)).2.1 = (ufSample M E (ufWord cu32 bufA i)).2.1 ∧
      (ufSample M E (ufWord cu32 bufB i)).2.2 =
        (ufSample M E (ufWord cu32 bufA i)).2.2 + d)
    (hex : ∃ i ∈ l,
      (ufSample M E (ufWord cu32 bufA i)).1 ||| (ufSample M E (ufWord cu32 bufA i)).2.1 ≠ 0) :
    l.foldl (ufStep cu32 bufB M E) (-((1 <<< (E - 1) : ℕ) : ℤ)) =
      l.foldl (ufStep cu32 bufA M E) (-((1 <<< (E - 1) : ℕ) : ℤ)) + d := by
  induction l with
  | nil => obtain ⟨i, hi, _⟩ := hex; simp at hi
  | cons a l ih =>
    have ha := hrel a (List.mem_cons_self a l)
    by_cases hxa :
        (ufSample M E (ufWord cu32 bufA a)).1 ||| (ufSample M E (ufWord cu32 bufA a)).2.1 = 0
    · have hxb : (ufSample M E (ufWord cu32 bufB a)).1 |||
          (ufSample M E (ufWord cu32 bufB a)).2.1 = 0 := by
        rw [ha.1, ha.2.1]; exact hxa
      simp only [List.foldl_cons]
      rw [ufStep_zero_x cu32 bufA M E _ a hxa, ufStep_zero_x cu32 bufB M E _ a hxb]
      refine ih (fun i hi => hrel i (List.mem_cons_of_mem a hi)) ?_
      obtain ⟨i, hi, hne⟩ := hex
      rcases List.mem_cons.1 hi with h | h
      · exact absurd hxa (h ▸ hne)
      · exact ⟨i, h, hne⟩
    · -- the first sample with nonzero magnitude pins maxbit to its scan value
      simp only [List.foldl_cons]
      have hstepA : ufStep cu32 bufA M E (-((1 <<< (E - 1) : ℕ) : ℤ)) a =
          ascan ((ufSample M E (ufWord cu32 bufA a)).1 ||| (ufSample M E (ufWord cu32 bufA a)).2.1)
            (ufSample M E (ufWord cu32 bufA a)).2.2 := by
        unfold ufStep
        dsimp only
        rw [if_pos hxa]
        have := ascan_ge
          ((ufSample M E (ufWord cu32 bufA a)).1 ||| (ufSample M E (ufWord cu32 bufA a)).2.1)
          (ufSample M E (ufWord cu32 bufA a)).2.2
        have := ufSample_e_lb M E (ufWord cu32 bufA a)
        split_ifs <;> omega
      have hxb : (ufSample M E (ufWord cu32 bufB a)).1 |||
          (ufSample M E (ufWord cu32 bufB a)).2.1 ≠ 0 := by
        rw [ha.1, ha.2.1]; exact hxa
      have hstepB : ufStep cu32 bufB M E (-((1 <<< (E - 1) : ℕ) : ℤ)) a =
          ascan ((ufSample M E (ufWord cu32 bufA a)).1 ||| (ufSample M E (ufWord cu32 bufA a)).2.1)
            (ufSample M E (ufWord cu32 bufA a)).2.2 + d := by
        unfold ufStep
        dsimp only
        rw [if_pos hxb, ha.1, ha.2.1, ha.2.2, ascan_shift]
        have := ascan_ge
          ((ufSample M E (ufWord cu32 bufA a)).1 ||| (ufSample M E (ufWord cu32 bufA a)).2.1)
          ((ufSample M E (ufWord cu32 bufA a)).2.2 + d)
        have hb := ufSample_e_lb M E (ufWord cu32 bufB a)
        rw [ha.2.2] at hb
        rw [ascan_shift] at this
        split_ifs <;> omega
      rw [hstepA, hstepB]
      exact ufFold_shift cu32 bufA bufB M E d l
        (fun i hi => hrel i (List.mem_cons_of_mem a hi)) _

/-- C2: for the Nexmon packed-float decoder `unpack_float` with the
mantissa/exponent widths of the supported chips, two frames whose samples
have identical magnitude and sign fields and whose per-sample exponents
differ by a uniform shift `d` decode to CSI vectors that are equal
outright, and hence equal after each vector is normalized by its own
maximum magnitude (the square root of its maximum squared magnitude). -/
theorem C2_unpack_float_scale_invariance
    (cu32 : ℕ → ℕ → ℕ → ℕ → ℕ) (bufA bufB : ℕ → ℕ) (nfft M E : ℕ) (d : ℤ)
    (hME : M = 9 ∧ E = 5 ∨ M = 12 ∧ E = 6)
    (hrel : ∀ i, i < nfft →
      (ufSample M E (ufWord cu32 bufB i)).1 = (ufSample M E (ufWord cu32 bufA i)).1 ∧
      (ufSample M E (ufWord cu32 bufB i)).2.1 = (ufSample M E (ufWord cu32 bufA i)).2.1 ∧
      (ufSample M E (ufWord cu32 bufB i)).2.2 =
        (ufSample M E (ufWord cu32 bufA i)).2.2 + d ∧
      ufSgnR M E (ufWord cu32 bufB i) = ufSgnR M E (ufWord cu32 bufA i) ∧
      ufSgnI M E (ufWord cu32 bufB i) = ufSgnI M E (ufWord cu32 bufA i)) :
    unpackFloat cu32 bufB nfft M E = unpackFloat cu32 bufA nfft M E ∧
    (unpackFloat cu32 bufB nfft M E).map
        (fun p => ((p.1 : ℝ) / Real.sqrt ((maxMagSq (unpackFloat cu32 bufB nfft M E) : ℤ) : ℝ),
          (p.2 : ℝ) / Real.sqrt ((maxMagSq (unpackFloat cu32 bufB nfft M E) : ℤ) : ℝ))) =
      (unpackFloat cu32 bufA nfft M E).map
        (fun p => ((p.1 : ℝ) / Real.sqrt ((maxMagSq (unpackFloat cu32 bufA nfft M E) : ℤ) : ℝ),
          (p.2 : ℝ) / Real.sqrt ((maxMagSq (unpackFloat cu32 bufA nfft M E) : ℤ) : ℝ))) := by
  have h0 : unpackFloat cu32 bufB nfft M E = unpackFloat cu32 bufA nfft M E := by
    unfold unpackFloat
    dsimp only
    by_cases hz : ∀ i, i < nfft →
        (ufSample M E (ufWord cu32 bufA i)).1 ||| (ufSample M E (ufWord cu32 bufA i)).2.1 = 0
    · apply List.map_congr_left
      intro i hi
      have hi' := List.mem_range.1 hi
      have hA := hz i hi'
      have h := hrel i hi'
      have hA1 : (ufSample M E (ufWord cu32 bufA i)).1 = 0 := (lor_eq_zero_parts _ _ hA).1
      have hA2 : (ufSample M E (ufWord cu32 bufA i)).2.1 = 0 := (lor_eq_zero_parts _ _ hA).2
      have hB1 : (ufSample M E (ufWord cu32 bufB i)).1 = 0 := by rw [h.1]; exact hA1
      have hB2 : (ufSample M E (ufWord cu32 bufB i)).2.1 = 0 := by rw [h.2.1]; exact hA2
      rw [hA1, hA2, hB1, hB2, ufShift_zero_mag, ufShift_zero_mag, ufShift_zero_mag,
        ufShift_zero_mag]
    · push_neg at hz
      obtain ⟨i0, hi0, hx0⟩ := hz
      have hfold : ufMaxbit cu32 bufB nfft M E = ufMaxbit cu32 bufA nfft M E + d := by
        unfold ufMaxbit
        exact ufFold_init cu32 bufA bufB M E d (List.range nfft)
          (fun i hi => (fun h => ⟨h.1, h.2.1, h.2.2.1⟩) (hrel i (List.mem_range.1 hi)))
          ⟨i0, List.mem_range.2 hi0, hx0⟩
      apply List.map_congr_left
      intro i hi
      have h := hrel i (List.mem_range.1 hi)
      rw [h.1, h.2.1, h.2.2.1, h.2.2.2.1, h.2.2.2.2, hfold]
      have harith : (ufSample M E (ufWord cu32 bufA i)).2.2 + d +
          (10 - (ufMaxbit cu32 bufA nfft M E + d)) =
          (ufSample M E (ufWord cu32 bufA i)).2.2 + (10 - ufMaxbit cu32 bufA nfft M E) := by
        ring
      rw [harith]
  exact ⟨h0, by rw [h0]⟩

/-- Frame A for the C2 witness: one sample, real magnitude 1, exponent 0. -/
def c2BufA : ℕ → ℕ := fun n => if n = 1 then 64 else 0

/-- Frame B for the C2 witness: same sample with exponent raised by 1. -/
def c2BufB : ℕ → ℕ := fun n => if n = 0 then 1 else if n = 1 then 64 else 0

/-- Witness for C2 at a concrete one-sample pair of frames (chip 4358
widths, exponents differing by 1). -/
theorem C2_witness :
    (9 = 9 ∧ 5 = 5 ∨ 9 = 12 ∧ 5 = 6) ∧
    (∀ i, i < 1 →
      (ufSample 9 5 (ufWord cu32l c2BufB i)).1 = (ufSample 9 5 (ufWord cu32l c2BufA i)).1 ∧
      (ufSample 9 5 (ufWord cu32l c2BufB i)).2.1 = (ufSample 9 5 (ufWord cu32l c2BufA i)).2.1 ∧
      (ufSample 9 5 (ufWord cu32l c2BufB i)).2.2 =
        (ufSample 9 5 (ufWord cu32l c2BufA i)).2.2 + 1 ∧
      ufSgnR 9 5 (ufWord cu32l c2BufB i) = ufSgnR 9 5 (ufWord cu32l c2BufA i) ∧
      ufSgnI 9 5 (ufWord cu32l c2BufB i) = ufSgnI 9 5 (ufWord cu32l c2BufA i)) ∧
    (unpackFloat cu32l c2BufB 1 9 5 = unpackFloat cu32l c2BufA 1 9 5 ∧
    (unpackFloat cu32l c2BufB 1 9 5).map
        (fun p => ((p.1 : ℝ) / Real.sqrt ((maxMagSq (unpackFloat cu32l c2BufB 1 9 5) : ℤ) : ℝ),
          (p.2 : ℝ) / Real.sqrt ((maxMagSq (unpackFloat cu32l c2BufB 1 9 5) : ℤ) : ℝ))) =
      (unpackFloat cu32l c2BufA 1 9 5).map
        (fun p => ((p.1 : ℝ) / Real.sqrt ((maxMagSq (unpackFloat cu32l c2BufA 1 9 5) : ℤ) : ℝ),
          (p.2 : ℝ) / Real.sqrt ((maxMagSq (unpackFloat cu32l c2BufA 1 9 5) : ℤ) : ℝ)))) :=
  ⟨Or.inl ⟨rfl, rfl⟩, by decide,
    C2_unpack_float_scale_invariance cu32l c2BufA c2BufB 1 9 5 1 (Or.inl ⟨rfl, rfl⟩) (by decide)⟩

/-!  ## The Intel decoder `CSI`

`CSI.read` walks a stream of TLV records (`u16` big-endian length, `u8`
type code, `length - 1` payload bytes).  Type `0xbb` records feed the
beamformee store, type `0xc1` records the MAC store, all other types are
skipped with `fseek`.  The numpy arrays preallocated by `__init__`
(`pk_num = file_size / 95` entries) are modelled as total functions
together with the observable array length; a record whose count has
reached `pk_num` raises `IndexError` at its first bounds-checked store
write, modelled as an error outcome; the final slicing
`self.x = self.x[:count]` only happens when `read` returns normally. -/

/-- One slot of the Intel beamformee (0xbb) store. -/
structure BBRec where
  timestamp_low : ℕ
  bfee_count : ℕ
  nrx : ℕ
  ntx : ℕ
  rssiA : ℕ
  rssiB : ℕ
  rssiC : ℕ
  noise : ℤ
  agc : ℕ
  rate : ℕ
  perm : ℕ → ℕ
  csi : ℕ → ℕ → ℕ → ℤ × ℤ

/-- A zero-initialized 0xbb slot (`np.zeros`). -/
def zeroBB : BBRec :=
  ⟨0, 0, 0, 0, 0, 0, 0, 0, 0, 0, fun _ => 0, fun _ _ _ => (0, 0)⟩

/-- One slot of the Intel MAC-header (0xc1) store. -/
structure MacRec where
  fc : ℕ
  dur : ℕ
  addr_des : ℕ → ℕ
  addr_src : ℕ → ℕ
  addr_bssid : ℕ → ℕ
  seq : ℕ
  payload : ℕ → ℕ

/-- A zero-initialized 0xc1 slot. -/
def zeroMac : MacRec := ⟨0, 0, fun _ => 0, fun _ => 0, fun _ => 0, 0, fun _ => 0⟩

/-- Update the store slot at index `i` by `f`, leaving all others alone. -/
def storeUpd {α : Type} (i : ℕ) (f : α → α) (st : ℕ → α) : ℕ → α :=
  fun j => if j = i then f (st j) else st j

/-- The header-field writes of a 0xbb record (source lines 213-226: scalar
fields and the three 2-bit permutation entries, written before the
structural checks run). -/
def bbHeaderUpd (buf : ℕ → ℕ) (r : BBRec) : BBRec :=
  { r with
    timestamp_low := cu32l (buf 0) (buf 1) (buf 2) (buf 3)
    bfee_count := cu16l (buf 4) (buf 5)
    nrx := buf 8
    ntx := buf 9
    rssiA := buf 10
    rssiB := buf 11
    rssiC := buf 12
    noise := toInt8 (buf 13)
    agc := buf 14
    rate := cu16l (buf 18) (buf 19)
    perm := fun j =>
      if j = 0 then buf 15 &&& 0x3
      else if j = 1 then (buf 15 >>> 2) &&& 0x3
      else if j = 2 then (buf 15 >>> 4) &&& 0x3
      else r.perm j }

/-- The packed-CSI inner loops of the Intel decoder: 30 subcarriers, then
`buf[8]` receive chains (remapped through the permutation vector), then
`buf[9]` transmit chains, with the rolling 16-bit-per-sample index into
`payload = buf + 20`. -/
def bbCsiLoop (buf : ℕ → ℕ) (perm : ℕ → ℕ) (csi0 : ℕ → ℕ → ℕ → ℤ × ℤ) :
    ℕ → ℕ → ℕ → ℤ × ℤ :=
  ((List.range 30).foldl (fun (acc : ℕ × (ℕ → ℕ → ℕ → ℤ × ℤ)) i =>
    let index0 := acc.1 + 3
    let rem := index0 &&& 0x7
    (List.range (buf 8)).foldl (fun acc2 j =>
      let pj := perm j
      (List.range (buf 9)).foldl (fun (acc3 : ℕ × (ℕ → ℕ → ℕ → ℤ × ℤ)) k =>
        let istep := acc3.1 >>> 3
        let a := ccsi (buf (20 + istep)) (buf (20 + istep + 1)) rem
        let b := ccsi (buf (20 + istep + 1)) (buf (20 + istep + 2)) rem
        (acc3.1 + 16,
         fun s r t => if s = i ∧ r = pj ∧ t = k then (a, b) else acc3.2 s r t))
        acc2) (index0, acc.2)) (0, csi0)).2

/-- The CSI-tensor write of a 0xbb record (runs only after the checks pass). -/
def bbCsiUpd (buf : ℕ → ℕ) (r : BBRec) : BBRec :=
  { r with csi := bbCsiLoop buf r.perm r.csi }

/-- Full decode of one 0xbb payload into a fresh slot. -/
def decodeBB (pl : List ℕ) : BBRec :=
  bbCsiUpd (fun n => pl.getD n 0) (bbHeaderUpd (fun n => pl.getD n 0) zeroBB)

/-- The field writes of a 0xc1 record (source lines 260-271), with the
payload copied up to `min(pl_size, field_len - 1)` bytes. -/
def macUpd (plSize fl : ℕ) (buf : ℕ → ℕ) (r : MacRec) : MacRec :=
  { r with
    fc := cu16l (buf 0) (buf 1)
    dur := cu16l (buf 2) (buf 3)
    addr_des := fun g => if g < 6 then buf (4 + g) else r.addr_des g
    addr_src := fun g => if g < 6 then buf (10 + g) else r.addr_src g
    addr_bssid := fun g => if g < 6 then buf (16 + g) else r.addr_bssid g
    seq := cu16l (buf 22) (buf 23)
    payload := fun g => if g < min plSize (fl - 1) then buf g else r.payload g }

/-- Full decode of one 0xc1 payload into a fresh slot. -/
def decodeMac (plSize : ℕ) (pl : List ℕ) : MacRec :=
  macUpd plSize (pl.length + 1) (fun n => pl.getD n 0) zeroMac

/-- The errors `CSI.read`/`CSI.pmsg` can raise: the two `ValueError`s for
too-small configured antenna maxima, the malformed-frame `Exception` for
a wrong beamforming matrix size, and the `IndexError` thrown by the first
bounds-checked memoryview write of a record when the parsed count has
reached the preallocated array length (`pk_num = file_size / 95`). -/
inductive IntelErr where
  | nrxTooSmall : IntelErr
  | ntxTooSmall : IntelErr
  | badBfeeSize : IntelErr
  | indexError : IntelErr
deriving DecidableEq

/-- Configuration of a `CSI` decoder instance. -/
structure CSICfg where
  Nrxnum : ℕ
  Ntxnum : ℕ
  plSize : ℕ

/-- Intermediate state of the `CSI.read` loop. -/
structure IntelAcc where
  err : Option IntelErr
  cbb : ℕ
  cc1 : ℕ
  bb : ℕ → BBRec
  mac : ℕ → MacRec

/-- The `CSI.read` while-loop.  `cur` is both the manual byte counter of the
source and the `fread` position (they stay in lockstep).  A short payload
read breaks the loop (truncation is not an error).  `pk` is the
preallocated length of every store array: once a record's count has
reached it, the record's first store write (`timestamp_low_mem[...]` for
0xbb, `fc_mem[...]` for 0xc1, both bounds-checked memoryview writes)
raises `IndexError` — this sits after the short-read break and before any
field is stored.  The two antenna-count checks and the beamforming-size
check raise after the header fields of the current record were already
stored.  Reads past the end of the file yield 0 in this model.  `fuel`
bounds the iterations and is chosen larger than the number of loop
iterations at every call site. -/
def csiGo (cfg : CSICfg) (file : List ℕ) (pk : ℕ) :
    ℕ → ℕ → ℕ → ℕ → (ℕ → BBRec) → (ℕ → MacRec) → IntelAcc
  | 0, _, cbb, cc1, bb, mac => ⟨none, cbb, cc1, bb, mac⟩
  | fuel + 1, cur, cbb, cc1, bb, mac =>
    if cur < file.length - 3 then
      let b0 := file.getD cur 0
      let b1 := file.getD (cur + 1) 0
      let code := file.getD (cur + 2) 0
      let fl := b1 + (b0 <<< 8)
      if code = 0xbb then
        if ((min (fl - 1) (file.length - (cur + 3)) : ℕ) : ℤ) ≠ (fl : ℤ) - 1 then
          ⟨none, cbb, cc1, bb, mac⟩
        else if pk ≤ cbb then ⟨some .indexError, cbb, cc1, bb, mac⟩
        else
          let buf := fun n => if n < fl - 1 then file.getD (cur + 3 + n) 0 else 0
          let bb2 := storeUpd cbb (bbHeaderUpd buf) bb
          if cfg.Nrxnum < buf 8 then ⟨some .nrxTooSmall, cbb, cc1, bb2, mac⟩
          else if cfg.Ntxnum < buf 9 then ⟨some .ntxTooSmall, cbb, cc1, bb2, mac⟩
          else if buf 16 ||| (buf 17 <<< 8) ≠ 60 * buf 8 * buf 9 + 12 then
            ⟨some .badBfeeSize, cbb, cc1, bb2, mac⟩
          else
            csiGo cfg file pk fuel (cur + 3 + fl - 1) (cbb + 1) cc1
              (storeUpd cbb (bbCsiUpd buf) bb2) mac
      else if code = 0xc1 then
        if ((min (fl - 1) (file.length - (cur + 3)) : ℕ) : ℤ) ≠ (fl : ℤ) - 1 then
          ⟨none, cbb, cc1, bb, mac⟩
        else if pk ≤ cc1 then ⟨some .indexError, cbb, cc1, bb, mac⟩
        else
          let buf := fun n => if n < fl - 1 then file.getD (cur + 3 + n) 0 else 0
          csiGo cfg file pk fuel (cur + 3 + fl - 1) cbb (cc1 + 1) bb
            (storeUpd cc1 (macUpd cfg.plSize fl buf) mac)
      else
        csiGo cfg file pk fuel (cur + 3 + fl - 1) cbb cc1 bb mac
    else ⟨none, cbb, cc1, bb, mac⟩

/-- The observable state of a `CSI` object after a call: the length of the
0xbb arrays, of the 0xc1 arrays, the `count` attribute and the slots. -/
structure IntelObj where
  alloc : ℕ
  lenBB : ℕ
  lenC1 : ℕ
  count : ℕ
  bb : ℕ → BBRec
  mac : ℕ → MacRec

/-- `CSI.read` on a fresh object (the only way the source ever calls it):
preallocate `file_size / 95` zero slots, run the loop, then either slice
every array to the parsed counts and set `count` (normal return) or
propagate the exception, leaving the arrays unsliced and `count` at 0. -/
def csiRead (cfg : CSICfg) (file : List ℕ) : Option IntelErr × IntelObj :=
  let pk := file.length / 95
  let out := csiGo cfg file pk (file.length + 1) 0 0 0 (fun _ => zeroBB) (fun _ => zeroMac)
  match out.err with
  | some e => (some e, ⟨pk, pk, pk, 0, out.bb, out.mac⟩)
  | none => (none, ⟨pk, out.cbb, out.cc1, out.cbb, out.bb, out.mac⟩)

/-- Result of a `CSI.pmsg` call: the raised error if any, the returned
status code, whether the broken-packet message was printed, and the
object state. -/
structure PmsgOut where
  err : Option IntelErr
  ret : Option ℕ
  warned : Bool
  bb : ℕ → BBRec
  mac : ℕ → MacRec

/-- `CSI.pmsg`: decode one pre-delimited buffer into slot 0.  `data[0]` is
the type code, the rest of the buffer is the payload.  On a 0xbb buffer
the header fields are stored, then the two antenna checks may raise; a
wrong beamforming size prints a message and returns the type code without
running the CSI loop.  Every non-raising path returns the type code. -/
def csiPmsg (cfg : CSICfg) (bb : ℕ → BBRec) (mac : ℕ → MacRec) (data : List ℕ) : PmsgOut :=
  let code := data.getD 0 0
  let buf := fun n => data.getD (1 + n) 0
  if code = 0xbb then
    let bb2 := storeUpd 0 (bbHeaderUpd buf) bb
    if cfg.Nrxnum < buf 8 then ⟨some .nrxTooSmall, none, false, bb2, mac⟩
    else if cfg.Ntxnum < buf 9 then ⟨some .ntxTooSmall, none, false, bb2, mac⟩
    else if buf 16 ||| (buf 17 <<< 8) ≠ 60 * buf 8 * buf 9 + 12 then
      ⟨none, some code, true, bb2, mac⟩
    else
      ⟨none, some code, false, storeUpd 0 (bbCsiUpd buf) bb2, mac⟩
  else if code = 0xc1 then
    ⟨none, some code, false, bb,
      storeUpd 0 (macUpd cfg.plSize (data.length - 1 + 1) buf) mac⟩
  else ⟨none, some code, false, bb, mac⟩

/-- Wire encoding of one Intel TLV record. -/
def encRec (t : ℕ) (pl : List ℕ) : List ℕ :=
  ((pl.length + 1) / 256) :: ((pl.length + 1) % 256) :: t :: pl

/-- Wire encoding of a list of Intel TLV records. -/
def encStream : List (ℕ × List ℕ) → List ℕ
  | [] => []
  | r :: rs => encRec r.1 r.2 ++ encStream rs

/-- A record the `CSI.read` loop consumes without breaking, raising, or
touching memory the parser does not own: nonempty payload that fits the
length field and the parser's 4096-byte stack buffer; for 0xbb records
the two antenna counts within the configured maxima, a consistent
beamforming-size field, a receive count within the 3-entry permutation
row, permutation entries below the receive dimension of the CSI array
(so the bounds-checked CSI writes are in range), and a payload long
enough that every byte the packed-CSI loop reads was actually part of
the record (byte 31 + 60·Nrx·Ntx is the last one read); for 0xc1 records
a payload covering the 24 header bytes the decoder reads. -/
def GoodRec (cfg : CSICfg) (r : ℕ × List ℕ) : Prop :=
  1 ≤ r.2.length ∧ r.2.length + 1 < 65536 ∧ r.2.length ≤ 4096 ∧
  (r.1 = 0xbb → r.2.getD 8 0 ≤ cfg.Nrxnum ∧ r.2.getD 9 0 ≤ cfg.Ntxnum ∧
    r.2.getD 16 0 ||| (r.2.getD 17 0 <<< 8) = 60 * r.2.getD 8 0 * r.2.getD 9 0 + 12 ∧
    r.2.getD 8 0 ≤ 3 ∧
    (∀ j, j < r.2.getD 8 0 → (r.2.getD 15 0 >>> (2 * j)) &&& 0x3 < cfg.Nrxnum) ∧
    32 + 60 * r.2.getD 8 0 * r.2.getD 9 0 ≤ r.2.length) ∧
  (r.1 = 0xc1 → 24 ≤ r.2.length)

instance (cfg : CSICfg) (r : ℕ × List ℕ) : Decidable (GoodRec cfg r) := by
  unfold GoodRec; infer_instance

/-- Loop state without the error flag. -/
structure IntelSt where
  cbb : ℕ
  cc1 : ℕ
  bb : ℕ → BBRec
  mac : ℕ → MacRec

/-- Effect of one successfully consumed record on the loop state. -/
def recEffect (cfg : CSICfg) (st : IntelSt) (r : ℕ × List ℕ) : IntelSt :=
  let buf := fun n => r.2.getD n 0
  if r.1 = 0xbb then
    ⟨st.cbb + 1, st.cc1,
      storeUpd st.cbb (bbCsiUpd buf) (storeUpd st.cbb (bbHeaderUpd buf) st.bb), st.mac⟩
  else if r.1 = 0xc1 then
    ⟨st.cbb, st.cc1 + 1, st.bb,
      storeUpd st.cc1 (macUpd cfg.plSize (r.2.length + 1) buf) st.mac⟩
  else st

/-- Effect of a list of successfully consumed records on the loop state. -/
def streamEffect (cfg : CSICfg) (recs : List (ℕ × List ℕ)) (st : IntelSt) : IntelSt :=
  recs.foldl (recEffect cfg) st

/-- Number of 0xbb records in a stream. -/
def countBB (recs : List (ℕ × List ℕ)) : ℕ := (recs.filter (fun r => r.1 == 0xbb)).length

/-- Number of 0xc1 records in a stream. -/
def countC1 (recs : List (ℕ × List ℕ)) : ℕ := (recs.filter (fun r => r.1 == 0xc1)).length

/-- Payloads of the 0xbb records of a stream, in order. -/
def bbPayloads (recs : List (ℕ × List ℕ)) : List (List ℕ) :=
  (recs.filter (fun r => r.1 == 0xbb)).map Prod.snd

/-- Payloads of the 0xc1 records of a stream, in order. -/
def c1Payloads (recs : List (ℕ × List ℕ)) : List (List ℕ) :=
  (recs.filter (fun r => r.1 == 0xc1)).map Prod.snd

theorem countBB_cons (r : ℕ × List ℕ) (rs : List (ℕ × List ℕ)) :
    countBB (r :: rs) = countBB rs + (if r.1 = 0xbb then 1 else 0) := by
  by_cases ht : r.1 = 0xbb <;> simp [countBB, List.filter_cons, ht]

theorem countC1_cons (r : ℕ × List ℕ) (rs : List (ℕ × List ℕ)) :
    countC1 (r :: rs) = countC1 rs + (if r.1 = 0xc1 then 1 else 0) := by
  by_cases ht : r.1 = 0xc1 <;> simp [countC1, List.filter_cons, ht]

theorem csiGo_exit (cfg : CSICfg) (file : List ℕ) (pk f cur cbb cc1 : ℕ)
    (bb : ℕ → BBRec) (mac : ℕ → MacRec) (h : file.length ≤ cur + 3) :
    csiGo cfg file pk f cur cbb cc1 bb mac = ⟨none, cbb, cc1, bb, mac⟩ := by
  cases f with
  | zero => rfl
  | succ f => rw [csiGo, if_neg (by omega)]

theorem csiGo_step (cfg : CSICfg) (pre : List ℕ) (t : ℕ) (pl : List ℕ) (rest : List ℕ)
    (pk f cbb cc1 : ℕ) (bb : ℕ → BBRec) (mac : ℕ → MacRec)
    (hgood : GoodRec cfg (t, pl))
    (hcapbb : t = 0xbb → cbb < pk) (hcapc1 : t = 0xc1 → cc1 < pk) :
    csiGo cfg (pre ++ (encRec t pl ++ rest)) pk (f + 1) pre.length cbb cc1 bb mac =
      csiGo cfg (pre ++ (encRec t pl ++ rest)) pk f (pre.length + (3 + pl.length))
        (recEffect cfg ⟨cbb, cc1, bb, mac⟩ (t, pl)).cbb
        (recEffect cfg ⟨cbb, cc1, bb, mac⟩ (t, pl)).cc1
        (recEffect cfg ⟨cbb, cc1, bb, mac⟩ (t, pl)).bb
        (recEffect cfg ⟨cbb, cc1, bb, mac⟩ (t, pl)).mac := by
  obtain ⟨hpl1, hpl2, hpl3, hbb, hc1⟩ := hgood
  dsimp only at hpl1 hpl2 hpl3 hbb hc1
  have hflen : (pre ++ (encRec t pl ++ rest)).length =
      pre.length + (3 + pl.length + rest.length) := by
    simp [encRec]; omega
  have hb0 : (pre ++ (encRec t pl ++ rest)).getD pre.length 0 = (pl.length + 1) / 256 := by
    rw [List.getD_append_right _ _ _ _ (le_refl _), Nat.sub_self]
    rfl
  have hb1 : (pre ++ (encRec t pl ++ rest)).getD (pre.length + 1) 0 =
      (pl.length + 1) % 256 := by
    rw [List.getD_append_right _ _ _ _ (by omega), Nat.add_sub_cancel_left]
    rfl
  have hcode : (pre ++ (encRec t pl ++ rest)).getD (pre.length + 2) 0 = t := by
    rw [List.getD_append_right _ _ _ _ (by omega)]
    have h2 : pre.length + 2 - pre.length = 2 := by omega
    rw [h2]
    rfl
  have hfl : (pl.length + 1) % 256 + ((pl.length + 1) / 256) <<< 8 = pl.length + 1 := by
    rw [Nat.shiftLeft_eq]; omega
  have hbufeq : (fun n => if n < pl.length + 1 - 1 then
      (pre ++ (encRec t pl ++ rest)).getD (pre.length + 3 + n) 0 else 0) =
      fun n => pl.getD n 0 := by
    funext n
    by_cases hn : n < pl.length
    · rw [if_pos (by omega), List.getD_append_right _ _ _ _ (by omega)]
      have h3 : pre.length + 3 + n - pre.length = n + 1 + 1 + 1 := by omega
      rw [h3, List.getD_append _ _ _ _ (by simp [encRec]; omega)]
      simp only [encRec, List.getD_cons_succ]
    · rw [if_neg (by omega), eq_comm]
      exact List.getD_eq_default _ _ (by omega)
  have hmin : min (pl.length + 1 - 1) ((pre ++ (encRec t pl ++ rest)).length -
      (pre.length + 3)) = pl.length := by
    rw [hflen]; omega
  have hbuf8 : (if 8 < pl.length + 1 - 1 then
      (pre ++ (encRec t pl ++ rest)).getD (pre.length + 3 + 8) 0 else 0) = pl.getD 8 0 :=
    congrFun hbufeq 8
  have hbuf9 : (if 9 < pl.length + 1 - 1 then
      (pre ++ (encRec t pl ++ rest)).getD (pre.length + 3 + 9) 0 else 0) = pl.getD 9 0 :=
    congrFun hbufeq 9
  have hbuf16 : (if 16 < pl.length + 1 - 1 then
      (pre ++ (encRec t pl ++ rest)).getD (pre.length + 3 + 16) 0 else 0) = pl.getD 16 0 :=
    congrFun hbufeq 16
  have hbuf17 : (if 17 < pl.length + 1 - 1 then
      (pre ++ (encRec t pl ++ rest)).getD (pre.length + 3 + 17) 0 else 0) = pl.getD 17 0 :=
    congrFun hbufeq 17
  rw [csiGo]
  rw [if_pos (by rw [hflen]; omega)]
  dsimp only
  rw [hb0, hb1, hcode, hfl]
  by_cases ht : t = 0xbb
  · rw [if_pos ht, if_neg (by rw [hmin]; push_cast; omega),
      if_neg (by have := hcapbb ht; omega), hbufeq, hbuf8, hbuf9,
      hbuf16, hbuf17]
    have h8 := (hbb ht).1
    have h9 := (hbb ht).2.1
    have h16 := (hbb ht).2.2.1
    rw [if_neg (not_lt.2 h8), if_neg (not_lt.2 h9),
      if_neg (by simp only [ne_eq, not_not]; exact h16)]
    have hcur : pre.length + 3 + (pl.length + 1) - 1 = pre.length + (3 + pl.length) := by
      omega
    rw [hcur]
    have heff : recEffect cfg ⟨cbb, cc1, bb, mac⟩ (t, pl) =
        ⟨cbb + 1, cc1, storeUpd cbb (bbCsiUpd (fun n => pl.getD n 0))
          (storeUpd cbb (bbHeaderUpd (fun n => pl.getD n 0)) bb), mac⟩ := by
      simp [recEffect, ht]
    rw [heff]
  · rw [if_neg ht]
    by_cases ht2 : t = 0xc1
    · rw [if_pos ht2, if_neg (by rw [hmin]; push_cast; omega),
        if_neg (by have := hcapc1 ht2; omega), hbufeq]
      have hcur : pre.length + 3 + (pl.length + 1) - 1 = pre.length + (3 + pl.length) := by
        omega
      rw [hcur]
      have heff : recEffect cfg ⟨cbb, cc1, bb, mac⟩ (t, pl) =
          ⟨cbb, cc1 + 1, bb,
            storeUpd cc1 (macUpd cfg.plSize (pl.length + 1) (fun n => pl.getD n 0)) mac⟩ := by
        simp [recEffect, ht, ht2]
      rw [heff]
    · rw [if_neg ht2]
      have hcur : pre.length + 3 + (pl.length + 1) - 1 = pre.length + (3 + pl.length) := by
        omega
      rw [hcur]
      have heff : recEffect cfg ⟨cbb, cc1, bb, mac⟩ (t, pl) = ⟨cbb, cc1, bb, mac⟩ := by
        simp [recEffect, ht, ht2]
      rw [heff]

theorem csiGo_stream (cfg : CSICfg) :
    ∀ (recs : List (ℕ × List ℕ)) (pre rest : List ℕ) (pk f : ℕ) (st : IntelSt),
    (∀ r ∈ recs, GoodRec cfg r) →
    st.cbb + countBB recs ≤ pk → st.cc1 + countC1 recs ≤ pk →
    csiGo cfg (pre ++ (encStream recs ++ rest)) pk (f + recs.length) pre.length
        st.cbb st.cc1 st.bb st.mac =
      csiGo cfg (pre ++ (encStream recs ++ rest)) pk f
        (pre.length + (encStream recs).length)
        (streamEffect cfg recs st).cbb (streamEffect cfg recs st).cc1
        (streamEffect cfg recs st).bb (streamEffect cfg recs st).mac := by
  intro recs
  induction recs with
  | nil =>
    intro pre rest pk f st h hcb hcc
    simp [encStream, streamEffect]
  | cons r rs ih =>
    intro pre rest pk f st h hcb hcc
    rw [countBB_cons] at hcb
    rw [countC1_cons] at hcc
    have hassoc : pre ++ (encStream (r :: rs) ++ rest) =
        pre ++ (encRec r.1 r.2 ++ (encStream rs ++ rest)) := by
      simp [encStream, List.append_assoc]
    have hassoc2 : pre ++ (encRec r.1 r.2 ++ (encStream rs ++ rest)) =
        (pre ++ encRec r.1 r.2) ++ (encStream rs ++ rest) := by
      simp [List.append_assoc]
    have hlen : f + (r :: rs).length = (f + rs.length) + 1 := by
      simp [List.length_cons]; omega
    have hgr : GoodRec cfg (r.1, r.2) := h r (List.mem_cons_self r rs)
    rw [hassoc, hlen, csiGo_step cfg pre r.1 r.2 (encStream rs ++ rest)
      pk (f + rs.length) st.cbb st.cc1 st.bb st.mac hgr
      (fun ht => by rw [if_pos ht] at hcb; omega)
      (fun ht2 => by rw [if_pos ht2] at hcc; omega)]
    have hcur : pre.length + (3 + r.2.length) = (pre ++ encRec r.1 r.2).length := by
      simp [encRec]; omega
    have heff : recEffect cfg ⟨st.cbb, st.cc1, st.bb, st.mac⟩ (r.1, r.2) =
        recEffect cfg st r := rfl
    rw [hcur, heff, hassoc2]
    have hcb2 : (recEffect cfg st r).cbb + countBB rs ≤ pk := by
      unfold recEffect
      by_cases ht : r.1 = 0xbb
      · rw [if_pos ht] at hcb ⊢
        dsimp only
        omega
      · rw [if_neg ht] at hcb ⊢
        by_cases ht2 : r.1 = 0xc1
        · rw [if_pos ht2]
          dsimp only
          omega
        · rw [if_neg ht2]
          omega
    have hcc2 : (recEffect cfg st r).cc1 + countC1 rs ≤ pk := by
      unfold recEffect
      by_cases ht2 : r.1 = 0xc1
      · have ht : r.1 ≠ 0xbb := by rw [ht2]; decide
        rw [if_pos ht2] at hcc
        rw [if_neg ht, if_pos ht2]
        dsimp only
        omega
      · rw [if_neg ht2] at hcc
        by_cases ht : r.1 = 0xbb
        · rw [if_pos ht]
          dsimp only
          omega
        · rw [if_neg ht, if_neg ht2]
          omega
    have ih2 := ih (pre ++ encRec r.1 r.2) rest pk f (recEffect cfg st r)
      (fun x hx => h x (List.mem_cons_of_mem _ hx)) hcb2 hcc2
    rw [ih2]
    have hlen2 : (pre ++ encRec r.1 r.2).length + (encStream rs).length =
        pre.length + (encStream (r :: rs)).length := by
      simp [encRec, encStream]; omega
    have heff2 : streamEffect cfg rs (recEffect cfg st r) =
        streamEffect cfg (r :: rs) st := by
      simp [streamEffect]
    rw [hlen2, heff2, ← hassoc2, ← hassoc]

theorem storeUpd_same {α : Type} (i : ℕ) (f : α → α) (st : ℕ → α) :
    storeUpd i f st i = f (st i) := by simp [storeUpd]

theorem storeUpd_other {α : Type} (i j : ℕ) (f : α → α) (st : ℕ → α) (h : j ≠ i) :
    storeUpd i f st j = st j := by simp [storeUpd, h]

theorem streamEffect_spec (cfg : CSICfg) :
    ∀ (recs : List (ℕ × List ℕ)) (st : IntelSt),
    (∀ i, st.cbb ≤ i → st.bb i = zeroBB) →
    (∀ i, st.cc1 ≤ i → st.mac i = zeroMac) →
    (streamEffect cfg recs st).cbb = st.cbb + countBB recs ∧
    (streamEffect cfg recs st).cc1 = st.cc1 + countC1 recs ∧
    (∀ i, i < st.cbb → (streamEffect cfg recs st).bb i = st.bb i) ∧
    (∀ n, n < countBB recs →
      (streamEffect cfg recs st).bb (st.cbb + n) = decodeBB ((bbPayloads recs).getD n [])) ∧
    (∀ i, st.cbb + countBB recs ≤ i → (streamEffect cfg recs st).bb i = zeroBB) ∧
    (∀ i, i < st.cc1 → (streamEffect cfg recs st).mac i = st.mac i) ∧
    (∀ n, n < countC1 recs →
      (streamEffect cfg recs st).mac (st.cc1 + n) =
        decodeMac cfg.plSize ((c1Payloads recs).getD n [])) ∧
    (∀ i, st.cc1 + countC1 recs ≤ i → (streamEffect cfg recs st).mac i = zeroMac) := by
  intro recs
  induction recs with
  | nil =>
    intro st hbb0 hmac0
    refine ⟨by simp [streamEffect, countBB], by simp [streamEffect, countC1],
      fun i _ => by simp [streamEffect], fun n hn => by simp [countBB] at hn,
      fun i hi => by simpa [streamEffect, countBB] using hbb0 i (by simpa [countBB] using hi),
      fun i _ => by simp [streamEffect],
      fun n hn => by simp [countC1] at hn,
      fun i hi => by simpa [streamEffect, countC1] using hmac0 i (by simpa [countC1] using hi)⟩
  | cons r rs ih =>
    intro st hbb0 hmac0
    have hfold : streamEffect cfg (r :: rs) st = streamEffect cfg rs (recEffect cfg st r) := by
      simp [streamEffect]
    by_cases ht : r.1 = 0xbb
    · -- the 0xbb case
      have heff : recEffect cfg st r =
          ⟨st.cbb + 1, st.cc1,
            storeUpd st.cbb (bbCsiUpd (fun n => r.2.getD n 0))
              (storeUpd st.cbb (bbHeaderUpd (fun n => r.2.getD n 0)) st.bb), st.mac⟩ := by
        simp [recEffect, ht]
      have hcnt : countBB (r :: rs) = countBB rs + 1 := by
        simp [countBB, List.filter_cons, ht]
      have hcnt1 : countC1 (r :: rs) = countC1 rs := by
        simp [countC1, List.filter_cons, ht]
      have hpls : bbPayloads (r :: rs) = r.2 :: bbPayloads rs := by
        simp [bbPayloads, List.filter_cons, ht]
      have hpls1 : c1Payloads (r :: rs) = c1Payloads rs := by
        simp [c1Payloads, List.filter_cons, ht]
      set st2 := recEffect cfg st r with hst2
      have h2bb : ∀ i, st2.cbb ≤ i → st2.bb i = zeroBB := by
        intro i hi
        rw [heff] at hi ⊢
        dsimp only at hi ⊢
        rw [storeUpd_other _ _ _ _ (by omega), storeUpd_other _ _ _ _ (by omega)]
        exact hbb0 i (by omega)
      have h2mac : ∀ i, st2.cc1 ≤ i → st2.mac i = zeroMac := by
        intro i hi
        rw [heff] at hi ⊢
        dsimp only at hi ⊢
        exact hmac0 i hi
      obtain ⟨i1, i2, i3, i4, i5, i6, i7, i8⟩ := ih st2 h2bb h2mac
      have hc2 : st2.cbb = st.cbb + 1 := by rw [heff]
      have hcc2 : st2.cc1 = st.cc1 := by rw [heff]
      rw [hfold]
      refine ⟨by rw [i1, hc2, hcnt]; omega, by rw [i2, hcc2, hcnt1],
        ?_, ?_, ?_, ?_, ?_, ?_⟩
      · intro i hi
        rw [i3 i (by omega), heff]
        dsimp only
        rw [storeUpd_other _ _ _ _ (by omega), storeUpd_other _ _ _ _ (by omega)]
      · intro n hn
        cases n with
        | zero =>
          have := i3 st.cbb (by omega)
          rw [Nat.add_zero, this, heff]
          dsimp only
          rw [storeUpd_same, storeUpd_same, hbb0 st.cbb (le_refl _), hpls]
          rfl
        | succ m =>
          have hm : m < countBB rs := by omega
          have := i4 m hm
          rw [hc2] at this
          have harith : st.cbb + (m + 1) = st.cbb + 1 + m := by omega
          rw [harith, this, hpls]
          rfl
      · intro i hi
        rw [hcnt] at hi
        exact i5 i (by omega)
      · intro i hi
        rw [i6 i (by rw [hcc2]; omega), heff]
      · intro n hn
        rw [hcnt1] at hn
        have := i7 n hn
        rw [hcc2] at this
        rw [this, hpls1]
      · intro i hi
        rw [hcnt1] at hi
        exact i8 i (by rw [hcc2]; omega)
    · by_cases ht2 : r.1 = 0xc1
      · -- the 0xc1 case
        have heff : recEffect cfg st r =
            ⟨st.cbb, st.cc1 + 1, st.bb,
              storeUpd st.cc1 (macUpd cfg.plSize (r.2.length + 1) (fun n => r.2.getD n 0))
                st.mac⟩ := by
          simp [recEffect, ht, ht2]
        have hcnt : countBB (r :: rs) = countBB rs := by
          simp [countBB, List.filter_cons, ht]
        have hcnt1 : countC1 (r :: rs) = countC1 rs + 1 := by
          simp [countC1, List.filter_cons, ht2]
        have hpls : bbPayloads (r :: rs) = bbPayloads rs := by
          simp [bbPayloads, List.filter_cons, ht]
        have hpls1 : c1Payloads (r :: rs) = r.2 :: c1Payloads rs := by
          simp [c1Payloads, List.filter_cons, ht2]
        set st2 := recEffect cfg st r with hst2
        have h2bb : ∀ i, st2.cbb ≤ i → st2.bb i = zeroBB := by
          intro i hi
          rw [heff] at hi ⊢
          exact hbb0 i hi
        have h2mac : ∀ i, st2.cc1 ≤ i → st2.mac i = zeroMac := by
          intro i hi
          rw [heff] at hi ⊢
          dsimp only at hi ⊢
          rw [storeUpd_other _ _ _ _ (by omega)]
          exact hmac0 i (by omega)
        obtain ⟨i1, i2, i3, i4, i5, i6, i7, i8⟩ := ih st2 h2bb h2mac
        have hc2 : st2.cbb = st.cbb := by rw [heff]
        have hcc2 : st2.cc1 = st.cc1 + 1 := by rw [heff]
        rw [hfold]
        refine ⟨by rw [i1, hc2, hcnt], by rw [i2, hcc2, hcnt1]; omega,
          ?_, ?_, ?_, ?_, ?_, ?_⟩
        · intro i hi
          rw [i3 i (by rw [hc2]; omega), heff]
        · intro n hn
          rw [hcnt] at hn
          have := i4 n hn
          rw [hc2] at this
          rw [this, hpls]
        · intro i hi
          rw [hcnt] at hi
          exact i5 i (by rw [hc2]; omega)
        · intro i hi
          rw [i6 i (by omega), heff]
          dsimp only
          rw [storeUpd_other _ _ _ _ (by omega)]
        · intro n hn
          cases n with
          | zero =>
            have := i6 st.cc1 (by omega)
            rw [Nat.add_zero, this, heff]
            dsimp only
            rw [storeUpd_same, hmac0 st.cc1 (le_refl _), hpls1]
            rfl
          | succ m =>
            rw [hcnt1] at hn
            have hm : m < countC1 rs := by omega
            have := i7 m hm
            rw [hcc2] at this
            have harith : st.cc1 + (m + 1) = st.cc1 + 1 + m := by omega
            rw [harith, this, hpls1]
            rfl
        · intro i hi
          rw [hcnt1] at hi
          exact i8 i (by rw [hcc2]; omega)
      · -- skipped record type
        have heff : recEffect cfg st r = st := by
          simp [recEffect, ht, ht2]
        have hcnt : countBB (r :: rs) = countBB rs := by
          simp [countBB, List.filter_cons, ht]
        have hcnt1 : countC1 (r :: rs) = countC1 rs := by
          simp [countC1, List.filter_cons, ht2]
        have hpls : bbPayloads (r :: rs) = bbPayloads rs := by
          simp [bbPayloads, List.filter_cons, ht]
        have hpls1 : c1Payloads (r :: rs) = c1Payloads rs := by
          simp [c1Payloads, List.filter_cons, ht2]
        rw [hfold, heff]
        obtain ⟨i1, i2, i3, i4, i5, i6, i7, i8⟩ := ih st hbb0 hmac0
        exact ⟨by rw [i1, hcnt], by rw [i2, hcnt1],
          i3, fun n hn => by rw [hpls]; exact i4 n (by rwa [hcnt] at hn),
          fun i hi => i5 i (by rwa [hcnt] at hi), i6,
          fun n hn => by rw [hpls1]; exact i7 n (by rwa [hcnt1] at hn),
          fun i hi => i8 i (by rwa [hcnt1] at hi)⟩

theorem encStream_len_ge (recs : List (ℕ × List ℕ)) :
    recs.length ≤ (encStream recs).length := by
  induction recs with
  | nil => simp [encStream]
  | cons r rs ih => simp [encStream, encRec]; omega

/-- Running the `CSI.read` loop over a complete well-formed stream from a
fresh store: no error, and the state is the accumulated record effects. -/
theorem csiGo_full (cfg : CSICfg) (recs : List (ℕ × List ℕ)) (pk f : ℕ)
    (hgood : ∀ r ∈ recs, GoodRec cfg r)
    (hcb : countBB recs ≤ pk) (hcc : countC1 recs ≤ pk) :
    csiGo cfg (encStream recs) pk (f + recs.length) 0 0 0
        (fun _ => zeroBB) (fun _ => zeroMac) =
      ⟨none,
        (streamEffect cfg recs ⟨0, 0, fun _ => zeroBB, fun _ => zeroMac⟩).cbb,
        (streamEffect cfg recs ⟨0, 0, fun _ => zeroBB, fun _ => zeroMac⟩).cc1,
        (streamEffect cfg recs ⟨0, 0, fun _ => zeroBB, fun _ => zeroMac⟩).bb,
        (streamEffect cfg recs ⟨0, 0, fun _ => zeroBB, fun _ => zeroMac⟩).mac⟩ := by
  have hfile : encStream recs = ([] : List ℕ) ++ (encStream recs ++ []) := by simp
  have h := csiGo_stream cfg recs [] [] pk f ⟨0, 0, fun _ => zeroBB, fun _ => zeroMac⟩
    hgood (by dsimp only; omega) (by dsimp only; omega)
  rw [← hfile] at h
  simp only [List.length_nil, Nat.zero_add] at h
  rw [h, csiGo_exit]
  simp

theorem csiRead_encStream (cfg : CSICfg) (recs : List (ℕ × List ℕ))
    (hgood : ∀ r ∈ recs, GoodRec cfg r)
    (hcb : countBB recs ≤ (encStream recs).length / 95)
    (hcc : countC1 recs ≤ (encStream recs).length / 95) :
    csiRead cfg (encStream recs) =
      (none,
        ⟨(encStream recs).length / 95,
          (streamEffect cfg recs ⟨0, 0, fun _ => zeroBB, fun _ => zeroMac⟩).cbb,
          (streamEffect cfg recs ⟨0, 0, fun _ => zeroBB, fun _ => zeroMac⟩).cc1,
          (streamEffect cfg recs ⟨0, 0, fun _ => zeroBB, fun _ => zeroMac⟩).cbb,
          (streamEffect cfg recs ⟨0, 0, fun _ => zeroBB, fun _ => zeroMac⟩).bb,
          (streamEffect cfg recs ⟨0, 0, fun _ => zeroBB, fun _ => zeroMac⟩).mac⟩) := by
  have hfuel : (encStream recs).length + 1 =
      ((encStream recs).length + 1 - recs.length) + recs.length := by
    have := encStream_len_ge recs
    omega
  unfold csiRead
  dsimp only
  rw [hfuel, csiGo_full cfg recs ((encStream recs).length / 95) _ hgood hcb hcc]

/-- C6: batch decode of a well-formed Intel TLV stream whose per-type
record counts fit the preallocated `file_size / 95` store (otherwise a
store write would raise `IndexError`): no error; the 0xbb and 0xc1
counts equal the number of records of those types (records of any other
type are skipped without touching either store); each 0xbb record is
decoded into its slot as a CSI record and each 0xc1 record as a
MAC-header record, where a record on the wire is a 2-byte big-endian
length prefix, a 1-byte type code and `length - 1` payload bytes. -/
theorem C6_tlv_stream_decode (cfg : CSICfg) (recs : List (ℕ × List ℕ))
    (hgood : ∀ r ∈ recs, GoodRec cfg r)
    (hcb : countBB recs ≤ (encStream recs).length / 95)
    (hcc : countC1 recs ≤ (encStream recs).length / 95) :
    (csiRead cfg (encStream recs)).1 = none ∧
    (csiRead cfg (encStream recs)).2.lenBB = countBB recs ∧
    (csiRead cfg (encStream recs)).2.lenC1 = countC1 recs ∧
    (csiRead cfg (encStream recs)).2.count = countBB recs ∧
    (∀ n, n < countBB recs →
      (csiRead cfg (encStream recs)).2.bb n = decodeBB ((bbPayloads recs).getD n [])) ∧
    (∀ n, n < countC1 recs →
      (csiRead cfg (encStream recs)).2.mac n =
        decodeMac cfg.plSize ((c1Payloads recs).getD n [])) := by
  obtain ⟨s1, s2, s3, s4, s5, s6, s7, s8⟩ := streamEffect_spec cfg recs
    ⟨0, 0, fun _ => zeroBB, fun _ => zeroMac⟩ (fun i _ => rfl) (fun i _ => rfl)
  rw [csiRead_encStream cfg recs hgood hcb hcc]
  refine ⟨rfl, by dsimp only; rw [s1]; dsimp only; omega,
    by dsimp only; rw [s2]; dsimp only; omega,
    by dsimp only; rw [s1]; dsimp only; omega, fun n hn => ?_, fun n hn => ?_⟩
  · dsimp only
    have h := s4 n hn
    dsimp only at h
    rwa [Nat.zero_add] at h
  · dsimp only
    have h := s7 n hn
    dsimp only at h
    rwa [Nat.zero_add] at h

set_option maxRecDepth 8192 in
/-- Four 24-byte 0xc1 records (108 file bytes, so a preallocation of just
108 / 95 = 1 slot): the second record's first store write is out of
range and `CSI.read` raises `IndexError` — the store capacity is part of
the loop's observable behaviour. -/
theorem csiRead_overflow_indexError :
    (csiRead ⟨3, 2, 0⟩ (encStream [(0xc1, List.range 24), (0xc1, List.range 24),
      (0xc1, List.range 24), (0xc1, List.range 24)])).1 = some .indexError := by
  decide

/-- A consistent 0xbb payload used by several witnesses: Nrx = Ntx = 1 and
beamforming size field 60·1·1 + 12 = 72. -/
def bbGoodPl : List ℕ :=
  (List.range 92).map (fun n => if n = 8 then 1 else if n = 9 then 1 else
    if n = 16 then 72 else 0)

/-- Record stream for the C6 witness: one 0xbb record, one 0xc1 record
and one record of an unhandled type. -/
def c6Recs : List (ℕ × List ℕ) := [(0xbb, bbGoodPl), (0xc1, List.range 24), (0x34, [5])]

set_option maxRecDepth 8192 in
/-- Witness for C6 on a concrete three-record stream. -/
theorem C6_witness :
    (∀ r ∈ c6Recs, GoodRec ⟨3, 2, 0⟩ r) ∧
    countBB c6Recs ≤ (encStream c6Recs).length / 95 ∧
    countC1 c6Recs ≤ (encStream c6Recs).length / 95 ∧
    ((csiRead ⟨3, 2, 0⟩ (encStream c6Recs)).1 = none ∧
    (csiRead ⟨3, 2, 0⟩ (encStream c6Recs)).2.lenBB = countBB c6Recs ∧
    (csiRead ⟨3, 2, 0⟩ (encStream c6Recs)).2.lenC1 = countC1 c6Recs ∧
    (csiRead ⟨3, 2, 0⟩ (encStream c6Recs)).2.count = countBB c6Recs ∧
    (∀ n, n < countBB c6Recs →
      (csiRead ⟨3, 2, 0⟩ (encStream c6Recs)).2.bb n =
        decodeBB ((bbPayloads c6Recs).getD n [])) ∧
    (∀ n, n < countC1 c6Recs →
      (csiRead ⟨3, 2, 0⟩ (encStream c6Recs)).2.mac n =
        decodeMac (⟨3, 2, 0⟩ : CSICfg).plSize ((c1Payloads c6Recs).getD n []))) :=
  ⟨by decide, by decide, by decide,
    C6_tlv_stream_decode ⟨3, 2, 0⟩ c6Recs (by decide) (by decide) (by decide)⟩

/-- Hitting a 0xbb record whose beamforming-size field is inconsistent
(after the two antenna checks pass): the loop stops with the
malformed-frame error; the header fields of the bad record were already
written into the next slot, nothing else changed. -/
theorem csiGo_bad_bfee (cfg : CSICfg) (pre : List ℕ) (pl rest : List ℕ)
    (pk f cbb cc1 : ℕ) (bb : ℕ → BBRec) (mac : ℕ → MacRec)
    (hpl1 : 1 ≤ pl.length) (hcap : cbb < pk)
    (h8 : pl.getD 8 0 ≤ cfg.Nrxnum) (h9 : pl.getD 9 0 ≤ cfg.Ntxnum)
    (hsz : pl.getD 16 0 ||| (pl.getD 17 0 <<< 8) ≠ 60 * pl.getD 8 0 * pl.getD 9 0 + 12) :
    csiGo cfg (pre ++ (encRec 0xbb pl ++ rest)) pk (f + 1) pre.length cbb cc1 bb mac =
      ⟨some .badBfeeSize, cbb, cc1,
        storeUpd cbb (bbHeaderUpd (fun n => pl.getD n 0)) bb, mac⟩ := by
  have hflen : (pre ++ (encRec 0xbb pl ++ rest)).length =
      pre.length + (3 + pl.length + rest.length) := by
    simp [encRec]; omega
  have hb0 : (pre ++ (encRec 0xbb pl ++ rest)).getD pre.length 0 = (pl.length + 1) / 256 := by
    rw [List.getD_append_right _ _ _ _ (le_refl _), Nat.sub_self]
    rfl
  have hb1 : (pre ++ (encRec 0xbb pl ++ rest)).getD (pre.length + 1) 0 =
      (pl.length + 1) % 256 := by
    rw [List.getD_append_right _ _ _ _ (by omega), Nat.add_sub_cancel_left]
    rfl
  have hcode : (pre ++ (encRec 0xbb pl ++ rest)).getD (pre.length + 2) 0 = 0xbb := by
    rw [List.getD_append_right _ _ _ _ (by omega)]
    have h2 : pre.length + 2 - pre.length = 2 := by omega
    rw [h2]
    rfl
  have hfl : (pl.length + 1) % 256 + ((pl.length + 1) / 256) <<< 8 = pl.length + 1 := by
    rw [Nat.shiftLeft_eq]; omega
  have hbufeq : (fun n => if n < pl.length + 1 - 1 then
      (pre ++ (encRec 0xbb pl ++ rest)).getD (pre.length + 3 + n) 0 else 0) =
      fun n => pl.getD n 0 := by
    funext n
    by_cases hn : n < pl.length
    · rw [if_pos (by omega), List.getD_append_right _ _ _ _ (by omega)]
      have h3 : pre.length + 3 + n - pre.length = n + 1 + 1 + 1 := by omega
      rw [h3, List.getD_append _ _ _ _ (by simp [encRec]; omega)]
      simp only [encRec, List.getD_cons_succ]
    · rw [if_neg (by omega), eq_comm]
      exact List.getD_eq_default _ _ (by omega)
  have hmin : min (pl.length + 1 - 1) ((pre ++ (encRec 0xbb pl ++ rest)).length -
      (pre.length + 3)) = pl.length := by
    rw [hflen]; omega
  have hbuf8 : (if 8 < pl.length + 1 - 1 then
      (pre ++ (encRec 0xbb pl ++ rest)).getD (pre.length + 3 + 8) 0 else 0) = pl.getD 8 0 :=
    congrFun hbufeq 8
  have hbuf9 : (if 9 < pl.length + 1 - 1 then
      (pre ++ (encRec 0xbb pl ++ rest)).getD (pre.length + 3 + 9) 0 else 0) = pl.getD 9 0 :=
    congrFun hbufeq 9
  have hbuf16 : (if 16 < pl.length + 1 - 1 then
      (pre ++ (encRec 0xbb pl ++ rest)).getD (pre.length + 3 + 16) 0 else 0) = pl.getD 16 0 :=
    congrFun hbufeq 16
  have hbuf17 : (if 17 < pl.length + 1 - 1 then
      (pre ++ (encRec 0xbb pl ++ rest)).getD (pre.length + 3 + 17) 0 else 0) = pl.getD 17 0 :=
    congrFun hbufeq 17
  rw [csiGo]
  rw [if_pos (by rw [hflen]; omega)]
  dsimp only
  rw [hb0, hb1, hcode, hfl]
  rw [if_pos rfl, if_neg (by rw [hmin]; push_cast; omega), if_neg (by omega),
    hbufeq, hbuf8, hbuf9, hbuf16, hbuf17]
  rw [if_neg (not_lt.2 h8), if_neg (not_lt.2 h9), if_pos hsz]

/-- C1 (amended): batch decode of a stream whose `k`-th record is a 0xbb
record with an inconsistent beamforming-size field (antenna checks
passing), after `k` well-formed records, all fitting the preallocated
`file_size / 95` store (with a full store the loop raises `IndexError`
at the bad record's header write before its size check runs): the call
raises the malformed-frame error; the records parsed before the bad one
are intact in their slots, but the store is NOT truncated by the failing
call — the arrays keep the preallocated length `file_size / 95` and the
`count` attribute is not updated (truncation only happens on a normal
return). -/
theorem C1_store_after_bad_bfee (cfg : CSICfg) (recs : List (ℕ × List ℕ))
    (pl rest : List ℕ)
    (hgood : ∀ r ∈ recs, GoodRec cfg r)
    (hpl1 : 1 ≤ pl.length)
    (hcapbb : countBB recs < (encStream recs ++ (encRec 0xbb pl ++ rest)).length / 95)
    (hcapc1 : countC1 recs ≤ (encStream recs ++ (encRec 0xbb pl ++ rest)).length / 95)
    (h8 : pl.getD 8 0 ≤ cfg.Nrxnum) (h9 : pl.getD 9 0 ≤ cfg.Ntxnum)
    (hsz : pl.getD 16 0 ||| (pl.getD 17 0 <<< 8) ≠ 60 * pl.getD 8 0 * pl.getD 9 0 + 12) :
    (csiRead cfg (encStream recs ++ (encRec 0xbb pl ++ rest))).1 = some .badBfeeSize ∧
    (csiRead cfg (encStream recs ++ (encRec 0xbb pl ++ rest))).2.lenBB =
      (encStream recs ++ (encRec 0xbb pl ++ rest)).length / 95 ∧
    (csiRead cfg (encStream recs ++ (encRec 0xbb pl ++ rest))).2.count = 0 ∧
    (∀ n, n < countBB recs →
      (csiRead cfg (encStream recs ++ (encRec 0xbb pl ++ rest))).2.bb n =
        decodeBB ((bbPayloads recs).getD n [])) := by
  obtain ⟨s1, s2, s3, s4, s5, s6, s7, s8⟩ := streamEffect_spec cfg recs
    ⟨0, 0, fun _ => zeroBB, fun _ => zeroMac⟩ (fun i _ => rfl) (fun i _ => rfl)
  have hle : recs.length ≤ (encStream recs ++ (encRec 0xbb pl ++ rest)).length := by
    have := encStream_len_ge recs
    simp only [List.length_append]
    omega
  have hfuel : (encStream recs ++ (encRec 0xbb pl ++ rest)).length + 1 =
      (((encStream recs ++ (encRec 0xbb pl ++ rest)).length - recs.length) + 1) +
        recs.length := by omega
  have h := csiGo_stream cfg recs [] (encRec 0xbb pl ++ rest)
    ((encStream recs ++ (encRec 0xbb pl ++ rest)).length / 95)
    (((encStream recs ++ (encRec 0xbb pl ++ rest)).length - recs.length) + 1)
    ⟨0, 0, fun _ => zeroBB, fun _ => zeroMac⟩ hgood
    (by dsimp only; omega) (by dsimp only; omega)
  simp only [List.nil_append, List.length_nil, Nat.zero_add] at h
  have h2 := csiGo_bad_bfee cfg (encStream recs) pl rest
    ((encStream recs ++ (encRec 0xbb pl ++ rest)).length / 95)
    ((encStream recs ++ (encRec 0xbb pl ++ rest)).length - recs.length)
    (streamEffect cfg recs ⟨0, 0, fun _ => zeroBB, fun _ => zeroMac⟩).cbb
    (streamEffect cfg recs ⟨0, 0, fun _ => zeroBB, fun _ => zeroMac⟩).cc1
    (streamEffect cfg recs ⟨0, 0, fun _ => zeroBB, fun _ => zeroMac⟩).bb
    (streamEffect cfg recs ⟨0, 0, fun _ => zeroBB, fun _ => zeroMac⟩).mac
    hpl1 (by rw [s1]; dsimp only; omega) h8 h9 hsz
  rw [h2] at h
  unfold csiRead
  dsimp only
  rw [hfuel, h]
  refine ⟨rfl, rfl, rfl, fun n hn => ?_⟩
  dsimp only
  rw [storeUpd_other _ _ _ _ (by rw [s1]; dsimp only; omega)]
  have h4 := s4 n hn
  dsimp only at h4
  rwa [Nat.zero_add] at h4

/-- An inconsistent 0xbb payload: Nrx = Ntx = 1 but beamforming size
field 0 instead of 72. -/
def bbBadPl : List ℕ :=
  (List.range 92).map (fun n => if n = 8 then 1 else if n = 9 then 1 else 0)

set_option maxRecDepth 8192 in
/-- Counterexample to C1 as stated: a 95-byte file holding exactly one bad
0xbb record (zero records parsed before it).  The decode raises the
malformed-frame error, but the store length after the call is the
preallocated 1, not 0 — `CSI.read` never truncates the arrays when the
exception propagates. -/
theorem C1_counterexample :
    (csiRead ⟨3, 2, 0⟩ (encRec 0xbb bbBadPl)).1 = some .badBfeeSize ∧
    (csiRead ⟨3, 2, 0⟩ (encRec 0xbb bbBadPl)).2.lenBB = 1 ∧
    (1 : ℕ) ≠ 0 := by
  refine ⟨by decide, by decide, by decide⟩

set_option maxRecDepth 8192 in
/-- Witness for the amended C1 at a concrete stream: one good 0xbb record
followed by the bad record. -/
theorem C1_witness :
    ((∀ r ∈ [((0xbb : ℕ), bbGoodPl)], GoodRec ⟨3, 2, 0⟩ r) ∧
     1 ≤ bbBadPl.length ∧
     bbBadPl.getD 8 0 ≤ (⟨3, 2, 0⟩ : CSICfg).Nrxnum ∧
     bbBadPl.getD 9 0 ≤ (⟨3, 2, 0⟩ : CSICfg).Ntxnum ∧
     bbBadPl.getD 16 0 ||| (bbBadPl.getD 17 0 <<< 8) ≠
       60 * bbBadPl.getD 8 0 * bbBadPl.getD 9 0 + 12 ∧
     countBB [((0xbb : ℕ), bbGoodPl)] <
       (encStream [((0xbb : ℕ), bbGoodPl)] ++ (encRec 0xbb bbBadPl ++ [])).length / 95 ∧
     countC1 [((0xbb : ℕ), bbGoodPl)] ≤
       (encStream [((0xbb : ℕ), bbGoodPl)] ++ (encRec 0xbb bbBadPl ++ [])).length / 95) ∧
    ((csiRead ⟨3, 2, 0⟩ (encStream [((0xbb : ℕ), bbGoodPl)] ++
        (encRec 0xbb bbBadPl ++ []))).1 = some .badBfeeSize ∧
     (csiRead ⟨3, 2, 0⟩ (encStream [((0xbb : ℕ), bbGoodPl)] ++
        (encRec 0xbb bbBadPl ++ []))).2.lenBB =
       (encStream [((0xbb : ℕ), bbGoodPl)] ++ (encRec 0xbb bbBadPl ++ [])).length / 95 ∧
     (csiRead ⟨3, 2, 0⟩ (encStream [((0xbb : ℕ), bbGoodPl)] ++
        (encRec 0xbb bbBadPl ++ []))).2.count = 0 ∧
     (∀ n, n < countBB [((0xbb : ℕ), bbGoodPl)] →
       (csiRead ⟨3, 2, 0⟩ (encStream [((0xbb : ℕ), bbGoodPl)] ++
          (encRec 0xbb bbBadPl ++ []))).2.bb n =
         decodeBB ((bbPayloads [((0xbb : ℕ), bbGoodPl)]).getD n []))) :=
  ⟨⟨by decide, by decide, by decide, by decide, by decide, by decide, by decide⟩,
    C1_store_after_bad_bfee ⟨3, 2, 0⟩ [((0xbb : ℕ), bbGoodPl)] bbBadPl []
      (by decide) (by decide) (by decide) (by decide) (by decide) (by decide)
      (by decide)⟩

/-- C5 (amended): on a pre-delimited 0xbb buffer whose beamforming-size
field fails the structural check (the two antenna checks passing),
`CSI.pmsg` does not raise: it reports the condition via the side message
and returns THE TYPE CODE `0xbb` itself as its status value — not a
negative or zero status — without having populated the CSI tensor.
(Byte `1 + 8` of the buffer is header byte 8, i.e. Nrx, and so on.) -/
theorem C5_pmsg_bad_size_returns_code (cfg : CSICfg) (bb : ℕ → BBRec)
    (mac : ℕ → MacRec) (data : List ℕ)
    (hcode : data.getD 0 0 = 0xbb)
    (h8 : data.getD (1 + 8) 0 ≤ cfg.Nrxnum)
    (h9 : data.getD (1 + 9) 0 ≤ cfg.Ntxnum)
    (hsz : data.getD (1 + 16) 0 ||| (data.getD (1 + 17) 0 <<< 8) ≠
      60 * data.getD (1 + 8) 0 * data.getD (1 + 9) 0 + 12) :
    (csiPmsg cfg bb mac data).err = none ∧
    (csiPmsg cfg bb mac data).ret = some 0xbb ∧
    (csiPmsg cfg bb mac data).warned = true ∧
    (∀ i, ((csiPmsg cfg bb mac data).bb i).csi = (bb i).csi) := by
  unfold csiPmsg
  rw [hcode]
  rw [if_pos rfl]
  dsimp only
  rw [if_neg (not_lt.2 h8), if_neg (not_lt.2 h9), if_pos hsz]
  refine ⟨rfl, rfl, rfl, fun i => ?_⟩
  dsimp only
  by_cases hi : i = 0
  · subst hi
    rw [storeUpd_same]
    rfl
  · rw [storeUpd_other _ _ _ _ hi]

/-- A pre-delimited 0xbb buffer with Nrx = Ntx = 1 and beamforming size
field 0 (inconsistent, should be 72). -/
def c5Data : List ℕ :=
  (List.range 21).map (fun n => if n = 0 then 0xbb else if n = 9 then 1 else
    if n = 10 then 1 else 0)

/-- Counterexample to C5 as stated: on a buffer failing the structural
check, `CSI.pmsg` returns exactly the type code 0xbb = 187 — a positive
value, not a negative or zero status. -/
theorem C5_counterexample :
    (csiPmsg ⟨3, 2, 0⟩ (fun _ => zeroBB) (fun _ => zeroMac) c5Data).err = none ∧
    (csiPmsg ⟨3, 2, 0⟩ (fun _ => zeroBB) (fun _ => zeroMac) c5Data).ret =
      some (c5Data.getD 0 0) ∧
    (csiPmsg ⟨3, 2, 0⟩ (fun _ => zeroBB) (fun _ => zeroMac) c5Data).ret = some 187 ∧
    ¬(187 : ℤ) ≤ 0 := by
  refine ⟨by decide, by decide, by decide, by decide⟩

/-- Witness for the amended C5 at the concrete buffer `c5Data`. -/
theorem C5_witness :
    (c5Data.getD 0 0 = 0xbb ∧
     c5Data.getD (1 + 8) 0 ≤ (⟨3, 2, 0⟩ : CSICfg).Nrxnum ∧
     c5Data.getD (1 + 9) 0 ≤ (⟨3, 2, 0⟩ : CSICfg).Ntxnum ∧
     c5Data.getD (1 + 16) 0 ||| (c5Data.getD (1 + 17) 0 <<< 8) ≠
       60 * c5Data.getD (1 + 8) 0 * c5Data.getD (1 + 9) 0 + 12) ∧
    ((csiPmsg ⟨3, 2, 0⟩ (fun _ => zeroBB) (fun _ => zeroMac) c5Data).err = none ∧
     (csiPmsg ⟨3, 2, 0⟩ (fun _ => zeroBB) (fun _ => zeroMac) c5Data).ret = some 0xbb ∧
     (csiPmsg ⟨3, 2, 0⟩ (fun _ => zeroBB) (fun _ => zeroMac) c5Data).warned = true ∧
     (∀ i, ((csiPmsg ⟨3, 2, 0⟩ (fun _ => zeroBB) (fun _ => zeroMac) c5Data).bb i).csi =
       ((fun _ => zeroBB) i).csi)) :=
  ⟨⟨by decide, by decide, by decide, by decide⟩,
    C5_pmsg_bad_size_returns_code ⟨3, 2, 0⟩ (fun _ => zeroBB) (fun _ => zeroMac) c5Data
      (by decide) (by decide) (by decide) (by decide)⟩

/-- All permutation entries of a 0xbb store are below 4. -/
def permInv (bb : ℕ → BBRec) : Prop := ∀ i j, (bb i).perm j < 4

theorem permInv_headerUpd (buf : ℕ → ℕ) (i : ℕ) (bb : ℕ → BBRec) (h : permInv bb) :
    permInv (storeUpd i (bbHeaderUpd buf) bb) := by
  intro i2 j
  by_cases hi : i2 = i
  · subst hi
    rw [storeUpd_same]
    unfold bbHeaderUpd
    dsimp only
    split_ifs
    · have := Nat.and_le_right (n := buf 15) (m := 3)
      omega
    · have := Nat.and_le_right (n := buf 15 >>> 2) (m := 3)
      omega
    · have := Nat.and_le_right (n := buf 15 >>> 4) (m := 3)
      omega
    · exact h i2 j
  · rw [storeUpd_other _ _ _ _ hi]
    exact h i2 j

theorem permInv_csiUpd (buf : ℕ → ℕ) (i : ℕ) (bb : ℕ → BBRec) (h : permInv bb) :
    permInv (storeUpd i (bbCsiUpd buf) bb) := by
  intro i2 j
  by_cases hi : i2 = i
  · subst hi
    rw [storeUpd_same]
    exact h i2 j
  · rw [storeUpd_other _ _ _ _ hi]
    exact h i2 j

set_option maxHeartbeats 1600000 in
theorem csiGo_perm_inv (cfg : CSICfg) (file : List ℕ) (pk : ℕ) :
    ∀ (f cur cbb cc1 : ℕ) (bb : ℕ → BBRec) (mac : ℕ → MacRec), permInv bb →
      permInv (csiGo cfg file pk f cur cbb cc1 bb mac).bb := by
  intro f
  induction f with
  | zero => intro cur cbb cc1 bb mac h; exact h
  | succ f ih =>
    intro cur cbb cc1 bb mac h
    rw [csiGo]
    dsimp only
    split_ifs <;>
      first
        | exact h
        | exact permInv_headerUpd _ _ _ h
        | exact ih _ _ _ _ _ h
        | exact ih _ _ _ _ _ (permInv_csiUpd _ _ _ (permInv_headerUpd _ _ _ h))

/-- C10: every permutation entry stored by `CSI.read` (batch mode) or by
`CSI.pmsg` (real-time mode, starting from any store satisfying the
invariant, e.g. the zero-initialized one) lies in `{0, 1, 2, 3}`: each
entry is a 2-bit field masked out of header byte 15, regardless of the
input bytes. -/
theorem C10_perm_entries_bounded :
    (∀ (cfg : CSICfg) (file : List ℕ) (i j : ℕ),
      ((csiRead cfg file).2.bb i).perm j < 4) ∧
    (∀ (cfg : CSICfg) (bb : ℕ → BBRec) (mac : ℕ → MacRec) (data : List ℕ) (i j : ℕ),
      permInv bb → ((csiPmsg cfg bb mac data).bb i).perm j < 4) := by
  constructor
  · intro cfg file i j
    have h := csiGo_perm_inv cfg file (file.length / 95) (file.length + 1) 0 0 0
      (fun _ => zeroBB) (fun _ => zeroMac) (fun i2 j2 => by simp [zeroBB])
    unfold csiRead
    dsimp only
    split
    · exact h i j
    · exact h i j
  · intro cfg bb mac data i j hinv
    unfold csiPmsg
    dsimp only
    split_ifs <;>
      first
        | exact hinv i j
        | exact permInv_headerUpd _ _ _ hinv i j
        | exact permInv_csiUpd _ _ _ (permInv_headerUpd _ _ _ hinv) i j

/-- Witness for C10 at a concrete file and a concrete real-time buffer. -/
theorem C10_witness :
    ((csiRead ⟨3, 2, 0⟩ (encRec 0xbb bbGoodPl)).2.bb 0).perm 0 < 4 ∧
    (permInv (fun _ => zeroBB) ∧
      ((csiPmsg ⟨3, 2, 0⟩ (fun _ => zeroBB) (fun _ => zeroMac) c5Data).bb 0).perm 1 < 4) :=
  ⟨C10_perm_entries_bounded.1 ⟨3, 2, 0⟩ (encRec 0xbb bbGoodPl) 0 0,
   fun i2 j2 => by simp [zeroBB],
   C10_perm_entries_bounded.2 ⟨3, 2, 0⟩ (fun _ => zeroBB) (fun _ => zeroMac) c5Data 0 1
     (fun i2 j2 => by simp [zeroBB])⟩

/-- Unfolding the `CSI.read` loop at a full 0xbb record: after the short-read
check passes and the header fields are stored, the three structural
checks run in order; only if all pass is the CSI tensor decoded and the
loop continued. -/
theorem csiGo_bb_checks (cfg : CSICfg) (pre : List ℕ) (pl rest : List ℕ)
    (pk f cbb cc1 : ℕ) (bb : ℕ → BBRec) (mac : ℕ → MacRec)
    (hpl1 : 1 ≤ pl.length) (hcap : cbb < pk) :
    csiGo cfg (pre ++ (encRec 0xbb pl ++ rest)) pk (f + 1) pre.length cbb cc1 bb mac =
      (if cfg.Nrxnum < pl.getD 8 0 then
        ⟨some .nrxTooSmall, cbb, cc1,
          storeUpd cbb (bbHeaderUpd (fun n => pl.getD n 0)) bb, mac⟩
      else if cfg.Ntxnum < pl.getD 9 0 then
        ⟨some .ntxTooSmall, cbb, cc1,
          storeUpd cbb (bbHeaderUpd (fun n => pl.getD n 0)) bb, mac⟩
      else if pl.getD 16 0 ||| (pl.getD 17 0 <<< 8) ≠ 60 * pl.getD 8 0 * pl.getD 9 0 + 12 then
        ⟨some .badBfeeSize, cbb, cc1,
          storeUpd cbb (bbHeaderUpd (fun n => pl.getD n 0)) bb, mac⟩
      else
        csiGo cfg (pre ++ (encRec 0xbb pl ++ rest)) pk f (pre.length + (3 + pl.length))
          (cbb + 1) cc1 (storeUpd cbb (bbCsiUpd (fun n => pl.getD n 0))
            (storeUpd cbb (bbHeaderUpd (fun n => pl.getD n 0)) bb)) mac) := by
  have hflen : (pre ++ (encRec 0xbb pl ++ rest)).length =
      pre.length + (3 + pl.length + rest.length) := by
    simp [encRec]; omega
  have hb0 : (pre ++ (encRec 0xbb pl ++ rest)).getD pre.length 0 = (pl.length + 1) / 256 := by
    rw [List.getD_append_right _ _ _ _ (le_refl _), Nat.sub_self]
    rfl
  have hb1 : (pre ++ (encRec 0xbb pl ++ rest)).getD (pre.length + 1) 0 =
      (pl.length + 1) % 256 := by
    rw [List.getD_append_right _ _ _ _ (by omega), Nat.add_sub_cancel_left]
    rfl
  have hcode : (pre ++ (encRec 0xbb pl ++ rest)).getD (pre.length + 2) 0 = 0xbb := by
    rw [List.getD_append_right _ _ _ _ (by omega)]
    have h2 : pre.length + 2 - pre.length = 2 := by omega
    rw [h2]
    rfl
  have hfl : (pl.length + 1) % 256 + ((pl.length + 1) / 256) <<< 8 = pl.length + 1 := by
    rw [Nat.shiftLeft_eq]; omega
  have hbufeq : (fun n => if n < pl.length + 1 - 1 then
      (pre ++ (encRec 0xbb pl ++ rest)).getD (pre.length + 3 + n) 0 else 0) =
      fun n => pl.getD n 0 := by
    funext n
    by_cases hn : n < pl.length
    · rw [if_pos (by omega), List.getD_append_right _ _ _ _ (by omega)]
      have h3 : pre.length + 3 + n - pre.length = n + 1 + 1 + 1 := by omega
      rw [h3, List.getD_append _ _ _ _ (by simp [encRec]; omega)]
      simp only [encRec, List.getD_cons_succ]
    · rw [if_neg (by omega), eq_comm]
      exact List.getD_eq_default _ _ (by omega)
  have hmin : min (pl.length + 1 - 1) ((pre ++ (encRec 0xbb pl ++ rest)).length -
      (pre.length + 3)) = pl.length := by
    rw [hflen]; omega
  have hbuf8 : (if 8 < pl.length + 1 - 1 then
      (pre ++ (encRec 0xbb pl ++ rest)).getD (pre.length + 3 + 8) 0 else 0) = pl.getD 8 0 :=
    congrFun hbufeq 8
  have hbuf9 : (if 9 < pl.length + 1 - 1 then
      (pre ++ (encRec 0xbb pl ++ rest)).getD (pre.length + 3 + 9) 0 else 0) = pl.getD 9 0 :=
    congrFun hbufeq 9
  have hbuf16 : (if 16 < pl.length + 1 - 1 then
      (pre ++ (encRec 0xbb pl ++ rest)).getD (pre.length + 3 + 16) 0 else 0) = pl.getD 16 0 :=
    congrFun hbufeq 16
  have hbuf17 : (if 17 < pl.length + 1 - 1 then
      (pre ++ (encRec 0xbb pl ++ rest)).getD (pre.length + 3 + 17) 0 else 0) = pl.getD 17 0 :=
    congrFun hbufeq 17
  rw [csiGo]
  rw [if_pos (by rw [hflen]; omega)]
  dsimp only
  rw [hb0, hb1, hcode, hfl]
  rw [if_pos rfl, if_neg (by rw [hmin]; push_cast; omega), if_neg (by omega),
    hbufeq, hbuf8, hbuf9, hbuf16, hbuf17]
  have hcur : pre.length + 3 + (pl.length + 1) - 1 = pre.length + (3 + pl.length) := by
    omega
  rw [hcur]

theorem getD_take (l : List ℕ) (m k : ℕ) (h : k < m) : (l.take m).getD k 0 = l.getD k 0 := by
  simp [List.getD, List.getElem?_take, h]

/-- Truncating any record mid-way stops the `CSI.read` loop cleanly: no
error, no store change (for 0xbb/0xc1 the short read breaks before any
write; other types skip past the end and the loop condition fails). -/
theorem csiGo_trunc (cfg : CSICfg) (pre : List ℕ) (t : ℕ) (pl : List ℕ) (m : ℕ)
    (pk f cbb cc1 : ℕ) (bb : ℕ → BBRec) (mac : ℕ → MacRec)
    (hm : m < 3 + pl.length) :
    csiGo cfg (pre ++ (encRec t pl).take m) pk (f + 1) pre.length cbb cc1 bb mac =
      ⟨none, cbb, cc1, bb, mac⟩ := by
  have henclen : (encRec t pl).length = 3 + pl.length := by simp [encRec]; omega
  have hflen : (pre ++ (encRec t pl).take m).length = pre.length + m := by
    simp [List.length_take, henclen]
    omega
  by_cases hm3 : m ≤ 3
  · exact csiGo_exit cfg _ _ _ _ _ _ _ _ (by omega)
  · have hb0 : (pre ++ (encRec t pl).take m).getD pre.length 0 = (pl.length + 1) / 256 := by
      rw [List.getD_append_right _ _ _ _ (le_refl _), Nat.sub_self, getD_take _ _ _ (by omega)]
      rfl
    have hb1 : (pre ++ (encRec t pl).take m).getD (pre.length + 1) 0 =
        (pl.length + 1) % 256 := by
      rw [List.getD_append_right _ _ _ _ (by omega), Nat.add_sub_cancel_left,
        getD_take _ _ _ (by omega)]
      rfl
    have hcode : (pre ++ (encRec t pl).take m).getD (pre.length + 2) 0 = t := by
      rw [List.getD_append_right _ _ _ _ (by omega)]
      have h2 : pre.length + 2 - pre.length = 2 := by omega
      rw [h2, getD_take _ _ _ (by omega)]
      rfl
    have hfl : (pl.length + 1) % 256 + ((pl.length + 1) / 256) <<< 8 = pl.length + 1 := by
      rw [Nat.shiftLeft_eq]; omega
    have hmin : min (pl.length + 1 - 1) ((pre ++ (encRec t pl).take m).length -
        (pre.length + 3)) = m - 3 := by
      rw [hflen]; omega
    rw [csiGo]
    rw [if_pos (by rw [hflen]; omega)]
    dsimp only
    rw [hb0, hb1, hcode, hfl]
    by_cases ht : t = 0xbb
    · rw [if_pos ht, if_pos (by rw [hmin]; push_cast; omega)]
    · rw [if_neg ht]
      by_cases ht2 : t = 0xc1
      · rw [if_pos ht2, if_pos (by rw [hmin]; push_cast; omega)]
      · rw [if_neg ht2]
        exact csiGo_exit cfg _ _ _ _ _ _ _ _ (by rw [hflen]; omega)

/-- `CSI.read` on a well-formed stream followed by a record truncated
mid-way: no error and the store is sliced to the records parsed before
the truncated record. -/
theorem csiRead_truncated (cfg : CSICfg) (recs : List (ℕ × List ℕ)) (t : ℕ)
    (pl : List ℕ) (m : ℕ)
    (hgood : ∀ r ∈ recs, GoodRec cfg r) (hm : m < 3 + pl.length)
    (hcb : countBB recs ≤ (encStream recs ++ (encRec t pl).take m).length / 95)
    (hcc : countC1 recs ≤ (encStream recs ++ (encRec t pl).take m).length / 95) :
    (csiRead cfg (encStream recs ++ (encRec t pl).take m)).1 = none ∧
    (csiRead cfg (encStream recs ++ (encRec t pl).take m)).2.count = countBB recs ∧
    (csiRead cfg (encStream recs ++ (encRec t pl).take m)).2.lenBB = countBB recs ∧
    (csiRead cfg (encStream recs ++ (encRec t pl).take m)).2.lenC1 = countC1 recs := by
  obtain ⟨s1, s2, s3, s4, s5, s6, s7, s8⟩ := streamEffect_spec cfg recs
    ⟨0, 0, fun _ => zeroBB, fun _ => zeroMac⟩ (fun i _ => rfl) (fun i _ => rfl)
  have hle : recs.length ≤ (encStream recs ++ (encRec t pl).take m).length := by
    have := encStream_len_ge recs
    simp only [List.length_append]
    omega
  have hfuel : (encStream recs ++ (encRec t pl).take m).length + 1 =
      (((encStream recs ++ (encRec t pl).take m).length - recs.length) + 1) +
        recs.length := by omega
  have h := csiGo_stream cfg recs [] ((encRec t pl).take m)
    ((encStream recs ++ (encRec t pl).take m).length / 95)
    (((encStream recs ++ (encRec t pl).take m).length - recs.length) + 1)
    ⟨0, 0, fun _ => zeroBB, fun _ => zeroMac⟩ hgood
    (by dsimp only; omega) (by dsimp only; omega)
  simp only [List.nil_append, List.length_nil, Nat.zero_add] at h
  have h2 := csiGo_trunc cfg (encStream recs) t pl m
    ((encStream recs ++ (encRec t pl).take m).length / 95)
    ((encStream recs ++ (encRec t pl).take m).length - recs.length)
    (streamEffect cfg recs ⟨0, 0, fun _ => zeroBB, fun _ => zeroMac⟩).cbb
    (streamEffect cfg recs ⟨0, 0, fun _ => zeroBB, fun _ => zeroMac⟩).cc1
    (streamEffect cfg recs ⟨0, 0, fun _ => zeroBB, fun _ => zeroMac⟩).bb
    (streamEffect cfg recs ⟨0, 0, fun _ => zeroBB, fun _ => zeroMac⟩).mac hm
  rw [h2] at h
  unfold csiRead
  dsimp only
  rw [hfuel, h]
  refine ⟨rfl, ?_, ?_, ?_⟩
  · dsimp only
    rw [s1]
    dsimp only
    omega
  · dsimp only
    rw [s1]
    dsimp only
    omega
  · dsimp only
    rw [s2]
    dsimp only
    omega

/-- `CSI.read` raising the Nrxnum configuration error at a 0xbb record whose
declared receive count exceeds the configured maximum, after a good
prefix. -/
theorem csiRead_bad_nrx (cfg : CSICfg) (recs : List (ℕ × List ℕ)) (pl rest : List ℕ)
    (hgood : ∀ r ∈ recs, GoodRec cfg r) (hpl1 : 1 ≤ pl.length)
    (hcapbb : countBB recs < (encStream recs ++ (encRec 0xbb pl ++ rest)).length / 95)
    (hcapc1 : countC1 recs ≤ (encStream recs ++ (encRec 0xbb pl ++ rest)).length / 95)
    (h8 : cfg.Nrxnum < pl.getD 8 0) :
    (csiRead cfg (encStream recs ++ (encRec 0xbb pl ++ rest))).1 =
      some .nrxTooSmall := by
  obtain ⟨s1, s2, s3, s4, s5, s6, s7, s8⟩ := streamEffect_spec cfg recs
    ⟨0, 0, fun _ => zeroBB, fun _ => zeroMac⟩ (fun i _ => rfl) (fun i _ => rfl)
  have hle : recs.length ≤ (encStream recs ++ (encRec 0xbb pl ++ rest)).length := by
    have := encStream_len_ge recs
    simp only [List.length_append]
    omega
  have hfuel : (encStream recs ++ (encRec 0xbb pl ++ rest)).length + 1 =
      (((encStream recs ++ (encRec 0xbb pl ++ rest)).length - recs.length) + 1) +
        recs.length := by omega
  have h := csiGo_stream cfg recs [] (encRec 0xbb pl ++ rest)
    ((encStream recs ++ (encRec 0xbb pl ++ rest)).length / 95)
    (((encStream recs ++ (encRec 0xbb pl ++ rest)).length - recs.length) + 1)
    ⟨0, 0, fun _ => zeroBB, fun _ => zeroMac⟩ hgood
    (by dsimp only; omega) (by dsimp only; omega)
  simp only [List.nil_append, List.length_nil, Nat.zero_add] at h
  have h2 := csiGo_bb_checks cfg (encStream recs) pl rest
    ((encStream recs ++ (encRec 0xbb pl ++ rest)).length / 95)
    ((encStream recs ++ (encRec 0xbb pl ++ rest)).length - recs.length)
    (streamEffect cfg recs ⟨0, 0, fun _ => zeroBB, fun _ => zeroMac⟩).cbb
    (streamEffect cfg recs ⟨0, 0, fun _ => zeroBB, fun _ => zeroMac⟩).cc1
    (streamEffect cfg recs ⟨0, 0, fun _ => zeroBB, fun _ => zeroMac⟩).bb
    (streamEffect cfg recs ⟨0, 0, fun _ => zeroBB, fun _ => zeroMac⟩).mac hpl1
    (by rw [s1]; dsimp only; omega)
  rw [if_pos h8] at h2
  rw [h2] at h
  unfold csiRead
  dsimp only
  rw [hfuel, h]

/-- `CSI.read` raising the Ntxnum configuration error at a 0xbb record whose
declared transmit count exceeds the configured maximum (receive count in
range), after a good prefix. -/
theorem csiRead_bad_ntx (cfg : CSICfg) (recs : List (ℕ × List ℕ)) (pl rest : List ℕ)
    (hgood : ∀ r ∈ recs, GoodRec cfg r) (hpl1 : 1 ≤ pl.length)
    (hcapbb : countBB recs < (encStream recs ++ (encRec 0xbb pl ++ rest)).length / 95)
    (hcapc1 : countC1 recs ≤ (encStream recs ++ (encRec 0xbb pl ++ rest)).length / 95)
    (h8 : pl.getD 8 0 ≤ cfg.Nrxnum) (h9 : cfg.Ntxnum < pl.getD 9 0) :
    (csiRead cfg (encStream recs ++ (encRec 0xbb pl ++ rest))).1 =
      some .ntxTooSmall := by
  obtain ⟨s1, s2, s3, s4, s5, s6, s7, s8⟩ := streamEffect_spec cfg recs
    ⟨0, 0, fun _ => zeroBB, fun _ => zeroMac⟩ (fun i _ => rfl) (fun i _ => rfl)
  have hle : recs.length ≤ (encStream recs ++ (encRec 0xbb pl ++ rest)).length := by
    have := encStream_len_ge recs
    simp only [List.length_append]
    omega
  have hfuel : (encStream recs ++ (encRec 0xbb pl ++ rest)).length + 1 =
      (((encStream recs ++ (encRec 0xbb pl ++ rest)).length - recs.length) + 1) +
        recs.length := by omega
  have h := csiGo_stream cfg recs [] (encRec 0xbb pl ++ rest)
    ((encStream recs ++ (encRec 0xbb pl ++ rest)).length / 95)
    (((encStream recs ++ (encRec 0xbb pl ++ rest)).length - recs.length) + 1)
    ⟨0, 0, fun _ => zeroBB, fun _ => zeroMac⟩ hgood
    (by dsimp only; omega) (by dsimp only; omega)
  simp only [List.nil_append, List.length_nil, Nat.zero_add] at h
  have h2 := csiGo_bb_checks cfg (encStream recs) pl rest
    ((encStream recs ++ (encRec 0xbb pl ++ rest)).length / 95)
    ((encStream recs ++ (encRec 0xbb pl ++ rest)).length - recs.length)
    (streamEffect cfg recs ⟨0, 0, fun _ => zeroBB, fun _ => zeroMac⟩).cbb
    (streamEffect cfg recs ⟨0, 0, fun _ => zeroBB, fun _ => zeroMac⟩).cc1
    (streamEffect cfg recs ⟨0, 0, fun _ => zeroBB, fun _ => zeroMac⟩).bb
    (streamEffect cfg recs ⟨0, 0, fun _ => zeroBB, fun _ => zeroMac⟩).mac hpl1
    (by rw [s1]; dsimp only; omega)
  rw [if_neg (not_lt.2 h8), if_pos h9] at h2
  rw [h2] at h
  unfold csiRead
  dsimp only
  rw [hfuel, h]

theorem lor_shift_add (a b k : ℕ) (h : a < 2 ^ k) : a ||| (b <<< k) = a + b * 2 ^ k := by
  rw [Nat.shiftLeft_eq, Nat.lor_comm, Nat.mul_comm b (2 ^ k), ← Nat.mul_add_lt_is_or h b]
  ring

/-!  ## The Atheros decoder

`Atheros.read` walks records of the form `u16 length | 25-byte header |
csi_len bytes of 10-bit packed complex fields | payload_len bytes`, with
the endianness of all multi-byte fields selected by the caller.  The
packed CSI fields are pulled out of a rolling 16-bit-refill accumulator
(`bits_left` / `curren_data`), imaginary part first. -/

/-- State of the Atheros 10-bit bit-field extractor: next byte index,
bits left in the accumulator, and the accumulator itself. -/
structure AthBits where
  idx : ℕ
  bitsLeft : ℕ
  cur : ℕ

/-- Initial extractor state: two bytes preloaded (`h_data & 0xffff`). -/
def athInit (b : ℕ → ℕ) : AthBits := ⟨2, 16, (b 0 + (b 1 <<< 8)) &&& 0xffff⟩

/-- Extract one signed 10-bit two's-complement field, refilling 16 bits
from the byte stream whenever fewer than 10 bits remain buffered. -/
def athNext (b : ℕ → ℕ) (st : AthBits) : ℤ × AthBits :=
  let st2 := if st.bitsLeft < 10 then
      (⟨st.idx + 2, st.bitsLeft + 16,
        st.cur + ((b st.idx + (b (st.idx + 1) <<< 8)) <<< st.bitsLeft)⟩ : AthBits)
    else st
  let v := st2.cur &&& 0x3ff
  ((if v &&& 0x200 ≠ 0 then (v : ℤ) - 0x400 else (v : ℤ)),
   ⟨st2.idx, st2.bitsLeft - 10, st2.cur >>> 10⟩)

/-- One slot of the Atheros store. -/
structure AthRec where
  timestamp : ℕ
  csi_len : ℕ
  tx_channel : ℕ
  err_info : ℕ
  noise_floor : ℕ
  Rate : ℕ
  bandWidth : ℕ
  num_tones : ℕ
  nr : ℕ
  nc : ℕ
  rssi : ℕ
  rssi_1 : ℕ
  rssi_2 : ℕ
  rssi_3 : ℕ
  payload_len : ℕ
  csi : ℕ → ℕ → ℕ → ℤ × ℤ
  payload : ℕ → ℕ

/-- A zero-initialized Atheros slot. -/
def zeroAth : AthRec :=
  ⟨0, 0, 0, 0, 0, 0, 0, 0, 0, 0, 0, 0, 0, 0, 0, fun _ _ _ => (0, 0), fun _ => 0⟩

/-- Configuration of an `Atheros` decoder instance. -/
structure AthCfg where
  Nrxnum : ℕ
  Ntxnum : ℕ
  Tones : ℕ
  plSize : ℕ

/-- The 25-byte header writes of an Atheros record (source lines 810-824),
with the endian-selected `cu16`/`cu64` readers. -/
def athHeaderUpd (cu16 : ℕ → ℕ → ℕ) (cu64 : ℕ → ℕ → ℕ → ℕ → ℕ → ℕ → ℕ → ℕ → ℕ)
    (b : ℕ → ℕ) (r : AthRec) : AthRec :=
  { r with
    timestamp := cu64 (b 0) (b 1) (b 2) (b 3) (b 4) (b 5) (b 6) (b 7)
    csi_len := cu16 (b 8) (b 9)
    tx_channel := cu16 (b 10) (b 11)
    payload_len := cu16 (b 23) (b 24)
    err_info := b 12
    noise_floor := b 13
    Rate := b 14
    bandWidth := b 15
    num_tones := b 16
    nr := b 17
    nc := b 18
    rssi := b 19
    rssi_1 := b 20
    rssi_2 := b 21
    rssi_3 := b 22 }

/-- The packed-CSI triple loop of the Atheros decoder: `num_tones` tones,
`nr` receive chains, `nc` transmit chains; per sample the imaginary then
the real 10-bit field is extracted and `(real, imag)` stored. -/
def athCsiLoop (b : ℕ → ℕ) (tones nr nc : ℕ)
    (csi0 : ℕ → ℕ → ℕ → ℤ × ℤ) : ℕ → ℕ → ℕ → ℤ × ℤ :=
  ((List.range tones).foldl (fun (acc : AthBits × (ℕ → ℕ → ℕ → ℤ × ℤ)) k =>
    (List.range nr).foldl (fun acc2 nri =>
      (List.range nc).foldl (fun (acc3 : AthBits × (ℕ → ℕ → ℕ → ℤ × ℤ)) nci =>
        let r1 := athNext b acc3.1
        let r2 := athNext b r1.2
        (r2.2, fun k2 r2i c2 =>
          if k2 = k ∧ r2i = nri ∧ c2 = nci then (r2.1, r1.1) else acc3.2 k2 r2i c2))
        acc2) acc) (athInit b, csi0)).2

/-- Errors of `Atheros.read`: the two antenna-count `ValueError`s, the
unsupported-endianness `ValueError`, and the `IndexError` thrown by the
first bounds-checked store write (`timestamp_mem[count]`) when `count`
has reached the preallocated array length (`pk_num = file_size / 420`). -/
inductive AthErr where
  | nrxTooSmall : AthErr
  | ntxTooSmall : AthErr
  | badEndian : AthErr
  | indexError : AthErr
deriving DecidableEq

/-- The `Atheros.read` while-loop.  `cur` mirrors the manual byte counter;
a record whose declared length overruns the file breaks the loop before
anything is stored.  `pka` is the preallocated length of the store
arrays: when `count` has reached it, the record's first store write
(`timestamp_mem[count]`, a bounds-checked memoryview write that precedes
the `nr`/`nc` checks) raises `IndexError`. -/
def athGo (cfg : AthCfg) (file : List ℕ) (cu16 : ℕ → ℕ → ℕ)
    (cu64 : ℕ → ℕ → ℕ → ℕ → ℕ → ℕ → ℕ → ℕ → ℕ) (pka : ℕ) :
    ℕ → ℕ → ℕ → (ℕ → AthRec) → Option AthErr × ℕ × (ℕ → AthRec)
  | 0, _, count, store => (none, count, store)
  | fuel + 1, cur, count, store =>
    if cur < file.length - 4 then
      let fl := cu16 (file.getD cur 0) (file.getD (cur + 1) 0)
      if file.length < cur + 2 + fl then (none, count, store)
      else if pka ≤ count then (some .indexError, count, store)
      else
        let hb := fun n => file.getD (cur + 2 + n) 0
        let store2 := storeUpd count (athHeaderUpd cu16 cu64 hb) store
        if cfg.Nrxnum < hb 17 then (some .nrxTooSmall, count, store2)
        else if cfg.Ntxnum < hb 18 then (some .ntxTooSmall, count, store2)
        else
          let c_len := cu16 (hb 8) (hb 9)
          let store3 := if 0 < c_len then
              storeUpd count (fun r =>
                { r with csi := (athCsiLoop (fun n => file.getD (cur + 27 + n) 0)
                    (hb 16) (hb 17) (hb 18) r.csi) }) store2
            else store2
          let pl_len := cu16 (hb 23) (hb 24)
          let store4 := if 0 < pl_len then
              storeUpd count (fun r =>
                { r with payload := (fun i =>
                    if i < min pl_len cfg.plSize then file.getD (cur + 27 + c_len + i) 0
                    else r.payload i) }) store3
            else store3
          athGo cfg file cu16 cu64 pka fuel (cur + 27 + c_len + pl_len) (count + 1) store4
    else (none, count, store)

/-- The observable state of an `Atheros` object after a `read` call. -/
structure AthObj where
  alloc : ℕ
  len : ℕ
  count : ℕ
  store : ℕ → AthRec

/-- `Atheros.read` on a fresh object: preallocate `file_size / 420` zero
slots, pick the endian readers (raising on anything else), run the loop,
and slice the arrays to the parsed count only on a normal return. -/
def athRead (cfg : AthCfg) (endian : String) (file : List ℕ) : Option AthErr × AthObj :=
  let pk := file.length / 420
  if endian = "little" then
    let out := athGo cfg file cu16l cu64l pk (file.length + 1) 0 0 (fun _ => zeroAth)
    match out.1 with
    | some e => (some e, ⟨pk, pk, 0, out.2.2⟩)
    | none => (none, ⟨pk, out.2.1, out.2.1, out.2.2⟩)
  else if endian = "big" then
    let out := athGo cfg file cu16b cu64b pk (file.length + 1) 0 0 (fun _ => zeroAth)
    match out.1 with
    | some e => (some e, ⟨pk, pk, 0, out.2.2⟩)
    | none => (none, ⟨pk, out.2.1, out.2.1, out.2.2⟩)
  else (some .badEndian, ⟨pk, pk, 0, fun _ => zeroAth⟩)

/-- Byte stream for C4: field 0 (bits 0-9, byte-aligned) is the pattern
0b0111111111, field 1 (bits 10-19, not byte-aligned) is 0b1000000000. -/
def c4BufA : ℕ → ℕ := fun n => [0xFF, 0x01, 0x08, 0x00].getD n 0

/-- Byte stream for C4 with the two patterns swapped: field 0 is
0b1000000000 (byte-aligned), field 1 is 0b0111111111 (not aligned). -/
def c4BufB : ℕ → ℕ := fun n => [0x00, 0xFE, 0x07, 0x00].getD n 0

/-- C4: the Atheros 10-bit two's-complement bit-field extractor (the
`bits_left`/`curren_data` accumulator embedded in `Atheros.read`'s CSI
loop, here `athInit`/`athNext` as used by `athCsiLoop`/`athGo`) yields
+511 for the pattern 0b0111111111 and −512 for 0b1000000000, both when
the field starts at a byte-aligned bit offset (bit 0) and when it starts
at a non-byte-aligned offset (bit 10). -/
theorem C4_ten_bit_extraction :
    (athNext c4BufA (athInit c4BufA)).1 = 511 ∧
    (athNext c4BufA (athNext c4BufA (athInit c4BufA)).2).1 = -512 ∧
    (athNext c4BufB (athInit c4BufB)).1 = -512 ∧
    (athNext c4BufB (athNext c4BufB (athInit c4BufB)).2).1 = 511 := by
  refine ⟨by decide, by decide, by decide, by decide⟩

/-- Wire encoding of one Atheros record (little-endian length prefix). -/
def encAthRec (r : List ℕ × List ℕ × List ℕ) : List ℕ :=
  ((25 + r.2.1.length + r.2.2.length) % 256) ::
    ((25 + r.2.1.length + r.2.2.length) / 256) :: (r.1 ++ (r.2.1 ++ r.2.2))

/-- Wire encoding of a list of Atheros records. -/
def encAthStream : List (List ℕ × List ℕ × List ℕ) → List ℕ
  | [] => []
  | r :: rs => encAthRec r ++ encAthStream rs

/-- An Atheros record `(header, csi bytes, payload bytes)` the read loop
consumes without breaking or raising, for the little-endian readers:
25-byte header, length field in range, the header's csi-length and
payload-length fields matching the actual byte counts, the two chain
counts within the configured maxima, the csi and payload blocks fitting
the parser's 4096-byte stack buffers, and a tone count within the
configured `Tones` (the tone dimension of the CSI array, so the
bounds-checked CSI writes are in range). -/
def GoodAthRec (cfg : AthCfg) (r : List ℕ × List ℕ × List ℕ) : Prop :=
  r.1.length = 25 ∧ 25 + r.2.1.length + r.2.2.length < 65536 ∧
  cu16l (r.1.getD 8 0) (r.1.getD 9 0) = r.2.1.length ∧
  cu16l (r.1.getD 23 0) (r.1.getD 24 0) = r.2.2.length ∧
  r.1.getD 17 0 ≤ cfg.Nrxnum ∧ r.1.getD 18 0 ≤ cfg.Ntxnum ∧
  r.2.1.length ≤ 4096 ∧ r.2.2.length ≤ 4096 ∧ r.1.getD 16 0 ≤ cfg.Tones

instance (cfg : AthCfg) (r : List ℕ × List ℕ × List ℕ) : Decidable (GoodAthRec cfg r) := by
  unfold GoodAthRec; infer_instance

/-- Effect of one consumed Atheros record on the store, phrased over the
absolute file bytes exactly as the loop body writes them. -/
def athRecEffect (cfg : AthCfg) (file : List ℕ) (cur count : ℕ)
    (store : ℕ → AthRec) : ℕ → AthRec :=
  let hb := fun n => file.getD (cur + 2 + n) 0
  let store2 := storeUpd count (athHeaderUpd cu16l cu64l hb) store
  let c_len := cu16l (hb 8) (hb 9)
  let store3 := if 0 < c_len then
      storeUpd count (fun r =>
        { r with csi := (athCsiLoop (fun n => file.getD (cur + 27 + n) 0)
            (hb 16) (hb 17) (hb 18) r.csi) }) store2
    else store2
  let pl_len := cu16l (hb 23) (hb 24)
  if 0 < pl_len then
    storeUpd count (fun r =>
      { r with payload := (fun i =>
          if i < min pl_len cfg.plSize then file.getD (cur + 27 + c_len + i) 0
          else r.payload i) }) store3
  else store3

theorem athGo_exit (cfg : AthCfg) (file : List ℕ) (cu16 : ℕ → ℕ → ℕ)
    (cu64 : ℕ → ℕ → ℕ → ℕ → ℕ → ℕ → ℕ → ℕ → ℕ) (pka f cur count : ℕ)
    (store : ℕ → AthRec) (h : file.length ≤ cur + 4) :
    athGo cfg file cu16 cu64 pka f cur count store = (none, count, store) := by
  cases f with
  | zero => rfl
  | succ f => rw [athGo, if_neg (by omega)]

theorem athGo_step (cfg : AthCfg) (pre : List ℕ) (hdr csib plb rest : List ℕ)
    (pka f count : ℕ) (store : ℕ → AthRec)
    (hgood : GoodAthRec cfg (hdr, csib, plb)) (hcap : count < pka) :
    athGo cfg (pre ++ (encAthRec (hdr, csib, plb) ++ rest)) cu16l cu64l pka (f + 1)
        pre.length count store =
      athGo cfg (pre ++ (encAthRec (hdr, csib, plb) ++ rest)) cu16l cu64l pka f
        (pre.length + (27 + csib.length + plb.length)) (count + 1)
        (athRecEffect cfg (pre ++ (encAthRec (hdr, csib, plb) ++ rest)) pre.length
          count store) := by
  obtain ⟨hh25, hfl65, hc, hp, h17, h18, hcs96, hpl96, htones⟩ := hgood
  dsimp only at hh25 hfl65 hc hp h17 h18
  have hflen : (pre ++ (encAthRec (hdr, csib, plb) ++ rest)).length =
      pre.length + (27 + csib.length + plb.length + rest.length) := by
    simp [encAthRec, hh25]
    omega
  have hb0 : (pre ++ (encAthRec (hdr, csib, plb) ++ rest)).getD pre.length 0 =
      (25 + csib.length + plb.length) % 256 := by
    rw [List.getD_append_right _ _ _ _ (le_refl _), Nat.sub_self]
    rfl
  have hb1 : (pre ++ (encAthRec (hdr, csib, plb) ++ rest)).getD (pre.length + 1) 0 =
      (25 + csib.length + plb.length) / 256 := by
    rw [List.getD_append_right _ _ _ _ (by omega), Nat.add_sub_cancel_left]
    rfl
  have hfl : cu16l ((25 + csib.length + plb.length) % 256)
      ((25 + csib.length + plb.length) / 256) = 25 + csib.length + plb.length := by
    unfold cu16l
    rw [lor_shift_add _ _ 8 (by omega)]
    omega
  have hhdr : ∀ n, n < 25 →
      (pre ++ (encAthRec (hdr, csib, plb) ++ rest)).getD (pre.length + 2 + n) 0 =
        hdr.getD n 0 := by
    intro n hn
    rw [List.getD_append_right _ _ _ _ (by omega)]
    have h3 : pre.length + 2 + n - pre.length = n + 1 + 1 := by omega
    rw [h3]
    show (encAthRec (hdr, csib, plb) ++ rest).getD (n + 1 + 1) 0 = hdr.getD n 0
    have : (encAthRec (hdr, csib, plb) ++ rest).getD (n + 1 + 1) 0 =
        ((hdr ++ (csib ++ plb)) ++ rest).getD n 0 := by
      simp [encAthRec, List.getD_cons_succ, List.append_assoc]
    rw [this, List.getD_append _ _ _ _ (by simp; omega), List.getD_append _ _ _ _ (by omega)]
  rw [athGo]
  rw [if_pos (by rw [hflen]; omega)]
  dsimp only
  rw [hb0, hb1, hfl]
  rw [if_neg (by rw [hflen]; omega), if_neg (by omega)]
  have h17f := hhdr 17 (by omega)
  have h18f := hhdr 18 (by omega)
  have h8f := hhdr 8 (by omega)
  have h9f := hhdr 9 (by omega)
  have h23f := hhdr 23 (by omega)
  have h24f := hhdr 24 (by omega)
  rw [if_neg (by rw [h17f]; exact not_lt.2 h17), if_neg (by rw [h18f]; exact not_lt.2 h18)]
  have hcur : pre.length + 27 + cu16l
      ((pre ++ (encAthRec (hdr, csib, plb) ++ rest)).getD (pre.length + 2 + 8) 0)
      ((pre ++ (encAthRec (hdr, csib, plb) ++ rest)).getD (pre.length + 2 + 9) 0) +
      cu16l ((pre ++ (encAthRec (hdr, csib, plb) ++ rest)).getD (pre.length + 2 + 23) 0)
      ((pre ++ (encAthRec (hdr, csib, plb) ++ rest)).getD (pre.length + 2 + 24) 0) =
      pre.length + (27 + csib.length + plb.length) := by
    rw [h8f, h9f, h23f, h24f, hc, hp]
    omega
  rw [hcur]
  rfl

theorem athGo_stream (cfg : AthCfg) :
    ∀ (recs : List (List ℕ × List ℕ × List ℕ)) (pre rest : List ℕ) (pka f count : ℕ)
      (store : ℕ → AthRec),
    (∀ r ∈ recs, GoodAthRec cfg r) →
    count + recs.length ≤ pka →
    ∃ store2, athGo cfg (pre ++ (encAthStream recs ++ rest)) cu16l cu64l pka
        (f + recs.length) pre.length count store =
      athGo cfg (pre ++ (encAthStream recs ++ rest)) cu16l cu64l pka f
        (pre.length + (encAthStream recs).length) (count + recs.length) store2 := by
  intro recs
  induction recs with
  | nil =>
    intro pre rest pka f count store h hcap
    exact ⟨store, by simp [encAthStream]⟩
  | cons r rs ih =>
    intro pre rest pka f count store h hcap
    have hlc : (r :: rs).length = rs.length + 1 := by simp
    have hassoc : pre ++ (encAthStream (r :: rs) ++ rest) =
        pre ++ (encAthRec r ++ (encAthStream rs ++ rest)) := by
      simp [encAthStream, List.append_assoc]
    have hassoc2 : pre ++ (encAthRec r ++ (encAthStream rs ++ rest)) =
        (pre ++ encAthRec r) ++ (encAthStream rs ++ rest) := by
      simp [List.append_assoc]
    have hlen : f + (r :: rs).length = (f + rs.length) + 1 := by
      simp [List.length_cons]; omega
    have hgr : GoodAthRec cfg (r.1, r.2.1, r.2.2) := h r (List.mem_cons_self r rs)
    have hstep := athGo_step cfg pre r.1 r.2.1 r.2.2 (encAthStream rs ++ rest)
      pka (f + rs.length) count store hgr (by omega)
    have hcur : pre.length + (27 + r.2.1.length + r.2.2.length) =
        (pre ++ encAthRec r).length := by
      have : r.1.length = 25 := hgr.1
      simp [encAthRec, this]
      omega
    obtain ⟨store2, h2⟩ := ih (pre ++ encAthRec r) rest pka f (count + 1)
      (athRecEffect cfg (pre ++ (encAthRec r ++ (encAthStream rs ++ rest))) pre.length
        count store)
      (fun x hx => h x (List.mem_cons_of_mem _ hx)) (by omega)
    refine ⟨store2, ?_⟩
    rw [hassoc2] at h2
    rw [hassoc, hlen, hstep, hcur, hassoc2, h2]
    have hlen2 : (pre ++ encAthRec r).length + (encAthStream rs).length =
        pre.length + (encAthStream (r :: rs)).length := by
      simp [encAthStream]
      omega
    have hcnt : count + 1 + rs.length = count + (r :: rs).length := by
      simp [List.length_cons]
      omega
    rw [hlen2, hcnt, ← hassoc2, ← hassoc]

theorem athGo_trunc (cfg : AthCfg) (pre : List ℕ) (hdr csib plb : List ℕ) (m : ℕ)
    (pka f count : ℕ) (store : ℕ → AthRec)
    (hh25 : hdr.length = 25) (hfl65 : 25 + csib.length + plb.length < 65536)
    (hm : m < 27 + csib.length + plb.length) :
    athGo cfg (pre ++ (encAthRec (hdr, csib, plb)).take m) cu16l cu64l pka (f + 1)
        pre.length count store = (none, count, store) := by
  have hflen : (pre ++ (encAthRec (hdr, csib, plb)).take m).length = pre.length + m := by
    simp [List.length_take, encAthRec, hh25]
    omega
  by_cases hm4 : m ≤ 4
  · exact athGo_exit cfg _ _ _ _ _ _ _ _ (by omega)
  · have hb0 : (pre ++ (encAthRec (hdr, csib, plb)).take m).getD pre.length 0 =
        (25 + csib.length + plb.length) % 256 := by
      rw [List.getD_append_right _ _ _ _ (le_refl _), Nat.sub_self,
        getD_take _ _ _ (by omega)]
      rfl
    have hb1 : (pre ++ (encAthRec (hdr, csib, plb)).take m).getD (pre.length + 1) 0 =
        (25 + csib.length + plb.length) / 256 := by
      rw [List.getD_append_right _ _ _ _ (by omega), Nat.add_sub_cancel_left,
        getD_take _ _ _ (by omega)]
      rfl
    have hfl : cu16l ((25 + csib.length + plb.length) % 256)
        ((25 + csib.length + plb.length) / 256) = 25 + csib.length + plb.length := by
      unfold cu16l
      rw [lor_shift_add _ _ 8 (by omega)]
      omega
    rw [athGo]
    rw [if_pos (by rw [hflen]; omega)]
    dsimp only
    rw [hb0, hb1, hfl]
    rw [if_pos (by rw [hflen]; omega)]

theorem athGo_bad_nrx (cfg : AthCfg) (pre : List ℕ) (hdr csib plb rest : List ℕ)
    (pka f count : ℕ) (store : ℕ → AthRec)
    (hh25 : hdr.length = 25) (hfl65 : 25 + csib.length + plb.length < 65536)
    (hcap : count < pka) (h17 : cfg.Nrxnum < hdr.getD 17 0) :
    (athGo cfg (pre ++ (encAthRec (hdr, csib, plb) ++ rest)) cu16l cu64l pka (f + 1)
        pre.length count store).1 = some .nrxTooSmall := by
  have hflen : (pre ++ (encAthRec (hdr, csib, plb) ++ rest)).length =
      pre.length + (27 + csib.length + plb.length + rest.length) := by
    simp [encAthRec, hh25]
    omega
  have hb0 : (pre ++ (encAthRec (hdr, csib, plb) ++ rest)).getD pre.length 0 =
      (25 + csib.length + plb.length) % 256 := by
    rw [List.getD_append_right _ _ _ _ (le_refl _), Nat.sub_self]
    rfl
  have hb1 : (pre ++ (encAthRec (hdr, csib, plb) ++ rest)).getD (pre.length + 1) 0 =
      (25 + csib.length + plb.length) / 256 := by
    rw [List.getD_append_right _ _ _ _ (by omega), Nat.add_sub_cancel_left]
    rfl
  have hfl : cu16l ((25 + csib.length + plb.length) % 256)
      ((25 + csib.length + plb.length) / 256) = 25 + csib.length + plb.length := by
    unfold cu16l
    rw [lor_shift_add _ _ 8 (by omega)]
    omega
  have hhdr : ∀ n, n < 25 →
      (pre ++ (encAthRec (hdr, csib, plb) ++ rest)).getD (pre.length + 2 + n) 0 =
        hdr.getD n 0 := by
    intro n hn
    rw [List.getD_append_right _ _ _ _ (by omega)]
    have h3 : pre.length + 2 + n - pre.length = n + 1 + 1 := by omega
    rw [h3]
    have : (encAthRec (hdr, csib, plb) ++ rest).getD (n + 1 + 1) 0 =
        ((hdr ++ (csib ++ plb)) ++ rest).getD n 0 := by
      simp [encAthRec, List.getD_cons_succ, List.append_assoc]
    rw [this, List.getD_append _ _ _ _ (by simp; omega), List.getD_append _ _ _ _ (by omega)]
  rw [athGo]
  rw [if_pos (by rw [hflen]; omega)]
  dsimp only
  rw [hb0, hb1, hfl]
  rw [if_neg (by rw [hflen]; omega), if_neg (by omega)]
  rw [hhdr 17 (by omega)]
  rw [if_pos h17]

theorem athGo_bad_ntx (cfg : AthCfg) (pre : List ℕ) (hdr csib plb rest : List ℕ)
    (pka f count : ℕ) (store : ℕ → AthRec)
    (hh25 : hdr.length = 25) (hfl65 : 25 + csib.length + plb.length < 65536)
    (hcap : count < pka) (h17 : hdr.getD 17 0 ≤ cfg.Nrxnum)
    (h18 : cfg.Ntxnum < hdr.getD 18 0) :
    (athGo cfg (pre ++ (encAthRec (hdr, csib, plb) ++ rest)) cu16l cu64l pka (f + 1)
        pre.length count store).1 = some .ntxTooSmall := by
  have hflen : (pre ++ (encAthRec (hdr, csib, plb) ++ rest)).length =
      pre.length + (27 + csib.length + plb.length + rest.length) := by
    simp [encAthRec, hh25]
    omega
  have hb0 : (pre ++ (encAthRec (hdr, csib, plb) ++ rest)).getD pre.length 0 =
      (25 + csib.length + plb.length) % 256 := by
    rw [List.getD_append_right _ _ _ _ (le_refl _), Nat.sub_self]
    rfl
  have hb1 : (pre ++ (encAthRec (hdr, csib, plb) ++ rest)).getD (pre.length + 1) 0 =
      (25 + csib.length + plb.length) / 256 := by
    rw [List.getD_append_right _ _ _ _ (by omega), Nat.add_sub_cancel_left]
    rfl
  have hfl : cu16l ((25 + csib.length + plb.length) % 256)
      ((25 + csib.length + plb.length) / 256) = 25 + csib.length + plb.length := by
    unfold cu16l
    rw [lor_shift_add _ _ 8 (by omega)]
    omega
  have hhdr : ∀ n, n < 25 →
      (pre ++ (encAthRec (hdr, csib, plb) ++ rest)).getD (pre.length + 2 + n) 0 =
        hdr.getD n 0 := by
    intro n hn
    rw [List.getD_append_right _ _ _ _ (by omega)]
    have h3 : pre.length + 2 + n - pre.length = n + 1 + 1 := by omega
    rw [h3]
    have : (encAthRec (hdr, csib, plb) ++ rest).getD (n + 1 + 1) 0 =
        ((hdr ++ (csib ++ plb)) ++ rest).getD n 0 := by
      simp [encAthRec, List.getD_cons_succ, List.append_assoc]
    rw [this, List.getD_append _ _ _ _ (by simp; omega), List.getD_append _ _ _ _ (by omega)]
  rw [athGo]
  rw [if_pos (by rw [hflen]; omega)]
  dsimp only
  rw [hb0, hb1, hfl]
  rw [if_neg (by rw [hflen]; omega), if_neg (by omega)]
  rw [hhdr 17 (by omega), hhdr 18 (by omega)]
  rw [if_neg (not_lt.2 h17), if_pos h18]

theorem encAthStream_len_ge (recs : List (List ℕ × List ℕ × List ℕ)) :
    recs.length ≤ (encAthStream recs).length := by
  induction recs with
  | nil => simp [encAthStream]
  | cons r rs ih => simp [encAthStream, encAthRec]; omega

/-- `Atheros.read` (little endian) on a complete well-formed stream: no
error and every record counted, the store sliced to that count. -/
theorem athRead_stream (cfg : AthCfg) (recs : List (List ℕ × List ℕ × List ℕ))
    (hgood : ∀ r ∈ recs, GoodAthRec cfg r)
    (hcap : recs.length ≤ (encAthStream recs).length / 420) :
    (athRead cfg "little" (encAthStream recs)).1 = none ∧
    (athRead cfg "little" (encAthStream recs)).2.count = recs.length ∧
    (athRead cfg "little" (encAthStream recs)).2.len = recs.length := by
  have hle : recs.length ≤ (encAthStream recs).length := encAthStream_len_ge recs
  have hfuel : (encAthStream recs).length + 1 =
      ((encAthStream recs).length + 1 - recs.length) + recs.length := by omega
  obtain ⟨store2, h⟩ := athGo_stream cfg recs [] []
    ((encAthStream recs).length / 420)
    ((encAthStream recs).length + 1 - recs.length) 0 (fun _ => zeroAth) hgood
    (by omega)
  simp only [List.nil_append, List.append_nil, List.length_nil, Nat.zero_add] at h
  rw [athGo_exit cfg (encAthStream recs) cu16l cu64l ((encAthStream recs).length / 420)
    ((encAthStream recs).length + 1 - recs.length) (encAthStream recs).length
    recs.length store2 (by omega)] at h
  unfold athRead
  rw [if_pos rfl]
  dsimp only
  rw [hfuel, h]
  exact ⟨rfl, rfl, rfl⟩

/-- `Atheros.read` (little endian) on a well-formed stream followed by a
record truncated mid-way: no error and only the complete records
counted. -/
theorem athRead_truncated (cfg : AthCfg) (recs : List (List ℕ × List ℕ × List ℕ))
    (hdr csib plb : List ℕ) (m : ℕ)
    (hgood : ∀ r ∈ recs, GoodAthRec cfg r)
    (hh25 : hdr.length = 25) (hfl65 : 25 + csib.length + plb.length < 65536)
    (hm : m < 27 + csib.length + plb.length)
    (hcap : recs.length ≤
      (encAthStream recs ++ (encAthRec (hdr, csib, plb)).take m).length / 420) :
    (athRead cfg "little" (encAthStream recs ++ (encAthRec (hdr, csib, plb)).take m)).1 =
      none ∧
    (athRead cfg "little"
      (encAthStream recs ++ (encAthRec (hdr, csib, plb)).take m)).2.count =
      recs.length ∧
    (athRead cfg "little"
      (encAthStream recs ++ (encAthRec (hdr, csib, plb)).take m)).2.len =
      recs.length := by
  have hle : recs.length ≤
      (encAthStream recs ++ (encAthRec (hdr, csib, plb)).take m).length := by
    have := encAthStream_len_ge recs
    simp only [List.length_append]
    omega
  have hfuel : (encAthStream recs ++ (encAthRec (hdr, csib, plb)).take m).length + 1 =
      (((encAthStream recs ++ (encAthRec (hdr, csib, plb)).take m).length -
        recs.length) + 1) + recs.length := by omega
  obtain ⟨store2, h⟩ := athGo_stream cfg recs [] ((encAthRec (hdr, csib, plb)).take m)
    ((encAthStream recs ++ (encAthRec (hdr, csib, plb)).take m).length / 420)
    (((encAthStream recs ++ (encAthRec (hdr, csib, plb)).take m).length -
      recs.length) + 1) 0 (fun _ => zeroAth) hgood (by omega)
  simp only [List.nil_append, List.length_nil, Nat.zero_add] at h
  rw [athGo_trunc cfg (encAthStream recs) hdr csib plb m
    ((encAthStream recs ++ (encAthRec (hdr, csib, plb)).take m).length / 420)
    ((encAthStream recs ++ (encAthRec (hdr, csib, plb)).take m).length - recs.length)
    recs.length store2 hh25 hfl65 hm] at h
  unfold athRead
  rw [if_pos rfl]
  dsimp only
  rw [hfuel, h]
  exact ⟨rfl, rfl, rfl⟩

/-- `Atheros.read` (little endian) raising the Nrxnum configuration error
at a record whose declared receive-chain count exceeds the configured
maximum, after a good prefix. -/
theorem athRead_bad_nrx (cfg : AthCfg) (recs : List (List ℕ × List ℕ × List ℕ))
    (hdr csib plb rest : List ℕ)
    (hgood : ∀ r ∈ recs, GoodAthRec cfg r)
    (hh25 : hdr.length = 25) (hfl65 : 25 + csib.length + plb.length < 65536)
    (hcap : recs.length <
      (encAthStream recs ++ (encAthRec (hdr, csib, plb) ++ rest)).length / 420)
    (h17 : cfg.Nrxnum < hdr.getD 17 0) :
    (athRead cfg "little"
      (encAthStream recs ++ (encAthRec (hdr, csib, plb) ++ rest))).1 =
      some .nrxTooSmall := by
  have hle : recs.length ≤
      (encAthStream recs ++ (encAthRec (hdr, csib, plb) ++ rest)).length := by
    have := encAthStream_len_ge recs
    simp only [List.length_append]
    omega
  have hfuel : (encAthStream recs ++ (encAthRec (hdr, csib, plb) ++ rest)).length + 1 =
      (((encAthStream recs ++ (encAthRec (hdr, csib, plb) ++ rest)).length -
        recs.length) + 1) + recs.length := by omega
  obtain ⟨store2, h⟩ := athGo_stream cfg recs [] (encAthRec (hdr, csib, plb) ++ rest)
    ((encAthStream recs ++ (encAthRec (hdr, csib, plb) ++ rest)).length / 420)
    (((encAthStream recs ++ (encAthRec (hdr, csib, plb) ++ rest)).length -
      recs.length) + 1) 0 (fun _ => zeroAth) hgood (by omega)
  simp only [List.nil_append, List.length_nil, Nat.zero_add] at h
  have h2 := athGo_bad_nrx cfg (encAthStream recs) hdr csib plb rest
    ((encAthStream recs ++ (encAthRec (hdr, csib, plb) ++ rest)).length / 420)
    ((encAthStream recs ++ (encAthRec (hdr, csib, plb) ++ rest)).length - recs.length)
    recs.length store2 hh25 hfl65 (by omega) h17
  unfold athRead
  rw [if_pos rfl]
  dsimp only
  rw [hfuel, h, h2]

/-- `Atheros.read` (little endian) raising the Ntxnum configuration error
at a record whose declared transmit-chain count exceeds the configured
maximum (receive count in range), after a good prefix. -/
theorem athRead_bad_ntx (cfg : AthCfg) (recs : List (List ℕ × List ℕ × List ℕ))
    (hdr csib plb rest : List ℕ)
    (hgood : ∀ r ∈ recs, GoodAthRec cfg r)
    (hh25 : hdr.length = 25) (hfl65 : 25 + csib.length + plb.length < 65536)
    (hcap : recs.length <
      (encAthStream recs ++ (encAthRec (hdr, csib, plb) ++ rest)).length / 420)
    (h17 : hdr.getD 17 0 ≤ cfg.Nrxnum) (h18 : cfg.Ntxnum < hdr.getD 18 0) :
    (athRead cfg "little"
      (encAthStream recs ++ (encAthRec (hdr, csib, plb) ++ rest))).1 =
      some .ntxTooSmall := by
  have hle : recs.length ≤
      (encAthStream recs ++ (encAthRec (hdr, csib, plb) ++ rest)).length := by
    have := encAthStream_len_ge recs
    simp only [List.length_append]
    omega
  have hfuel : (encAthStream recs ++ (encAthRec (hdr, csib, plb) ++ rest)).length + 1 =
      (((encAthStream recs ++ (encAthRec (hdr, csib, plb) ++ rest)).length -
        recs.length) + 1) + recs.length := by omega
  obtain ⟨store2, h⟩ := athGo_stream cfg recs [] (encAthRec (hdr, csib, plb) ++ rest)
    ((encAthStream recs ++ (encAthRec (hdr, csib, plb) ++ rest)).length / 420)
    (((encAthStream recs ++ (encAthRec (hdr, csib, plb) ++ rest)).length -
      recs.length) + 1) 0 (fun _ => zeroAth) hgood (by omega)
  simp only [List.nil_append, List.length_nil, Nat.zero_add] at h
  have h2 := athGo_bad_ntx cfg (encAthStream recs) hdr csib plb rest
    ((encAthStream recs ++ (encAthRec (hdr, csib, plb) ++ rest)).length / 420)
    ((encAthStream recs ++ (encAthRec (hdr, csib, plb) ++ rest)).length - recs.length)
    recs.length store2 hh25 hfl65 (by omega) h17 h18
  unfold athRead
  rw [if_pos rfl]
  dsimp only
  rw [hfuel, h, h2]

theorem countBB_append_bb (recs : List (ℕ × List ℕ)) (pl : List ℕ) :
    countBB (recs ++ [((0xbb : ℕ), pl)]) = countBB recs + 1 := by
  simp [countBB, List.filter_append]

theorem countC1_append_bb (recs : List (ℕ × List ℕ)) (pl : List ℕ) :
    countC1 (recs ++ [((0xbb : ℕ), pl)]) = countC1 recs := by
  simp [countC1, List.filter_append]

/-- C7: for a frame decoded in batch mode by the Intel decoder (`CSI.read`)
or the Atheros decoder (`Atheros.read`), reached within the preallocated
store capacity (`file_size / 95` and `file_size / 420` slots — at a full
store the header write raises `IndexError` before the checks run): a
declared receive or transmit chain count STRICTLY exceeding the
corresponding configured maximum (`Nrxnum`/`Ntxnum`) raises the
configuration error (`ValueError`), fatal to the call; declared counts
exactly equal to the configured maxima are accepted and the frame is
decoded and counted. -/
theorem C7_chain_count_checks :
    (∀ (cfg : CSICfg) (recs : List (ℕ × List ℕ)) (pl rest : List ℕ),
      (∀ r ∈ recs, GoodRec cfg r) → 1 ≤ pl.length →
      countBB recs < (encStream recs ++ (encRec 0xbb pl ++ rest)).length / 95 →
      countC1 recs ≤ (encStream recs ++ (encRec 0xbb pl ++ rest)).length / 95 →
      cfg.Nrxnum < pl.getD 8 0 →
      (csiRead cfg (encStream recs ++ (encRec 0xbb pl ++ rest))).1 =
        some .nrxTooSmall) ∧
    (∀ (cfg : CSICfg) (recs : List (ℕ × List ℕ)) (pl rest : List ℕ),
      (∀ r ∈ recs, GoodRec cfg r) → 1 ≤ pl.length →
      countBB recs < (encStream recs ++ (encRec 0xbb pl ++ rest)).length / 95 →
      countC1 recs ≤ (encStream recs ++ (encRec 0xbb pl ++ rest)).length / 95 →
      pl.getD 8 0 ≤ cfg.Nrxnum → cfg.Ntxnum < pl.getD 9 0 →
      (csiRead cfg (encStream recs ++ (encRec 0xbb pl ++ rest))).1 =
        some .ntxTooSmall) ∧
    (∀ (cfg : CSICfg) (recs : List (ℕ × List ℕ)) (pl : List ℕ),
      (∀ r ∈ recs, GoodRec cfg r) → 1 ≤ pl.length → pl.length + 1 < 65536 →
      pl.length ≤ 4096 →
      pl.getD 8 0 = cfg.Nrxnum → pl.getD 9 0 = cfg.Ntxnum →
      pl.getD 16 0 ||| (pl.getD 17 0 <<< 8) = 60 * pl.getD 8 0 * pl.getD 9 0 + 12 →
      pl.getD 8 0 ≤ 3 →
      (∀ j, j < pl.getD 8 0 → (pl.getD 15 0 >>> (2 * j)) &&& 0x3 < cfg.Nrxnum) →
      32 + 60 * pl.getD 8 0 * pl.getD 9 0 ≤ pl.length →
      countBB recs + 1 ≤ (encStream (recs ++ [((0xbb : ℕ), pl)])).length / 95 →
      countC1 recs ≤ (encStream (recs ++ [((0xbb : ℕ), pl)])).length / 95 →
      (csiRead cfg (encStream (recs ++ [((0xbb : ℕ), pl)]))).1 = none ∧
      (csiRead cfg (encStream (recs ++ [((0xbb : ℕ), pl)]))).2.count =
        countBB recs + 1) ∧
    (∀ (cfg : AthCfg) (recs : List (List ℕ × List ℕ × List ℕ))
      (hdr csib plb rest : List ℕ),
      (∀ r ∈ recs, GoodAthRec cfg r) → hdr.length = 25 →
      25 + csib.length + plb.length < 65536 →
      recs.length <
        (encAthStream recs ++ (encAthRec (hdr, csib, plb) ++ rest)).length / 420 →
      cfg.Nrxnum < hdr.getD 17 0 →
      (athRead cfg "little"
        (encAthStream recs ++ (encAthRec (hdr, csib, plb) ++ rest))).1 =
        some .nrxTooSmall) ∧
    (∀ (cfg : AthCfg) (recs : List (List ℕ × List ℕ × List ℕ))
      (hdr csib plb rest : List ℕ),
      (∀ r ∈ recs, GoodAthRec cfg r) → hdr.length = 25 →
      25 + csib.length + plb.length < 65536 →
      recs.length <
        (encAthStream recs ++ (encAthRec (hdr, csib, plb) ++ rest)).length / 420 →
      hdr.getD 17 0 ≤ cfg.Nrxnum → cfg.Ntxnum < hdr.getD 18 0 →
      (athRead cfg "little"
        (encAthStream recs ++ (encAthRec (hdr, csib, plb) ++ rest))).1 =
        some .ntxTooSmall) ∧
    (∀ (cfg : AthCfg) (recs : List (List ℕ × List ℕ × List ℕ))
      (hdr csib plb : List ℕ),
      (∀ r ∈ recs, GoodAthRec cfg r) → hdr.length = 25 →
      25 + csib.length + plb.length < 65536 →
      cu16l (hdr.getD 8 0) (hdr.getD 9 0) = csib.length →
      cu16l (hdr.getD 23 0) (hdr.getD 24 0) = plb.length →
      hdr.getD 17 0 = cfg.Nrxnum → hdr.getD 18 0 = cfg.Ntxnum →
      csib.length ≤ 4096 → plb.length ≤ 4096 → hdr.getD 16 0 ≤ cfg.Tones →
      recs.length + 1 ≤ (encAthStream (recs ++ [(hdr, csib, plb)])).length / 420 →
      (athRead cfg "little" (encAthStream (recs ++ [(hdr, csib, plb)]))).1 = none ∧
      (athRead cfg "little" (encAthStream (recs ++ [(hdr, csib, plb)]))).2.count =
        recs.length + 1) := by
  refine ⟨?_, ?_, ?_, ?_, ?_, ?_⟩
  · intro cfg recs pl rest hgood hpl1 hcb hcc h8
    exact csiRead_bad_nrx cfg recs pl rest hgood hpl1 hcb hcc h8
  · intro cfg recs pl rest hgood hpl1 hcb hcc h8 h9
    exact csiRead_bad_ntx cfg recs pl rest hgood hpl1 hcb hcc h8 h9
  · intro cfg recs pl hgood hpl1 hpl2 hpl3 h8 h9 hsz h83 hperm hadq hcb hcc
    have hgood2 : ∀ r ∈ recs ++ [((0xbb : ℕ), pl)], GoodRec cfg r := by
      intro r hr
      rcases List.mem_append.1 hr with h | h
      · exact hgood r h
      · rcases List.mem_singleton.1 h with rfl
        exact ⟨hpl1, hpl2, hpl3,
          fun _ => ⟨le_of_eq h8, le_of_eq h9, hsz, h83, hperm, hadq⟩,
          fun hc => by simp at hc⟩
    obtain ⟨s1, _, _, _, _, _, _, _⟩ := streamEffect_spec cfg (recs ++ [((0xbb : ℕ), pl)])
      ⟨0, 0, fun _ => zeroBB, fun _ => zeroMac⟩ (fun i _ => rfl) (fun i _ => rfl)
    rw [csiRead_encStream cfg (recs ++ [((0xbb : ℕ), pl)]) hgood2
      (by rw [countBB_append_bb]; omega) (by rw [countC1_append_bb]; omega)]
    refine ⟨rfl, ?_⟩
    dsimp only
    rw [s1]
    dsimp only
    rw [countBB_append_bb]
    omega
  · intro cfg recs hdr csib plb rest hgood hh25 hfl65 hcap h17
    exact athRead_bad_nrx cfg recs hdr csib plb rest hgood hh25 hfl65 hcap h17
  · intro cfg recs hdr csib plb rest hgood hh25 hfl65 hcap h17 h18
    exact athRead_bad_ntx cfg recs hdr csib plb rest hgood hh25 hfl65 hcap h17 h18
  · intro cfg recs hdr csib plb hgood hh25 hfl65 hc hp h17 h18 hcs96 hpl96 htones hcap
    have hgood2 : ∀ r ∈ recs ++ [(hdr, csib, plb)], GoodAthRec cfg r := by
      intro r hr
      rcases List.mem_append.1 hr with h | h
      · exact hgood r h
      · rcases List.mem_singleton.1 h with rfl
        exact ⟨hh25, hfl65, hc, hp, le_of_eq h17, le_of_eq h18, hcs96, hpl96, htones⟩
    obtain ⟨a1, a2, a3⟩ := athRead_stream cfg (recs ++ [(hdr, csib, plb)]) hgood2
      (by simp only [List.length_append, List.length_singleton]; omega)
    refine ⟨a1, ?_⟩
    rw [a2]
    simp

end Csiread

namespace Csiread

/-- 0xbb payload declaring Nrx = 4 (above the default maximum 3). -/
def c7PlNrx : List ℕ := (List.range 92).map (fun n => if n = 8 then 4 else 0)

/-- 0xbb payload declaring Nrx = 1, Ntx = 3 (above the default maximum 2). -/
def c7PlNtx : List ℕ :=
  (List.range 92).map (fun n => if n = 8 then 1 else if n = 9 then 3 else 0)

/-- 0xbb payload declaring Nrx = 3 and Ntx = 2, exactly the configured
maxima, with the consistent size field 60·3·2 + 12 = 372 and enough
payload bytes (392) to cover every CSI read. -/
def c7PlEq : List ℕ :=
  (List.range 392).map (fun n => if n = 8 then 3 else if n = 9 then 2 else
    if n = 16 then 116 else if n = 17 then 1 else 0)

/-- Atheros header declaring nr = 4 (above the default maximum 3). -/
def c7HdrNrx : List ℕ := (List.range 25).map (fun n => if n = 17 then 4 else 0)

/-- Atheros header declaring nr = 1, nc = 3 (above the default maximum 2). -/
def c7HdrNtx : List ℕ :=
  (List.range 25).map (fun n => if n = 17 then 1 else if n = 18 then 3 else 0)

/-- Atheros header declaring nr = 3 and nc = 2, exactly the configured
maxima, with empty CSI and a 400-byte payload (declared in bytes 23-24)
so the single-record file reaches the 420-byte preallocation threshold. -/
def c7HdrEq : List ℕ :=
  (List.range 25).map (fun n => if n = 17 then 3 else if n = 18 then 2 else
    if n = 23 then 144 else if n = 24 then 1 else 0)

/-- 400 zero payload bytes padding the Atheros witness records past the
420-byte preallocation threshold. -/
def c7Pad : List ℕ := List.replicate 400 0

set_option maxRecDepth 4096 in
/-- Witness for C7 at concrete frames for both decoders. -/
theorem C7_witness :
    ((⟨3, 2, 0⟩ : CSICfg).Nrxnum < c7PlNrx.getD 8 0 ∧
      (csiRead ⟨3, 2, 0⟩ (encStream [] ++ (encRec 0xbb c7PlNrx ++ []))).1 =
        some .nrxTooSmall) ∧
    ((⟨3, 2, 0⟩ : CSICfg).Ntxnum < c7PlNtx.getD 9 0 ∧
      (csiRead ⟨3, 2, 0⟩ (encStream [] ++ (encRec 0xbb c7PlNtx ++ []))).1 =
        some .ntxTooSmall) ∧
    (c7PlEq.getD 8 0 = (⟨3, 2, 0⟩ : CSICfg).Nrxnum ∧
      c7PlEq.getD 9 0 = (⟨3, 2, 0⟩ : CSICfg).Ntxnum ∧
      (csiRead ⟨3, 2, 0⟩ (encStream ([] ++ [((0xbb : ℕ), c7PlEq)]))).1 = none ∧
      (csiRead ⟨3, 2, 0⟩ (encStream ([] ++ [((0xbb : ℕ), c7PlEq)]))).2.count =
        countBB [] + 1) ∧
    ((⟨3, 2, 56, 0⟩ : AthCfg).Nrxnum < c7HdrNrx.getD 17 0 ∧
      (athRead ⟨3, 2, 56, 0⟩ "little"
        (encAthStream [] ++ (encAthRec (c7HdrNrx, [], c7Pad) ++ []))).1 =
        some .nrxTooSmall) ∧
    ((⟨3, 2, 56, 0⟩ : AthCfg).Ntxnum < c7HdrNtx.getD 18 0 ∧
      (athRead ⟨3, 2, 56, 0⟩ "little"
        (encAthStream [] ++ (encAthRec (c7HdrNtx, [], c7Pad) ++ []))).1 =
        some .ntxTooSmall) ∧
    (c7HdrEq.getD 17 0 = (⟨3, 2, 56, 0⟩ : AthCfg).Nrxnum ∧
      c7HdrEq.getD 18 0 = (⟨3, 2, 56, 0⟩ : AthCfg).Ntxnum ∧
      (athRead ⟨3, 2, 56, 0⟩ "little"
        (encAthStream ([] ++ [(c7HdrEq, [], c7Pad)]))).1 = none ∧
      (athRead ⟨3, 2, 56, 0⟩ "little"
        (encAthStream ([] ++ [(c7HdrEq, [], c7Pad)]))).2.count =
        ([] : List (List ℕ × List ℕ × List ℕ)).length + 1) :=
  ⟨⟨by decide, C7_chain_count_checks.1 ⟨3, 2, 0⟩ [] c7PlNrx [] (by decide) (by decide)
      (by decide) (by decide) (by decide)⟩,
   ⟨by decide, C7_chain_count_checks.2.1 ⟨3, 2, 0⟩ [] c7PlNtx [] (by decide) (by decide)
      (by decide) (by decide) (by decide) (by decide)⟩,
   ⟨by decide, by decide, C7_chain_count_checks.2.2.1 ⟨3, 2, 0⟩ [] c7PlEq (by decide)
      (by decide) (by decide) (by decide) (by decide) (by decide) (by decide)
      (by decide) (by decide) (by decide) (by decide) (by decide)⟩,
   ⟨by decide, C7_chain_count_checks.2.2.2.1 ⟨3, 2, 56, 0⟩ [] c7HdrNrx [] c7Pad []
      (by decide) (by decide) (by decide) (by decide) (by decide)⟩,
   ⟨by decide, C7_chain_count_checks.2.2.2.2.1 ⟨3, 2, 56, 0⟩ [] c7HdrNtx [] c7Pad []
      (by decide) (by decide) (by decide) (by decide) (by decide) (by decide)⟩,
   ⟨by decide, by decide, C7_chain_count_checks.2.2.2.2.2 ⟨3, 2, 56, 0⟩ [] c7HdrEq []
      c7Pad (by decide) (by decide) (by decide) (by decide) (by decide) (by decide)
      (by decide) (by decide) (by decide) (by decide) (by decide)⟩⟩

end Csiread

namespace Csiread

/-!  ## The Nexmon decoder

`Nexmon.read` parses a pcap container: a 4-byte magic selecting endianness
and timestamp precision, a 20-byte global-header tail, then per-packet
records (16-byte packet header; a 42-byte ethernet/ip/udp prefix whose
bytes 6..11 must equal the literal marker; an 18-byte application
header; the CSI payload of `caplen - 42 - 18` bytes decoded by the
chip-selected strategy).  `int(bw * 3.2)` is modelled as `16 * bw / 5`,
which agrees with the double-precision computation for the bandwidths
the tool supports. -/

/-- Configuration of a `Nexmon` decoder instance. -/
structure NexCfg where
  chip : String
  bw : ℕ

/-- The Nexmon store (one slot per counted packet; the arrays are never
sliced by `read`, which only sets `count`). -/
structure NexSt where
  count : ℕ
  sec : ℕ → ℕ
  usec : ℕ → ℕ
  caplen : ℕ → ℕ
  wirelen : ℕ → ℕ
  magic : ℕ → ℕ
  src_addr : ℕ → ℕ → ℕ
  seq : ℕ → ℕ
  core : ℕ → ℕ
  spatial : ℕ → ℕ
  chan_spec : ℕ → ℕ
  chip_version : ℕ → ℕ
  csi : ℕ → ℕ → ℤ × ℤ

/-- A zero-initialized Nexmon store. -/
def zeroNexSt : NexSt :=
  ⟨0, fun _ => 0, fun _ => 0, fun _ => 0, fun _ => 0, fun _ => 0, fun _ _ => 0,
    fun _ => 0, fun _ => 0, fun _ => 0, fun _ => 0, fun _ => 0, fun _ _ => (0, 0)⟩

/-- The `unpack_int16` decoder: one 16-bit signed pair per subcarrier. -/
def unpackInt16 (cu16 : ℕ → ℕ → ℕ) (buf : ℕ → ℕ) (i : ℕ) : ℤ × ℤ :=
  (toInt16 (cu16 (buf (4 * i)) (buf (4 * i + 1))),
   toInt16 (cu16 (buf (4 * i + 2)) (buf (4 * i + 3))))

/-- The chip-dispatched CSI write into row `idx` of the store: int16 pairs
for chips 4339/3455c0, packed floats (M=9, E=5) for 4358, packed floats
(M=12, E=6) for 4366c0, and a silent no-op for any other chip string. -/
def nexCsiUpd (cfg : NexCfg) (cu16 : ℕ → ℕ → ℕ) (cu32 : ℕ → ℕ → ℕ → ℕ → ℕ)
    (payload : ℕ → ℕ) (nfft idx : ℕ) (csi : ℕ → ℕ → ℤ × ℤ) : ℕ → ℕ → ℤ × ℤ :=
  if cfg.chip = "4339" ∨ cfg.chip = "3455c0" then
    fun c i => if c = idx ∧ i < nfft then unpackInt16 cu16 payload i else csi c i
  else if cfg.chip = "4358" then
    fun c i => if c = idx ∧ i < nfft then
      (unpackFloat cu32 payload nfft 9 5).getD i (0, 0) else csi c i
  else if cfg.chip = "4366c0" then
    fun c i => if c = idx ∧ i < nfft then
      (unpackFloat cu32 payload nfft 12 6).getD i (0, 0) else csi c i
  else csi

/-- The 18-byte application-header writes into slot `idx` (magic, source
MAC, sequence, 3-bit core and spatial indices, channel spec, chip tag). -/
def nexHeaderUpd (cu16 : ℕ → ℕ → ℕ) (cu32 : ℕ → ℕ → ℕ → ℕ → ℕ) (hb : ℕ → ℕ)
    (idx : ℕ) (st : NexSt) : NexSt :=
  { st with
    magic := fun c => if c = idx then cu32 (hb 0) (hb 1) (hb 2) (hb 3) else st.magic c
    src_addr := fun c i => if c = idx ∧ i < 6 then hb (4 + i) else st.src_addr c i
    seq := fun c => if c = idx then cu16 (hb 10) (hb 11) else st.seq c
    core := fun c => if c = idx then cu16 (hb 12) (hb 13) &&& 0x7 else st.core c
    spatial := fun c => if c = idx then (cu16 (hb 12) (hb 13) >>> 3) &&& 0x7
      else st.spatial c
    chan_spec := fun c => if c = idx then cu16 (hb 14) (hb 15) else st.chan_spec c
    chip_version := fun c => if c = idx then cu16 (hb 16) (hb 17) else st.chip_version c }

/-- The 16-byte packet-header writes into slot `idx`. -/
def nexPktHeaderUpd (cu32 : ℕ → ℕ → ℕ → ℕ → ℕ) (b : ℕ → ℕ) (idx : ℕ)
    (st : NexSt) : NexSt :=
  { st with
    sec := fun c => if c = idx then cu32 (b 0) (b 1) (b 2) (b 3) else st.sec c
    usec := fun c => if c = idx then cu32 (b 4) (b 5) (b 6) (b 7) else st.usec c
    caplen := fun c => if c = idx then cu32 (b 8) (b 9) (b 10) (b 11) else st.caplen c
    wirelen := fun c => if c = idx then cu32 (b 12) (b 13) (b 14) (b 15) else st.wirelen c }

/-- The `Nexmon.read` packet loop.  A short 16-byte header read breaks the
loop; packets without the 6-byte marker are skipped with `fseek`; marker
packets are decoded into the current slot and counted.  Short reads after
the packet header are NOT detected by the source, so a truncated final
marker packet is still decoded (from whatever bytes remain) and counted.
A backwards `fseek` past the file start fails and leaves the position
where it was.  The source preallocates the store from a pre-scan
(`__get_count`) that counts the packets whose bytes 22..27 equal the
marker with the same seek logic as this loop, so on the marker-packet
streams the theorems below quantify over (including the final truncated
packet, whose marker the pre-scan also sees, and a sub-16-byte tail,
which breaks both scans alike) every bounds-checked store write lands
below that count; the stores are therefore modelled as unbounded total
functions. -/
def nexGo (cfg : NexCfg) (file : List ℕ) (cu16 : ℕ → ℕ → ℕ)
    (cu32 : ℕ → ℕ → ℕ → ℕ → ℕ) : ℕ → ℕ → NexSt → NexSt
  | 0, _, st => st
  | fuel + 1, cur, st =>
    if file.length - cur < 16 then st
    else
      let b := fun n => file.getD (cur + n) 0
      let caplen := cu32 (b 8) (b 9) (b 10) (b 11)
      let st2 := nexPktHeaderUpd cu32 b st.count st
      let p1 := cur + 16
      let l42 := min 42 (file.length - p1)
      if ¬(file.getD (p1 + 6) 0 = 78 ∧ file.getD (p1 + 7) 0 = 69 ∧
          file.getD (p1 + 8) 0 = 88 ∧ file.getD (p1 + 9) 0 = 77 ∧
          file.getD (p1 + 10) 0 = 79 ∧ file.getD (p1 + 11) 0 = 78) then
        let tgt := (p1 + l42 : ℤ) + ((caplen : ℤ) - 42)
        nexGo cfg file cu16 cu32 fuel (if tgt < 0 then p1 + l42 else tgt.toNat) st2
      else
        let p2 := p1 + l42
        let l18 := min 18 (file.length - p2)
        let st3 := nexHeaderUpd cu16 cu32 (fun n => file.getD (p2 + n) 0) st.count st2
        let p3 := p2 + l18
        let lcsi := min (caplen - 42 - 18) (file.length - p3)
        let st4 := { st3 with csi := (nexCsiUpd cfg cu16 cu32
          (fun n => file.getD (p3 + n) 0) (16 * cfg.bw / 5) st.count st3.csi) }
        nexGo cfg file cu16 cu32 fuel (p3 + lcsi) { st4 with count := st.count + 1 }

/-- Errors of `Nexmon.read`: a bad pcap magic or a too-short global header. -/
inductive NexErr where
  | badMagic : NexErr
  | tooShort : NexErr
deriving DecidableEq

/-- The observable state of a `Nexmon` object after a `read` call. -/
structure NexObj where
  count : ℕ
  nano : Bool
  st : NexSt

/-- The per-endianness body of `Nexmon.read` after the pcap magic chose the
readers: check the 20-byte global-header tail, then run the loop from
offset 24. -/
def nexReadGo (cfg : NexCfg) (file : List ℕ) (little nano : Bool) :
    Option NexErr × NexObj :=
  if file.length - 4 < 20 then (some .tooShort, ⟨0, nano, zeroNexSt⟩)
  else
    let st := if little then
        nexGo cfg file cu16l cu32l (file.length + 1) 24 zeroNexSt
      else
        nexGo cfg file cu16b cu32b (file.length + 1) 24 zeroNexSt
    (none, ⟨st.count, nano, st⟩)

/-- `Nexmon.read` on a fresh object: parse the pcap magic (raising on
anything unknown), then decode the packet stream. -/
def nexRead (cfg : NexCfg) (file : List ℕ) : Option NexErr × NexObj :=
  let m := [file.getD 0 0, file.getD 1 0, file.getD 2 0, file.getD 3 0]
  if m = [0xa1, 0xb2, 0xc3, 0xd4] then nexReadGo cfg file false false
  else if m = [0xd4, 0xc3, 0xb2, 0xa1] then nexReadGo cfg file true false
  else if m = [0xa1, 0xb2, 0x3c, 0x4d] then nexReadGo cfg file false true
  else if m = [0x4d, 0x3c, 0xb2, 0xa1] then nexReadGo cfg file true true
  else (some .badMagic, ⟨0, false, zeroNexSt⟩)

/-- `Nexmon.pmsg`: decode one pre-delimited buffer into slot 0.  If bytes
6..11 of the buffer are not the literal marker, return `None` without
touching the store; otherwise decode the application header and CSI and
return the 0xf100 status code. -/
def nexPmsg (cfg : NexCfg) (st : NexSt) (data : List ℕ) (little : Bool) :
    Option ℕ × NexSt :=
  let b := fun n => data.getD n 0
  if ¬(b 6 = 78 ∧ b 7 = 69 ∧ b 8 = 88 ∧ b 9 = 77 ∧ b 10 = 79 ∧ b 11 = 78) then
    (none, st)
  else
    let cu16 := if little then cu16l else cu16b
    let cu32 := if little then cu32l else cu32b
    let st2 := nexHeaderUpd cu16 cu32 (fun n => b (42 + n)) 0 st
    let st3 := { st2 with csi := (nexCsiUpd cfg cu16 cu32 (fun n => b (60 + n))
      (16 * cfg.bw / 5) 0 st2.csi) }
    (some 0xf100, st3)

/-- C9: `Nexmon.pmsg` on a buffer whose bytes 6..11 are not the marker
b'NEXMON' returns `None` (not the 0xf100 code) and leaves the whole store
unchanged.  The length hypothesis keeps the buffer inside the regime
where the source's fixed-size read buffer holds exactly the given bytes
at the compared offsets. -/
theorem C9_pmsg_marker_mismatch (cfg : NexCfg) (st : NexSt) (data : List ℕ)
    (little : Bool) (hlen : 12 ≤ data.length)
    (hmark : ¬(data.getD 6 0 = 78 ∧ data.getD 7 0 = 69 ∧ data.getD 8 0 = 88 ∧
      data.getD 9 0 = 77 ∧ data.getD 10 0 = 79 ∧ data.getD 11 0 = 78)) :
    (nexPmsg cfg st data little).1 = none ∧ (nexPmsg cfg st data little).2 = st := by
  unfold nexPmsg
  dsimp only
  rw [if_pos hmark]
  exact ⟨rfl, rfl⟩

/-- Witness for C9 at a concrete 12-byte buffer with a wrong marker. -/
theorem C9_witness :
    (nexPmsg ⟨"4339", 5⟩ zeroNexSt [0, 0, 0, 0, 0, 0, 1, 2, 3, 4, 5, 6] true).1 = none ∧
    (nexPmsg ⟨"4339", 5⟩ zeroNexSt [0, 0, 0, 0, 0, 0, 1, 2, 3, 4, 5, 6] true).2 = zeroNexSt :=
  C9_pmsg_marker_mismatch ⟨"4339", 5⟩ zeroNexSt [0, 0, 0, 0, 0, 0, 1, 2, 3, 4, 5, 6]
    true (by decide) (by decide)

/-- Little-endian byte serialization of a 32-bit value, inverse of `cu32l`. -/
def u32le (n : ℕ) : List ℕ := [n % 256, n / 256 % 256, n / 2 ^ 16 % 256, n / 2 ^ 24 % 256]

theorem cu32l_bytes (n : ℕ) (h : n < 2 ^ 32) :
    cu32l (n % 256) (n / 256 % 256) (n / 2 ^ 16 % 256) (n / 2 ^ 24 % 256) = n := by
  unfold cu32l
  rw [lor_shift_add _ _ 8 (by omega)]
  rw [lor_shift_add _ _ 16 (by omega)]
  rw [lor_shift_add _ _ 24 (by omega)]
  omega

/-- Wire encoding of one pcap packet `(sec, usec, wirelen, body)`: the
16-byte packet header (with `caplen` equal to the stored body length)
followed by the body. -/
def encNexPkt (p : ℕ × ℕ × ℕ × List ℕ) : List ℕ :=
  u32le p.1 ++ u32le p.2.1 ++ u32le p.2.2.2.length ++ u32le p.2.2.1 ++ p.2.2.2

/-- Wire encoding of a list of pcap packets. -/
def encNexStream : List (ℕ × ℕ × ℕ × List ℕ) → List ℕ
  | [] => []
  | p :: ps => encNexPkt p ++ encNexStream ps

/-- A pcap packet `(sec, usec, wirelen, body)` the Nexmon read loop
consumes completely and counts: 32-bit header fields, a body of at least
60 bytes (ethernet/ip/udp prefix plus application header) carrying the
b'NEXMON' marker at offsets 6..11. -/
def GoodNexPkt (p : ℕ × ℕ × ℕ × List ℕ) : Prop :=
  p.1 < 2 ^ 32 ∧ p.2.1 < 2 ^ 32 ∧ p.2.2.1 < 2 ^ 32 ∧ p.2.2.2.length < 2 ^ 32 ∧
  60 ≤ p.2.2.2.length ∧ p.2.2.2.getD 6 0 = 78 ∧ p.2.2.2.getD 7 0 = 69 ∧
  p.2.2.2.getD 8 0 = 88 ∧ p.2.2.2.getD 9 0 = 77 ∧ p.2.2.2.getD 10 0 = 79 ∧
  p.2.2.2.getD 11 0 = 78

instance (p : ℕ × ℕ × ℕ × List ℕ) : Decidable (GoodNexPkt p) := by
  unfold GoodNexPkt; infer_instance

theorem nexGo_exit (cfg : NexCfg) (file : List ℕ) (cu16 : ℕ → ℕ → ℕ)
    (cu32 : ℕ → ℕ → ℕ → ℕ → ℕ) (f cur : ℕ) (st : NexSt)
    (h : file.length < cur + 16) :
    nexGo cfg file cu16 cu32 f cur st = st := by
  cases f with
  | zero => rfl
  | succ f => rw [nexGo, if_pos (by omega)]

theorem nexGo_step (cfg : NexCfg) (pre rest : List ℕ) (sc us wl : ℕ) (body : List ℕ)
    (f : ℕ) (st : NexSt)
    (hgood : GoodNexPkt (sc, us, wl, body)) :
    ∃ st2, nexGo cfg (pre ++ (encNexPkt (sc, us, wl, body) ++ rest)) cu16l cu32l (f + 1)
        pre.length st =
      nexGo cfg (pre ++ (encNexPkt (sc, us, wl, body) ++ rest)) cu16l cu32l f
        (pre.length + (16 + body.length)) st2 ∧ st2.count = st.count + 1 := by
  obtain ⟨hsc, hus, hwl, hbl, h60, hk6, hk7, hk8, hk9, hk10, hk11⟩ := hgood
  dsimp only at hbl h60 hk6 hk7 hk8 hk9 hk10 hk11
  have hflen : (pre ++ (encNexPkt (sc, us, wl, body) ++ rest)).length =
      pre.length + (16 + body.length + rest.length) := by
    simp [encNexPkt, u32le]
    omega
  have hc8 : (pre ++ (encNexPkt (sc, us, wl, body) ++ rest)).getD (pre.length + 8) 0 =
      body.length % 256 := by
    rw [List.getD_append_right _ _ _ _ (by omega),
      show pre.length + 8 - pre.length = 8 from by omega]
    rfl
  have hc9 : (pre ++ (encNexPkt (sc, us, wl, body) ++ rest)).getD (pre.length + 9) 0 =
      body.length / 256 % 256 := by
    rw [List.getD_append_right _ _ _ _ (by omega),
      show pre.length + 9 - pre.length = 9 from by omega]
    rfl
  have hc10 : (pre ++ (encNexPkt (sc, us, wl, body) ++ rest)).getD (pre.length + 10) 0 =
      body.length / 2 ^ 16 % 256 := by
    rw [List.getD_append_right _ _ _ _ (by omega),
      show pre.length + 10 - pre.length = 10 from by omega]
    rfl
  have hc11 : (pre ++ (encNexPkt (sc, us, wl, body) ++ rest)).getD (pre.length + 11) 0 =
      body.length / 2 ^ 24 % 256 := by
    rw [List.getD_append_right _ _ _ _ (by omega),
      show pre.length + 11 - pre.length = 11 from by omega]
    rfl
  have hmk : ∀ k, (pre ++ (encNexPkt (sc, us, wl, body) ++ rest)).getD
      (pre.length + 16 + k) 0 = (body ++ rest).getD k 0 := by
    intro k
    rw [List.getD_append_right _ _ _ _ (by omega),
      show pre.length + 16 + k - pre.length = k + 16 from by omega]
    rfl
  have h6 : (pre ++ (encNexPkt (sc, us, wl, body) ++ rest)).getD
      (pre.length + 16 + 6) 0 = 78 := by
    rw [hmk 6, List.getD_append _ _ _ _ (by omega), hk6]
  have h7 : (pre ++ (encNexPkt (sc, us, wl, body) ++ rest)).getD
      (pre.length + 16 + 7) 0 = 69 := by
    rw [hmk 7, List.getD_append _ _ _ _ (by omega), hk7]
  have h8 : (pre ++ (encNexPkt (sc, us, wl, body) ++ rest)).getD
      (pre.length + 16 + 8) 0 = 88 := by
    rw [hmk 8, List.getD_append _ _ _ _ (by omega), hk8]
  have h9 : (pre ++ (encNexPkt (sc, us, wl, body) ++ rest)).getD
      (pre.length + 16 + 9) 0 = 77 := by
    rw [hmk 9, List.getD_append _ _ _ _ (by omega), hk9]
  have h10 : (pre ++ (encNexPkt (sc, us, wl, body) ++ rest)).getD
      (pre.length + 16 + 10) 0 = 79 := by
    rw [hmk 10, List.getD_append _ _ _ _ (by omega), hk10]
  have h11 : (pre ++ (encNexPkt (sc, us, wl, body) ++ rest)).getD
      (pre.length + 16 + 11) 0 = 78 := by
    rw [hmk 11, List.getD_append _ _ _ _ (by omega), hk11]
  rw [nexGo]
  rw [if_neg (by rw [hflen]; omega)]
  dsimp only
  rw [if_neg (not_not_intro ⟨h6, h7, h8, h9, h10, h11⟩)]
  have hl42 : min 42 ((pre ++ (encNexPkt (sc, us, wl, body) ++ rest)).length -
      (pre.length + 16)) = 42 := by
    rw [hflen]; omega
  rw [hl42]
  have hl18 : min 18 ((pre ++ (encNexPkt (sc, us, wl, body) ++ rest)).length -
      (pre.length + 16 + 42)) = 18 := by
    rw [hflen]; omega
  rw [hl18]
  rw [hc8, hc9, hc10, hc11, cu32l_bytes body.length hbl]
  have hlcsi : min (body.length - 42 - 18)
      ((pre ++ (encNexPkt (sc, us, wl, body) ++ rest)).length -
        (pre.length + 16 + 42 + 18)) = body.length - 60 := by
    rw [hflen]; omega
  rw [hlcsi]
  rw [show pre.length + 16 + 42 + 18 + (body.length - 60) =
    pre.length + (16 + body.length) from by omega]
  exact ⟨_, rfl, rfl⟩

theorem encNexStream_len_ge (pkts : List (ℕ × ℕ × ℕ × List ℕ)) :
    pkts.length ≤ (encNexStream pkts).length := by
  induction pkts with
  | nil => simp [encNexStream]
  | cons p ps ih => simp [encNexStream, encNexPkt, u32le]; omega

theorem nexGo_stream (cfg : NexCfg) :
    ∀ (pkts : List (ℕ × ℕ × ℕ × List ℕ)) (pre rest : List ℕ) (f : ℕ) (st : NexSt),
    (∀ p ∈ pkts, GoodNexPkt p) →
    ∃ st2, nexGo cfg (pre ++ (encNexStream pkts ++ rest)) cu16l cu32l (f + pkts.length)
        pre.length st =
      nexGo cfg (pre ++ (encNexStream pkts ++ rest)) cu16l cu32l f
        (pre.length + (encNexStream pkts).length) st2 ∧
      st2.count = st.count + pkts.length := by
  intro pkts
  induction pkts with
  | nil =>
    intro pre rest f st h
    exact ⟨st, by simp [encNexStream], by simp⟩
  | cons p ps ih =>
    intro pre rest f st h
    obtain ⟨sc, us, wl, body⟩ := p
    have hassoc : pre ++ (encNexStream ((sc, us, wl, body) :: ps) ++ rest) =
        pre ++ (encNexPkt (sc, us, wl, body) ++ (encNexStream ps ++ rest)) := by
      simp [encNexStream, List.append_assoc]
    have hassoc2 : pre ++ (encNexPkt (sc, us, wl, body) ++ (encNexStream ps ++ rest)) =
        (pre ++ encNexPkt (sc, us, wl, body)) ++ (encNexStream ps ++ rest) := by
      simp [List.append_assoc]
    have hlen : f + ((sc, us, wl, body) :: ps).length = (f + ps.length) + 1 := by
      simp [List.length_cons]; omega
    have hgp : GoodNexPkt (sc, us, wl, body) :=
      h (sc, us, wl, body) (List.mem_cons_self _ ps)
    obtain ⟨st1, hstep, hcnt1⟩ := nexGo_step cfg pre (encNexStream ps ++ rest)
      sc us wl body (f + ps.length) st hgp
    have hcur : pre.length + (16 + body.length) =
        (pre ++ encNexPkt (sc, us, wl, body)).length := by
      simp [encNexPkt, u32le]
      omega
    obtain ⟨st2, h2, hcnt2⟩ := ih (pre ++ encNexPkt (sc, us, wl, body)) rest f st1
      (fun x hx => h x (List.mem_cons_of_mem _ hx))
    refine ⟨st2, ?_, ?_⟩
    · rw [hassoc, hlen, hstep, hcur, hassoc2, h2]
      have hlen2 : (pre ++ encNexPkt (sc, us, wl, body)).length +
          (encNexStream ps).length =
          pre.length + (encNexStream ((sc, us, wl, body) :: ps)).length := by
        simp [encNexStream]
        omega
      rw [hlen2, ← hassoc2, ← hassoc]
    · rw [hcnt2, hcnt1]
      simp only [List.length_cons]
      omega

/-- A marker packet truncated at byte `m` inside its CSI payload (the
first 76 bytes — packet header, ethernet prefix and application header —
are present) is still decoded and counted: the loop's short reads after
the 16-byte packet header are never checked. -/
theorem nexGo_trunc_payload (cfg : NexCfg) (pre : List ℕ) (sc us wl : ℕ)
    (body : List ℕ) (m f : ℕ) (st : NexSt)
    (hgood : GoodNexPkt (sc, us, wl, body)) (hm76 : 76 ≤ m)
    (hm : m < 16 + body.length) :
    (nexGo cfg (pre ++ (encNexPkt (sc, us, wl, body)).take m) cu16l cu32l (f + 1)
        pre.length st).count = st.count + 1 := by
  obtain ⟨hsc, hus, hwl, hbl, h60, hk6, hk7, hk8, hk9, hk10, hk11⟩ := hgood
  dsimp only at hbl h60 hk6 hk7 hk8 hk9 hk10 hk11
  have hel : (encNexPkt (sc, us, wl, body)).length = 16 + body.length := by
    simp [encNexPkt, u32le]
    omega
  have hflen : (pre ++ (encNexPkt (sc, us, wl, body)).take m).length =
      pre.length + m := by
    simp [List.length_take, hel]
    omega
  have hc8 : (pre ++ (encNexPkt (sc, us, wl, body)).take m).getD (pre.length + 8) 0 =
      body.length % 256 := by
    rw [List.getD_append_right _ _ _ _ (by omega),
      show pre.length + 8 - pre.length = 8 from by omega, getD_take _ _ _ (by omega)]
    rfl
  have hc9 : (pre ++ (encNexPkt (sc, us, wl, body)).take m).getD (pre.length + 9) 0 =
      body.length / 256 % 256 := by
    rw [List.getD_append_right _ _ _ _ (by omega),
      show pre.length + 9 - pre.length = 9 from by omega, getD_take _ _ _ (by omega)]
    rfl
  have hc10 : (pre ++ (encNexPkt (sc, us, wl, body)).take m).getD (pre.length + 10) 0 =
      body.length / 2 ^ 16 % 256 := by
    rw [List.getD_append_right _ _ _ _ (by omega),
      show pre.length + 10 - pre.length = 10 from by omega, getD_take _ _ _ (by omega)]
    rfl
  have hc11 : (pre ++ (encNexPkt (sc, us, wl, body)).take m).getD (pre.length + 11) 0 =
      body.length / 2 ^ 24 % 256 := by
    rw [List.getD_append_right _ _ _ _ (by omega),
      show pre.length + 11 - pre.length = 11 from by omega, getD_take _ _ _ (by omega)]
    rfl
  have hmk : ∀ k, k < 12 → (pre ++ (encNexPkt (sc, us, wl, body)).take m).getD
      (pre.length + 16 + k) 0 = body.getD k 0 := by
    intro k hk
    rw [List.getD_append_right _ _ _ _ (by omega),
      show pre.length + 16 + k - pre.length = k + 16 from by omega,
      getD_take _ _ _ (by omega)]
    have hl4 : (u32le sc ++ u32le us ++ u32le body.length ++ u32le wl).length = 16 := by
      simp [u32le]
    have hsplit : (encNexPkt (sc, us, wl, body)).getD (k + 16) 0 = body.getD k 0 := by
      show ((u32le sc ++ u32le us ++ u32le body.length ++ u32le wl) ++ body).getD
        (k + 16) 0 = body.getD k 0
      rw [List.getD_append_right _ _ _ _ (by rw [hl4]; omega)]
      rw [hl4]
      rw [show k + 16 - 16 = k from by omega]
    exact hsplit
  have h6 := hmk 6 (by omega)
  have h7 := hmk 7 (by omega)
  have h8 := hmk 8 (by omega)
  have h9 := hmk 9 (by omega)
  have h10 := hmk 10 (by omega)
  have h11 := hmk 11 (by omega)
  rw [hk6] at h6
  rw [hk7] at h7
  rw [hk8] at h8
  rw [hk9] at h9
  rw [hk10] at h10
  rw [hk11] at h11
  rw [nexGo]
  rw [if_neg (by rw [hflen]; omega)]
  dsimp only
  rw [if_neg (not_not_intro ⟨h6, h7, h8, h9, h10, h11⟩)]
  have hl42 : min 42 ((pre ++ (encNexPkt (sc, us, wl, body)).take m).length -
      (pre.length + 16)) = 42 := by
    rw [hflen]; omega
  rw [hl42]
  have hl18 : min 18 ((pre ++ (encNexPkt (sc, us, wl, body)).take m).length -
      (pre.length + 16 + 42)) = 18 := by
    rw [hflen]; omega
  rw [hl18]
  rw [hc8, hc9, hc10, hc11, cu32l_bytes body.length hbl]
  have hlcsi : min (body.length - 42 - 18)
      ((pre ++ (encNexPkt (sc, us, wl, body)).take m).length -
        (pre.length + 16 + 42 + 18)) = m - 76 := by
    rw [hflen]; omega
  rw [hlcsi]
  rw [nexGo_exit cfg _ cu16l cu32l f (pre.length + 16 + 42 + 18 + (m - 76)) _
    (by rw [hflen]; omega)]

/-- `Nexmon.read` (little-endian pcap, microsecond precision) on a
well-formed packet stream followed by a marker packet truncated inside
its CSI payload: no error, and the truncated packet is still counted. -/
theorem nexRead_trunc_payload (cfg : NexCfg) (hdr20 : List ℕ)
    (pkts : List (ℕ × ℕ × ℕ × List ℕ)) (sc us wl : ℕ) (body : List ℕ) (m : ℕ)
    (hh20 : hdr20.length = 20)
    (hgoods : ∀ p ∈ pkts, GoodNexPkt p)
    (hgood : GoodNexPkt (sc, us, wl, body)) (hm76 : 76 ≤ m)
    (hm : m < 16 + body.length) :
    (nexRead cfg (([0xd4, 0xc3, 0xb2, 0xa1] ++ hdr20) ++
      (encNexStream pkts ++ (encNexPkt (sc, us, wl, body)).take m))).1 = none ∧
    (nexRead cfg (([0xd4, 0xc3, 0xb2, 0xa1] ++ hdr20) ++
      (encNexStream pkts ++ (encNexPkt (sc, us, wl, body)).take m))).2.count =
      pkts.length + 1 := by
  have hel : (encNexPkt (sc, us, wl, body)).length = 16 + body.length := by
    simp [encNexPkt, u32le]
    omega
  have hflen : (([0xd4, 0xc3, 0xb2, 0xa1] ++ hdr20) ++
      (encNexStream pkts ++ (encNexPkt (sc, us, wl, body)).take m)).length =
      24 + ((encNexStream pkts).length + m) := by
    simp [List.length_append, List.length_take, hh20, hel]
    omega
  have hmg : [(([0xd4, 0xc3, 0xb2, 0xa1] ++ hdr20) ++
      (encNexStream pkts ++ (encNexPkt (sc, us, wl, body)).take m)).getD 0 0,
      (([0xd4, 0xc3, 0xb2, 0xa1] ++ hdr20) ++
      (encNexStream pkts ++ (encNexPkt (sc, us, wl, body)).take m)).getD 1 0,
      (([0xd4, 0xc3, 0xb2, 0xa1] ++ hdr20) ++
      (encNexStream pkts ++ (encNexPkt (sc, us, wl, body)).take m)).getD 2 0,
      (([0xd4, 0xc3, 0xb2, 0xa1] ++ hdr20) ++
      (encNexStream pkts ++ (encNexPkt (sc, us, wl, body)).take m)).getD 3 0] =
      [0xd4, 0xc3, 0xb2, 0xa1] := rfl
  have hge := encNexStream_len_ge pkts
  have hfuel : (([0xd4, 0xc3, 0xb2, 0xa1] ++ hdr20) ++
      (encNexStream pkts ++ (encNexPkt (sc, us, wl, body)).take m)).length + 1 =
      (((([0xd4, 0xc3, 0xb2, 0xa1] ++ hdr20) ++
        (encNexStream pkts ++ (encNexPkt (sc, us, wl, body)).take m)).length -
        pkts.length) + 1) + pkts.length := by
    omega
  obtain ⟨st2, hstr, hcnt⟩ := nexGo_stream cfg pkts ([0xd4, 0xc3, 0xb2, 0xa1] ++ hdr20)
    ((encNexPkt (sc, us, wl, body)).take m)
    ((((([0xd4, 0xc3, 0xb2, 0xa1] ++ hdr20) ++
      (encNexStream pkts ++ (encNexPkt (sc, us, wl, body)).take m)).length -
      pkts.length)) + 1) zeroNexSt hgoods
  have hcur : ([0xd4, 0xc3, 0xb2, 0xa1] ++ hdr20).length + (encNexStream pkts).length =
      (([0xd4, 0xc3, 0xb2, 0xa1] ++ hdr20) ++ encNexStream pkts).length :=
    (List.length_append _ _).symm
  have hassoc : ([0xd4, 0xc3, 0xb2, 0xa1] ++ hdr20) ++
      (encNexStream pkts ++ (encNexPkt (sc, us, wl, body)).take m) =
      (([0xd4, 0xc3, 0xb2, 0xa1] ++ hdr20) ++ encNexStream pkts) ++
        (encNexPkt (sc, us, wl, body)).take m := by
    simp [List.append_assoc]
  have h24 : (24 : ℕ) = ([0xd4, 0xc3, 0xb2, 0xa1] ++ hdr20).length := by
    simp [hh20]
  unfold nexRead
  dsimp only
  rw [hmg]
  rw [if_neg (by decide), if_pos rfl]
  unfold nexReadGo
  rw [if_neg (by rw [hflen]; omega)]
  dsimp only
  rw [if_pos rfl]
  rw [h24, hfuel, hstr]
  refine ⟨rfl, ?_⟩
  dsimp only
  rw [hcur, hassoc]
  rw [nexGo_trunc_payload cfg (([0xd4, 0xc3, 0xb2, 0xa1] ++ hdr20) ++ encNexStream pkts)
    sc us wl body m _ st2 hgood hm76 hm]
  rw [hcnt]
  have h0 : zeroNexSt.count = 0 := rfl
  omega

/-- `Nexmon.read` (little-endian pcap, microsecond precision) on a
well-formed packet stream followed by fewer than 16 trailing bytes: the
short packet-header read breaks the loop, no error, only the complete
packets counted. -/
theorem nexRead_trunc_short (cfg : NexCfg) (hdr20 : List ℕ)
    (pkts : List (ℕ × ℕ × ℕ × List ℕ)) (tail : List ℕ)
    (hh20 : hdr20.length = 20)
    (hgoods : ∀ p ∈ pkts, GoodNexPkt p)
    (htail : tail.length < 16) :
    (nexRead cfg (([0xd4, 0xc3, 0xb2, 0xa1] ++ hdr20) ++
      (encNexStream pkts ++ tail))).1 = none ∧
    (nexRead cfg (([0xd4, 0xc3, 0xb2, 0xa1] ++ hdr20) ++
      (encNexStream pkts ++ tail))).2.count = pkts.length := by
  have hflen : (([0xd4, 0xc3, 0xb2, 0xa1] ++ hdr20) ++
      (encNexStream pkts ++ tail)).length =
      24 + ((encNexStream pkts).length + tail.length) := by
    simp [List.length_append, hh20]
    omega
  have hmg : [(([0xd4, 0xc3, 0xb2, 0xa1] ++ hdr20) ++
      (encNexStream pkts ++ tail)).getD 0 0,
      (([0xd4, 0xc3, 0xb2, 0xa1] ++ hdr20) ++ (encNexStream pkts ++ tail)).getD 1 0,
      (([0xd4, 0xc3, 0xb2, 0xa1] ++ hdr20) ++ (encNexStream pkts ++ tail)).getD 2 0,
      (([0xd4, 0xc3, 0xb2, 0xa1] ++ hdr20) ++ (encNexStream pkts ++ tail)).getD 3 0] =
      [0xd4, 0xc3, 0xb2, 0xa1] := rfl
  have hge := encNexStream_len_ge pkts
  have hfuel : (([0xd4, 0xc3, 0xb2, 0xa1] ++ hdr20) ++
      (encNexStream pkts ++ tail)).length + 1 =
      ((([0xd4, 0xc3, 0xb2, 0xa1] ++ hdr20) ++
        (encNexStream pkts ++ tail)).length + 1 - pkts.length) + pkts.length := by
    omega
  obtain ⟨st2, hstr, hcnt⟩ := nexGo_stream cfg pkts ([0xd4, 0xc3, 0xb2, 0xa1] ++ hdr20)
    tail ((([0xd4, 0xc3, 0xb2, 0xa1] ++ hdr20) ++
      (encNexStream pkts ++ tail)).length + 1 - pkts.length) zeroNexSt hgoods
  have h24 : (24 : ℕ) = ([0xd4, 0xc3, 0xb2, 0xa1] ++ hdr20).length := by
    simp [hh20]
  unfold nexRead
  dsimp only
  rw [hmg]
  rw [if_neg (by decide), if_pos rfl]
  unfold nexReadGo
  rw [if_neg (by rw [hflen]; omega)]
  dsimp only
  rw [if_pos rfl]
  rw [h24, hfuel, hstr]
  rw [nexGo_exit cfg _ cu16l cu32l _ _ st2 (by rw [hflen]; simp [hh20]; omega)]
  refine ⟨rfl, ?_⟩
  dsimp only
  rw [hcnt]
  have h0 : zeroNexSt.count = 0 := rfl
  omega

/-- A 42-byte ethernet/ip/udp prefix carrying the b'NEXMON' marker at
offsets 6..11. -/
def nexMarkerEth : List ℕ :=
  List.replicate 6 0 ++ [78, 69, 88, 77, 79, 78] ++ List.replicate 30 0

/-- A 124-byte marker packet body: marker prefix, 18-byte application
header, 64-byte CSI payload. -/
def c3Body : List ℕ := nexMarkerEth ++ List.replicate 18 0 ++ List.replicate 64 7

/-- A pcap file (little-endian magic, 20-byte header tail) holding a
single marker packet truncated 10 bytes into its 64-byte CSI payload:
only 86 of the 140 record bytes are present. -/
def c3TruncFile : List ℕ :=
  [0xd4, 0xc3, 0xb2, 0xa1] ++ List.replicate 20 0 ++
    (encNexPkt (0, 0, 124, c3Body)).take 86

set_option maxRecDepth 8192 in
/-- C3, counterexample: on a pcap file truncated in the middle of its
only packet's CSI payload, `Nexmon.read` raises no error but counts the
incomplete packet, so the resulting count (1) differs from the number of
complete records preceding the truncation point (0). -/
theorem C3_counterexample :
    (nexRead ⟨"4339", 5⟩ c3TruncFile).1 = none ∧
    (nexRead ⟨"4339", 5⟩ c3TruncFile).2.count = 1 ∧ (1 : ℕ) ≠ 0 :=
  ⟨by decide, by decide, by decide⟩

/-- C3 (amended): a file truncated mid-record, whose complete records fit
the preallocated stores (`file_size / 95` for Intel, `file_size / 420`
for Atheros — with a full store the loop raises `IndexError` at a
complete record instead of reaching the truncation point), raises no
error in any of the three batch decoders, and the counted records are:
for `CSI.read` and `Atheros.read` exactly the complete records preceding
the truncation point; for `Nexmon.read` the same when the truncation
falls inside the 16-byte pcap packet header, but one MORE than the
complete records when a marker packet is truncated inside its CSI
payload (at or beyond byte 76 of the record), because the loop never
checks the short reads after the packet header. -/
theorem C3_truncated_file_counts (cfgI : CSICfg) (recsI : List (ℕ × List ℕ))
    (tI : ℕ) (plI : List ℕ) (mI : ℕ)
    (cfgA : AthCfg) (recsA : List (List ℕ × List ℕ × List ℕ))
    (hdrA csibA plbA : List ℕ) (mA : ℕ)
    (cfgN : NexCfg) (hdr20 : List ℕ) (pktsN : List (ℕ × ℕ × ℕ × List ℕ))
    (tailN : List ℕ) (sc us wl : ℕ) (bodyN : List ℕ) (mN : ℕ)
    (hgoodI : ∀ r ∈ recsI, GoodRec cfgI r) (hmI : mI < 3 + plI.length)
    (hcbI : countBB recsI ≤ (encStream recsI ++ (encRec tI plI).take mI).length / 95)
    (hccI : countC1 recsI ≤ (encStream recsI ++ (encRec tI plI).take mI).length / 95)
    (hgoodA : ∀ r ∈ recsA, GoodAthRec cfgA r) (hh25 : hdrA.length = 25)
    (hfl65 : 25 + csibA.length + plbA.length < 65536)
    (hmA : mA < 27 + csibA.length + plbA.length)
    (hcapA : recsA.length ≤
      (encAthStream recsA ++ (encAthRec (hdrA, csibA, plbA)).take mA).length / 420)
    (hh20 : hdr20.length = 20) (hgoodN : ∀ p ∈ pktsN, GoodNexPkt p)
    (htail : tailN.length < 16)
    (hgoodP : GoodNexPkt (sc, us, wl, bodyN)) (hmN76 : 76 ≤ mN)
    (hmN : mN < 16 + bodyN.length) :
    ((csiRead cfgI (encStream recsI ++ (encRec tI plI).take mI)).1 = none ∧
     (csiRead cfgI (encStream recsI ++ (encRec tI plI).take mI)).2.count =
       countBB recsI) ∧
    ((athRead cfgA "little" (encAthStream recsA ++
        (encAthRec (hdrA, csibA, plbA)).take mA)).1 = none ∧
     (athRead cfgA "little" (encAthStream recsA ++
        (encAthRec (hdrA, csibA, plbA)).take mA)).2.count = recsA.length) ∧
    ((nexRead cfgN (([0xd4, 0xc3, 0xb2, 0xa1] ++ hdr20) ++
        (encNexStream pktsN ++ tailN))).1 = none ∧
     (nexRead cfgN (([0xd4, 0xc3, 0xb2, 0xa1] ++ hdr20) ++
        (encNexStream pktsN ++ tailN))).2.count = pktsN.length) ∧
    ((nexRead cfgN (([0xd4, 0xc3, 0xb2, 0xa1] ++ hdr20) ++
        (encNexStream pktsN ++ (encNexPkt (sc, us, wl, bodyN)).take mN))).1 = none ∧
     (nexRead cfgN (([0xd4, 0xc3, 0xb2, 0xa1] ++ hdr20) ++
        (encNexStream pktsN ++ (encNexPkt (sc, us, wl, bodyN)).take mN))).2.count =
       pktsN.length + 1) := by
  obtain ⟨i1, i2, _, _⟩ := csiRead_truncated cfgI recsI tI plI mI hgoodI hmI hcbI hccI
  obtain ⟨a1, a2, _⟩ := athRead_truncated cfgA recsA hdrA csibA plbA mA hgoodA
    hh25 hfl65 hmA hcapA
  obtain ⟨n1, n2⟩ := nexRead_trunc_short cfgN hdr20 pktsN tailN hh20 hgoodN htail
  obtain ⟨n3, n4⟩ := nexRead_trunc_payload cfgN hdr20 pktsN sc us wl bodyN mN hh20
    hgoodN hgoodP hmN76 hmN
  exact ⟨⟨i1, i2⟩, ⟨a1, a2⟩, ⟨n1, n2⟩, ⟨n3, n4⟩⟩

set_option maxRecDepth 8192 in
/-- Witness for C3 at concrete inputs: empty well-formed prefixes, a
CSI record truncated after 4 of 8 bytes, an Atheros record truncated
after 5 of 27 bytes, 3 stray trailing bytes for the Nexmon short case,
and the single marker packet of `c3TruncFile` cut inside its payload. -/
theorem C3_witness :
    ((csiRead ⟨3, 2, 10⟩ (encStream [] ++ (encRec 0xbb (List.range 5)).take 4)).1 =
       none ∧
     (csiRead ⟨3, 2, 10⟩ (encStream [] ++ (encRec 0xbb (List.range 5)).take 4)).2.count =
       countBB []) ∧
    ((athRead ⟨3, 3, 56, 10⟩ "little" (encAthStream [] ++
        (encAthRec (List.replicate 25 0, [], [])).take 5)).1 = none ∧
     (athRead ⟨3, 3, 56, 10⟩ "little" (encAthStream [] ++
        (encAthRec (List.replicate 25 0, [], [])).take 5)).2.count = ([] : List (List ℕ × List ℕ × List ℕ)).length) ∧
    ((nexRead ⟨"4339", 5⟩ (([0xd4, 0xc3, 0xb2, 0xa1] ++ List.replicate 20 0) ++
        (encNexStream [] ++ [1, 2, 3]))).1 = none ∧
     (nexRead ⟨"4339", 5⟩ (([0xd4, 0xc3, 0xb2, 0xa1] ++ List.replicate 20 0) ++
        (encNexStream [] ++ [1, 2, 3]))).2.count = ([] : List (ℕ × ℕ × ℕ × List ℕ)).length) ∧
    ((nexRead ⟨"4339", 5⟩ (([0xd4, 0xc3, 0xb2, 0xa1] ++ List.replicate 20 0) ++
        (encNexStream [] ++ (encNexPkt (0, 0, 124, c3Body)).take 86))).1 = none ∧
     (nexRead ⟨"4339", 5⟩ (([0xd4, 0xc3, 0xb2, 0xa1] ++ List.replicate 20 0) ++
        (encNexStream [] ++ (encNexPkt (0, 0, 124, c3Body)).take 86))).2.count =
       ([] : List (ℕ × ℕ × ℕ × List ℕ)).length + 1) :=
  C3_truncated_file_counts ⟨3, 2, 10⟩ [] 0xbb (List.range 5) 4 ⟨3, 3, 56, 10⟩ []
    (List.replicate 25 0) [] [] 5 ⟨"4339", 5⟩ (List.replicate 20 0) [] [1, 2, 3]
    0 0 124 c3Body 86
    (by decide) (by decide) (by decide) (by decide) (by decide) (by decide)
    (by decide) (by decide) (by decide) (by decide) (by decide) (by decide)
    (by decide) (by decide) (by decide)

/-!  ## Spatial-mapping removal (`CSI.__remove_sm` / `intel_mm_o3`)

The transform multiplies each record's `[30, N, M]` CSI block by a
spatial-mapping matrix chosen by the transmit-stream count `M = Ntx[i]`
and the 40MHz bit of the rate field.  The four matrices are complex
constants built from `np.sqrt`/`np.e`; their numeric values are
irrelevant to the pass-through property, so the model is parameterized
over the scalar type and the four matrices.  In-place use aliases the
input and output arrays: the model threads a pair (read array, write
array) that collapses to a single array when `inplace` is set, which is
exact because each loop iteration reads each cell before writing it and
touches only record `i`'s block. -/

/-- `intel_mm_o3`: multiply the `[30, N, M]` block by `sm` on the right
(output stream `t` sums `r_k * sm[k][t]`); streams counts other than 2
and 3 write nothing. -/
def intelMmO3 {α : Type} [Add α] [Mul α] (sm : ℕ → ℕ → α) (N M : ℕ)
    (src ret : ℕ → ℕ → ℕ → α) : ℕ → ℕ → ℕ → α :=
  if M = 2 then
    fun s j t =>
      if s < 30 ∧ j < N ∧ t < 2 then
        src s j 0 * sm 0 t + src s j 1 * sm 1 t
      else ret s j t
  else if M = 3 then
    fun s j t =>
      if s < 30 ∧ j < N ∧ t < 3 then
        src s j 0 * sm 0 t + src s j 1 * sm 1 t + src s j 2 * sm 2 t
      else ret s j t
  else ret

/-- One iteration of the `__remove_sm` loop at record `i`, acting on the
pair (array read as `scaled_csi_mem`, array written as `ret_mem`). -/
def removeSmStep {α : Type} [Zero α] [Add α] [Mul α]
    (sm_2_20 sm_2_40 sm_3_20 sm_3_40 : ℕ → ℕ → α)
    (Ntx Nrx rate : ℕ → ℕ) (inplace : Bool)
    (p : (ℕ → ℕ → ℕ → ℕ → α) × (ℕ → ℕ → ℕ → ℕ → α)) (i : ℕ) :
    (ℕ → ℕ → ℕ → ℕ → α) × (ℕ → ℕ → ℕ → ℕ → α) :=
  let M := Ntx i
  let N := Nrx i
  let B := rate i &&& 0x800 = 0x800
  let slice : ℕ → ℕ → ℕ → α :=
    if B then
      if M = 3 then intelMmO3 sm_3_40 N M (p.1 i) (p.2 i)
      else if M = 2 then intelMmO3 sm_2_40 N M (p.1 i) (p.2 i)
      else if inplace = false then
        fun s j t => if s < 30 ∧ j < N ∧ t < M then p.1 i s j t else p.2 i s j t
      else p.2 i
    else
      if M = 3 then intelMmO3 sm_3_20 N M (p.1 i) (p.2 i)
      else if M = 2 then intelMmO3 sm_2_20 N M (p.1 i) (p.2 i)
      else if inplace = false then
        fun s j t => if s < 30 ∧ j < N ∧ t < M then p.1 i s j t else p.2 i s j t
      else p.2 i
  let R2 : ℕ → ℕ → ℕ → ℕ → α := fun q => if q = i then slice else p.2 q
  if inplace then (R2, R2) else (p.1, R2)

/-- `CSI.__remove_sm`: run the loop over all records; in-place starts
from (and mutates) the input, the copy variant writes into a
zero-initialized array. -/
def removeSm {α : Type} [Zero α] [Add α] [Mul α]
    (sm_2_20 sm_2_40 sm_3_20 sm_3_40 : ℕ → ℕ → α)
    (Ntx Nrx rate : ℕ → ℕ) (count : ℕ)
    (scaled_csi : ℕ → ℕ → ℕ → ℕ → α) (inplace : Bool) : ℕ → ℕ → ℕ → ℕ → α :=
  ((List.range count).foldl
    (removeSmStep sm_2_20 sm_2_40 sm_3_20 sm_3_40 Ntx Nrx rate inplace)
    (if inplace then (scaled_csi, scaled_csi)
     else (scaled_csi, fun _ _ _ _ => 0))).2

section RemoveSmLemmas

variable {α : Type} [Zero α] [Add α] [Mul α]
variable (s220 s240 s320 s340 : ℕ → ℕ → α) (Ntx Nrx rate : ℕ → ℕ)

theorem removeSmStep_fst_copy (p : (ℕ → ℕ → ℕ → ℕ → α) × (ℕ → ℕ → ℕ → ℕ → α))
    (i : ℕ) :
    (removeSmStep s220 s240 s320 s340 Ntx Nrx rate false p i).1 = p.1 := by
  unfold removeSmStep
  dsimp only
  rw [if_neg (by simp)]

theorem removeSmStep_snd_ne (inplace : Bool)
    (p : (ℕ → ℕ → ℕ → ℕ → α) × (ℕ → ℕ → ℕ → ℕ → α)) (i q : ℕ) (hq : q ≠ i) :
    (removeSmStep s220 s240 s320 s340 Ntx Nrx rate inplace p i).2 q = p.2 q := by
  unfold removeSmStep
  dsimp only
  cases inplace with
  | false =>
    rw [if_neg (by simp)]
    dsimp only
    rw [if_neg hq]
  | true =>
    rw [if_pos rfl]
    dsimp only
    rw [if_neg hq]

theorem removeSmStep_snd_pass
    (p : (ℕ → ℕ → ℕ → ℕ → α) × (ℕ → ℕ → ℕ → ℕ → α)) (i : ℕ)
    (h2 : Ntx i ≠ 2) (h3 : Ntx i ≠ 3) :
    (removeSmStep s220 s240 s320 s340 Ntx Nrx rate true p i).2 i = p.2 i := by
  unfold removeSmStep
  dsimp only
  rw [if_pos rfl]
  dsimp only
  rw [if_pos rfl]
  split_ifs <;> first | rfl | omega | simp_all

theorem removeSmStep_snd_copy
    (p : (ℕ → ℕ → ℕ → ℕ → α) × (ℕ → ℕ → ℕ → ℕ → α)) (i : ℕ)
    (h2 : Ntx i ≠ 2) (h3 : Ntx i ≠ 3) :
    (removeSmStep s220 s240 s320 s340 Ntx Nrx rate false p i).2 i =
      fun s j t =>
        if s < 30 ∧ j < Nrx i ∧ t < Ntx i then p.1 i s j t else p.2 i s j t := by
  unfold removeSmStep
  dsimp only
  rw [if_neg (by simp)]
  dsimp only
  rw [if_pos rfl]
  split_ifs <;> first | rfl | omega | simp_all

theorem removeSmFold_inplace_at (i : ℕ) (h2 : Ntx i ≠ 2) (h3 : Ntx i ≠ 3) :
    ∀ (L : List ℕ) (p : (ℕ → ℕ → ℕ → ℕ → α) × (ℕ → ℕ → ℕ → ℕ → α)),
    ((L.foldl (removeSmStep s220 s240 s320 s340 Ntx Nrx rate true) p).2) i =
      p.2 i := by
  intro L
  induction L with
  | nil => intro p; rfl
  | cons q L ih =>
    intro p
    rw [List.foldl_cons, ih]
    by_cases hq : q = i
    · subst hq
      exact removeSmStep_snd_pass s220 s240 s320 s340 Ntx Nrx rate p q h2 h3
    · exact removeSmStep_snd_ne s220 s240 s320 s340 Ntx Nrx rate true p q i
        (fun h => hq h.symm)

theorem removeSmFold_copy_fst :
    ∀ (L : List ℕ) (p : (ℕ → ℕ → ℕ → ℕ → α) × (ℕ → ℕ → ℕ → ℕ → α)),
    (L.foldl (removeSmStep s220 s240 s320 s340 Ntx Nrx rate false) p).1 = p.1 := by
  intro L
  induction L with
  | nil => intro p; rfl
  | cons q L ih =>
    intro p
    rw [List.foldl_cons, ih, removeSmStep_fst_copy]

theorem removeSmFold_copy_keep (i : ℕ) (h2 : Ntx i ≠ 2) (h3 : Ntx i ≠ 3) :
    ∀ (L : List ℕ) (p : (ℕ → ℕ → ℕ → ℕ → α) × (ℕ → ℕ → ℕ → ℕ → α)),
    (∀ s j t, s < 30 → j < Nrx i → t < Ntx i → p.2 i s j t = p.1 i s j t) →
    ∀ s j t, s < 30 → j < Nrx i → t < Ntx i →
      ((L.foldl (removeSmStep s220 s240 s320 s340 Ntx Nrx rate false) p).2) i s j t =
        p.1 i s j t := by
  intro L
  induction L with
  | nil =>
    intro p h0 s j t hs hj ht
    exact h0 s j t hs hj ht
  | cons q L ih =>
    intro p h0 s j t hs hj ht
    rw [List.foldl_cons]
    have hprop : ∀ s j t, s < 30 → j < Nrx i → t < Ntx i →
        (removeSmStep s220 s240 s320 s340 Ntx Nrx rate false p q).2 i s j t =
        (removeSmStep s220 s240 s320 s340 Ntx Nrx rate false p q).1 i s j t := by
      intro s j t hs hj ht
      rw [removeSmStep_fst_copy]
      by_cases hq : q = i
      · subst hq
        rw [removeSmStep_snd_copy s220 s240 s320 s340 Ntx Nrx rate p q h2 h3]
        exact if_pos ⟨hs, hj, ht⟩
      · rw [removeSmStep_snd_ne s220 s240 s320 s340 Ntx Nrx rate false p q i
          (fun h => hq h.symm)]
        exact h0 s j t hs hj ht
    have := ih (removeSmStep s220 s240 s320 s340 Ntx Nrx rate false p q) hprop
      s j t hs hj ht
    rwa [removeSmStep_fst_copy] at this

theorem removeSmFold_copy_hit (i : ℕ) (h2 : Ntx i ≠ 2) (h3 : Ntx i ≠ 3) :
    ∀ (L : List ℕ) (p : (ℕ → ℕ → ℕ → ℕ → α) × (ℕ → ℕ → ℕ → ℕ → α)),
    i ∈ L →
    ∀ s j t, s < 30 → j < Nrx i → t < Ntx i →
      ((L.foldl (removeSmStep s220 s240 s320 s340 Ntx Nrx rate false) p).2) i s j t =
        p.1 i s j t := by
  intro L
  induction L with
  | nil => intro p hmem; exact absurd hmem (List.not_mem_nil i)
  | cons q L ih =>
    intro p hmem s j t hs hj ht
    rw [List.foldl_cons]
    by_cases hq : q = i
    · subst hq
      have hprop : ∀ s j t, s < 30 → j < Nrx q → t < Ntx q →
          (removeSmStep s220 s240 s320 s340 Ntx Nrx rate false p q).2 q s j t =
          (removeSmStep s220 s240 s320 s340 Ntx Nrx rate false p q).1 q s j t := by
        intro s j t hs hj ht
        rw [removeSmStep_fst_copy,
          removeSmStep_snd_copy s220 s240 s320 s340 Ntx Nrx rate p q h2 h3]
        exact if_pos ⟨hs, hj, ht⟩
      have := removeSmFold_copy_keep s220 s240 s320 s340 Ntx Nrx rate q h2 h3 L
        (removeSmStep s220 s240 s320 s340 Ntx Nrx rate false p q) hprop s j t hs hj ht
      rwa [removeSmStep_fst_copy] at this
    · have hmem2 : i ∈ L := by
        cases List.mem_cons.1 hmem with
        | inl h => exact absurd h.symm hq
        | inr h => exact h
      have := ih (removeSmStep s220 s240 s320 s340 Ntx Nrx rate false p q) hmem2
        s j t hs hj ht
      rwa [removeSmStep_fst_copy] at this

end RemoveSmLemmas

/-- C8: spatial-mapping removal on a record whose transmit-stream count
is neither 2 nor 3 (e.g. a single stream) returns that record's CSI
block unchanged: the in-place variant leaves every cell of the record
untouched, and the copy variant reproduces the input on the record's
`[30, Nrx, Ntx]` block. -/
theorem C8_remove_sm_passthrough {α : Type} [Zero α] [Add α] [Mul α]
    (sm_2_20 sm_2_40 sm_3_20 sm_3_40 : ℕ → ℕ → α)
    (Ntx Nrx rate : ℕ → ℕ) (count : ℕ) (scaled_csi : ℕ → ℕ → ℕ → ℕ → α)
    (i : ℕ) (hi : i < count) (h2 : Ntx i ≠ 2) (h3 : Ntx i ≠ 3) :
    (∀ s j t, removeSm sm_2_20 sm_2_40 sm_3_20 sm_3_40 Ntx Nrx rate count
        scaled_csi true i s j t = scaled_csi i s j t) ∧
    (∀ s j t, s < 30 → j < Nrx i → t < Ntx i →
      removeSm sm_2_20 sm_2_40 sm_3_20 sm_3_40 Ntx Nrx rate count
        scaled_csi false i s j t = scaled_csi i s j t) := by
  constructor
  · intro s j t
    unfold removeSm
    rw [if_pos rfl]
    rw [removeSmFold_inplace_at sm_2_20 sm_2_40 sm_3_20 sm_3_40 Ntx Nrx rate i h2 h3
      (List.range count) (scaled_csi, scaled_csi)]
  · intro s j t hs hj ht
    unfold removeSm
    rw [if_neg (by simp)]
    exact removeSmFold_copy_hit sm_2_20 sm_2_40 sm_3_20 sm_3_40 Ntx Nrx rate i h2 h3
      (List.range count) (scaled_csi, fun _ _ _ _ => 0) (List.mem_range.2 hi)
      s j t hs hj ht

/-- Witness for C8 over ℤ with all-ones matrices: one record with a
single transmit stream passes through unchanged in both variants. -/
theorem C8_witness :
    (0 : ℕ) < 1 ∧ (1 : ℕ) ≠ 2 ∧ (1 : ℕ) ≠ 3 ∧
    removeSm (fun _ _ => (1 : ℤ)) (fun _ _ => 1) (fun _ _ => 1) (fun _ _ => 1)
      (fun _ => 1) (fun _ => 2) (fun _ => 0) 1
      (fun i s j t => (i : ℤ) + 2 * s + 3 * j + 5 * t) true 0 4 5 6 =
      ((0 : ℤ) + 2 * 4 + 3 * 5 + 5 * 6) ∧
    removeSm (fun _ _ => (1 : ℤ)) (fun _ _ => 1) (fun _ _ => 1) (fun _ _ => 1)
      (fun _ => 1) (fun _ => 2) (fun _ => 0) 1
      (fun i s j t => (i : ℤ) + 2 * s + 3 * j + 5 * t) false 0 4 1 0 =
      ((0 : ℤ) + 2 * 4 + 3 * 1 + 5 * 0) :=
  ⟨by decide, by decide, by decide,
   (C8_remove_sm_passthrough (fun _ _ => (1 : ℤ)) (fun _ _ => 1) (fun _ _ => 1)
     (fun _ _ => 1) (fun _ => 1) (fun _ => 2) (fun _ => 0) 1
     (fun i s j t => (i : ℤ) + 2 * s + 3 * j + 5 * t) 0 (by decide) (by decide)
     (by decide)).1 4 5 6,
   (C8_remove_sm_passthrough (fun _ _ => (1 : ℤ)) (fun _ _ => 1) (fun _ _ => 1)
     (fun _ _ => 1) (fun _ => 1) (fun _ => 2) (fun _ => 0) 1
     (fun i s j t => (i : ℤ) + 2 * s + 3 * j + 5 * t) 0 (by decide) (by decide)
     (by decide)).2 4 1 0 (by decide) (by decide) (by decide)⟩

end Csiread
